import Mathlib

/-!
Verification development for the kiwi.js incremental linear constraint
solver (src/ts/src/solver.ts, src/ts/src/variable.ts).

The tableau engine is shallowly embedded: JavaScript `Map`s become
insertion-ordered association lists (JS `Map.set` updates a present key in
place and appends an absent key; `forEach` iterates in insertion order),
IEEE doubles become exact rationals, the infeasible-rows array becomes a
list with push-at-end / pop-at-end semantics, thrown exceptions become an
`Option SolverError` paired with the state at the moment of the throw, and
the two unbounded `while` loops (`_optimize`, `_dualOptimize`) take an
explicit fuel argument, returning `outOfFuel` when it is exhausted.

The expression algebra (constraint, expression, strength) is outside the
core sources; those types are modelled from the spec, as marked on their
doc comments.
-/

set_option autoImplicit false
set_option maxRecDepth 100000

namespace Kiwi

/-- Tolerance used by the solver; `eps = 10⁻⁸` as in `nearZero` (written
as a raw rational so that it evaluates by reduction). -/
def eps : ℚ := ⟨1, 100000000, by decide, by decide⟩

/-- Embeds `nearZero` from solver.ts: `value < 0 ? -value < eps : value < eps`. -/
def nearZero (value : ℚ) : Bool :=
  if value < 0 then decide (-value < eps) else decide (value < eps)

/-- Embeds the `SymbolType` enum from solver.ts. -/
inductive SymbolType where
  | Invalid
  | External
  | Slack
  | Error
  | Dummy
deriving DecidableEq, Repr

/-- Embeds the solver's `Symbol` class: a unique integer id plus a type tag.
Identity is by id (the solver mints every symbol from one counter, so id
equality coincides with JS object identity). -/
structure Symbol where
  id : Int
  type : SymbolType
deriving DecidableEq, Repr

/-- Embeds `INVALID_SYMBOL`, the sentinel with id `-1`. -/
def INVALID_SYMBOL : Symbol := ⟨-1, SymbolType.Invalid⟩

/-! Association lists with JS `Map` semantics: `alSet` updates a present key
in place (keeping its position) and appends an absent key at the end;
`alGet` returns the first binding; `alDel` removes every binding of the key.
Iteration order of `Map.forEach` is the list order. -/

/-- Lookup of the first binding of a key in an association list. -/
def alGet {α β : Type} [DecidableEq α] : List (α × β) → α → Option β
  | [], _ => none
  | p :: t, k => if p.1 = k then some p.2 else alGet t k

/-- JS `Map.set`: update in place if the key is present, else append. -/
def alSet {α β : Type} [DecidableEq α] : List (α × β) → α → β → List (α × β)
  | [], k, v => [(k, v)]
  | p :: t, k, v => if p.1 = k then (k, v) :: t else p :: alSet t k v

/-- JS `Map.delete`: remove the key's bindings. -/
def alDel {α β : Type} [DecidableEq α] : List (α × β) → α → List (α × β)
  | [], _ => []
  | p :: t, k => if p.1 = k then alDel t k else p :: alDel t k

/-- Embeds the solver's `Row` class: a constant plus an insertion-ordered
cell map from symbols to coefficients. -/
structure Row where
  constant : ℚ
  cells : List (Symbol × ℚ)
deriving DecidableEq, Repr

namespace Row

/-- Embeds `Row.add`: add a value to the row constant. -/
def add (r : Row) (value : ℚ) : Row :=
  { r with constant := r.constant + value }

/-- Embeds `Row.coefficientFor`: the stored coefficient, or 0. -/
def coefficientFor (r : Row) (symbol : Symbol) : ℚ :=
  (alGet r.cells symbol).getD 0

/-- Embeds `Row.insertSymbol`: add the coefficient to the existing one
(`set` keeps the position of a present key), then drop the cell if the
result is near zero. -/
def insertSymbol (r : Row) (symbol : Symbol) (coefficient : ℚ) : Row :=
  let c := coefficient + r.coefficientFor symbol
  if nearZero c then { r with cells := alDel r.cells symbol }
  else { r with cells := alSet r.cells symbol c }

/-- Embeds `Row.insertRow`: scaled addition of another row, cell by cell in
the other row's iteration order. -/
def insertRow (r : Row) (other : Row) (coefficient : ℚ) : Row :=
  other.cells.foldl (fun acc cell => acc.insertSymbol cell.1 (cell.2 * coefficient))
    { r with constant := r.constant + other.constant * coefficient }

/-- Embeds `Row.removeSymbol`. -/
def removeSymbol (r : Row) (symbol : Symbol) : Row :=
  { r with cells := alDel r.cells symbol }

/-- Embeds `Row.reverseSign`: negate the constant and every coefficient. -/
def reverseSign (r : Row) : Row :=
  ⟨-r.constant, r.cells.map (fun p => (p.1, -p.2))⟩

/-- Embeds `Row.solveFor`. Precondition in the source: the symbol is
present with non-zero coefficient (the JS code divides by it); outside the
precondition the JS code would produce NaN, while here `-1/0 = 0`. -/
def solveFor (r : Row) (symbol : Symbol) : Row :=
  let coeff := -1 / r.coefficientFor symbol
  ⟨r.constant * coeff, (alDel r.cells symbol).map (fun p => (p.1, p.2 * coeff))⟩

/-- Embeds `Row.solveForEx`: insert the lhs with coefficient −1, then solve
for the rhs. -/
def solveForEx (r : Row) (lhs rhs : Symbol) : Row :=
  (r.insertSymbol lhs (-1)).solveFor rhs

/-- Embeds `Row.substitute`: if the symbol is a cell with coefficient `a`,
remove it and insert the other row scaled by `a`. -/
def substitute (r : Row) (symbol : Symbol) (other : Row) : Row :=
  match alGet r.cells symbol with
  | some a => (r.removeSymbol symbol).insertRow other a
  | none => r

/-- Embeds `Row.isConstant`: no cells. -/
def isConstant (r : Row) : Bool :=
  r.cells.isEmpty

/-- Embeds `Row.allDummies`: every cell's symbol is of type Dummy. -/
def allDummies (r : Row) : Bool :=
  r.cells.all (fun p => decide (p.1.type = SymbolType.Dummy))

end Row

/-- Modelled from the spec: the identity of a caller-owned `Variable`
(variable.ts gives each variable a unique id from a counter; the solver
uses variables only as map keys and writes their value slot). -/
abbrev VarId := Nat

/-- Modelled from the spec: constraint operators `{≤, =, ≥}` (constraint.ts
is not under src/). -/
inductive Operator where
  | Le
  | Ge
  | Eq
deriving DecidableEq, Repr

/-- Modelled from the spec: an expression exposes a scalar constant and an
ordered sequence of (coefficient, variable) terms (expression.ts is not
under src/). -/
structure Expression where
  constant : ℚ
  terms : List (ℚ × VarId)
deriving DecidableEq, Repr

/-- Modelled from the spec: a constraint is an immutable
`{expression, operator, strength}` with identity semantics; `cid` models JS
object identity (two structurally equal constraint objects are distinct map
keys unless they are the same object). -/
structure Constraint where
  cid : Nat
  expression : Expression
  op : Operator
  strength : ℚ
deriving DecidableEq, Repr

namespace Strength

/-- Modelled from the spec: the distinguished `required` sentinel strength
(strength.ts is not under src/; only the sentinel and `clip` are needed).
The concrete value is the conventional kiwi one,
`create(1000, 1000, 1000) = 1000·10⁶ + 1000·10³ + 1000 = 1001001000`,
written as a raw `Rat` constructor so that it evaluates cheaply; the
solver only compares against it. -/
def required : ℚ := ⟨1001001000, 1, by decide, by decide⟩

/-- Modelled from the spec: `clip` maps any real into `[0, required]`. -/
def clip (value : ℚ) : ℚ := max 0 (min value required)

end Strength

/-- Embeds the `ITag` interface: the marker/other symbol pair of a constraint. -/
structure Tag where
  marker : Symbol
  other : Symbol
deriving DecidableEq, Repr

/-- Embeds the `IEditInfo` interface. -/
structure EditInfo where
  tag : Tag
  constraint : Constraint
  constant : ℚ
deriving DecidableEq, Repr

/-- The named failure conditions of the solver. The three
`InternalSolverError` throw sites are distinguished; `outOfFuel` stands for
a `while` loop running longer than the fuel supplied to the embedding. -/
inductive SolverError where
  | duplicateConstraint
  | unknownConstraint
  | unsatisfiableConstraint
  | duplicateEditVariable
  | unknownEditVariable
  | badRequiredStrength
  | unboundedObjective
  | dualOptimizeFailed
  | failedToFindLeavingRow
  | internalCorrupt
  | outOfFuel
deriving DecidableEq, Repr

/-- The solver state: the fields of the `Solver` class, plus `varValues`
(the value slots of the caller-owned `Variable` objects, written by
`updateVariables`) and `cnTick` (models the freshness of `new Constraint`
objects synthesised by `addEditVariable`). -/
structure State where
  cnMap : List (Constraint × Tag)
  rowMap : List (Symbol × Row)
  varMap : List (VarId × Symbol)
  editMap : List (VarId × EditInfo)
  infeasibleRows : List Symbol
  objective : Row
  artificial : Option Row
  idTick : Int
  cnTick : Nat
  varValues : List (VarId × ℚ)
deriving DecidableEq, Repr

/-- A freshly constructed `Solver`. -/
def initState : State :=
  ⟨[], [], [], [], [], ⟨0, []⟩, none, 0, 0, []⟩

/-- Embeds `Solver._makeSymbol`: mint a symbol from the id counter. -/
def makeSymbol (s : State) (type : SymbolType) : State × Symbol :=
  ({ s with idTick := s.idTick + 1 }, ⟨s.idTick, type⟩)

/-- Embeds `Solver._getVarSymbol`: the External symbol for a variable,
minted on first use. -/
def getVarSymbol (s : State) (v : VarId) : State × Symbol :=
  match alGet s.varMap v with
  | some symbol => (s, symbol)
  | none =>
    let p := makeSymbol s SymbolType.External
    ({ p.1 with varMap := alSet p.1.varMap v p.2 }, p.2)

/-- Embeds the terms loop of `Solver._createRow`: splice each term into the
row, substituting currently basic variables by their rows. -/
def createRowTerms (s : State) (row : Row) (terms : List (ℚ × VarId)) : State × Row :=
  terms.foldl
    (fun acc t =>
      if nearZero t.1 then acc
      else
        let p := getVarSymbol acc.1 t.2
        match alGet p.1.rowMap p.2 with
        | some basicRow => (p.1, acc.2.insertRow basicRow t.1)
        | none => (p.1, acc.2.insertSymbol p.2 t.1))
    (s, row)

/-- Embeds the slack/error/dummy part of `Solver._createRow` (the `switch`
on the operator), before sign normalisation. -/
def createRowAux (s : State) (cn : Constraint) (row : Row) : State × Row × Tag :=
  let strength := cn.strength
  match cn.op with
  | Operator.Le | Operator.Ge =>
    let coeff : ℚ := if cn.op = Operator.Le then 1 else -1
    let p := makeSymbol s SymbolType.Slack
    let slack := p.2
    let row1 := row.insertSymbol slack coeff
    if strength < Strength.required then
      let q := makeSymbol p.1 SymbolType.Error
      let error := q.2
      let s2 := { q.1 with objective := q.1.objective.insertSymbol error strength }
      (s2, row1.insertSymbol error (-coeff), ⟨slack, error⟩)
    else
      (p.1, row1, ⟨slack, INVALID_SYMBOL⟩)
  | Operator.Eq =>
    if strength < Strength.required then
      let p := makeSymbol s SymbolType.Error
      let errplus := p.2
      let q := makeSymbol p.1 SymbolType.Error
      let errminus := q.2
      let s2 := { q.1 with objective :=
        (q.1.objective.insertSymbol errplus strength).insertSymbol errminus strength }
      (s2, (row.insertSymbol errplus (-1)).insertSymbol errminus 1, ⟨errplus, errminus⟩)
    else
      let p := makeSymbol s SymbolType.Dummy
      (p.1, row.insertSymbol p.2 1, ⟨p.2, INVALID_SYMBOL⟩)

/-- Embeds `Solver._createRow`: splice the terms, add auxiliaries, then
reverse the row's sign if its constant is negative. -/
def createRow (s : State) (cn : Constraint) : State × Row × Tag :=
  let p := createRowTerms s ⟨cn.expression.constant, []⟩ cn.expression.terms
  let q := createRowAux p.1 cn p.2
  (q.1, if q.2.1.constant < 0 then q.2.1.reverseSign else q.2.1, q.2.2)

/-- Embeds the first-External scan of `Solver._chooseSubject`. -/
def firstExternal (cells : List (Symbol × ℚ)) : Symbol :=
  cells.foldl
    (fun found c =>
      if found = INVALID_SYMBOL ∧ c.1.type = SymbolType.External then c.1 else found)
    INVALID_SYMBOL

/-- Embeds `Solver._chooseSubject`: the first External cell, else a Slack or
Error tag symbol with negative coefficient, else Invalid. -/
def chooseSubject (row : Row) (tag : Tag) : Symbol :=
  let found := firstExternal row.cells
  if found ≠ INVALID_SYMBOL then found
  else if (tag.marker.type = SymbolType.Slack ∨ tag.marker.type = SymbolType.Error) ∧
      row.coefficientFor tag.marker < 0 then tag.marker
  else if (tag.other.type = SymbolType.Slack ∨ tag.other.type = SymbolType.Error) ∧
      row.coefficientFor tag.other < 0 then tag.other
  else INVALID_SYMBOL

/-- Embeds `Solver._anyPivotableSymbol`: the first Slack or Error cell. -/
def anyPivotableSymbol (row : Row) : Symbol :=
  row.cells.foldl
    (fun found c =>
      if found = INVALID_SYMBOL ∧
          (c.1.type = SymbolType.Slack ∨ c.1.type = SymbolType.Error) then c.1
      else found)
    INVALID_SYMBOL

/-- Embeds `Solver._substitute`: substitute the symbol in every basic row,
pushing every non-External row left with a negative constant onto the
infeasible worklist (in iteration order), then substitute in the objective
and, when present, the artificial objective. -/
def substituteTableau (s : State) (symbol : Symbol) (row : Row) : State :=
  let newRows := s.rowMap.map (fun kr => (kr.1, kr.2.substitute symbol row))
  let pushes := (newRows.filter
    (fun kr => decide (kr.2.constant < 0 ∧ kr.1.type ≠ SymbolType.External))).map
    (fun kr => kr.1)
  { s with
    rowMap := newRows
    infeasibleRows := s.infeasibleRows ++ pushes
    objective := s.objective.substitute symbol row
    artificial := s.artificial.map (fun a => a.substitute symbol row) }

/-- Embeds `Solver._getEnteringSymbol`: the first non-Dummy cell of the
objective with a negative coefficient. -/
def getEnteringSymbol (objective : Row) : Symbol :=
  objective.cells.foldl
    (fun found c =>
      if found = INVALID_SYMBOL ∧ c.2 < 0 ∧ c.1.type ≠ SymbolType.Dummy then c.1
      else found)
    INVALID_SYMBOL

/-- Embeds `Solver._getLeavingSymbol`: among non-External basic rows with a
negative coefficient on the entering symbol, the first row minimising
`−constant/coefficient` (the `Number.MAX_VALUE` sentinel of the source is
modelled by the `none` accumulator). -/
def getLeavingSymbol (s : State) (entering : Symbol) : Symbol :=
  let acc := s.rowMap.foldl
    (fun (acc : Option (ℚ × Symbol)) kr =>
      if kr.1.type ≠ SymbolType.External then
        let temp := kr.2.coefficientFor entering
        if temp < 0 then
          let ratio := -kr.2.constant / temp
          match acc with
          | none => some (ratio, kr.1)
          | some best => if ratio < best.1 then some (ratio, kr.1) else acc
        else acc
      else acc)
    none
  match acc with
  | some best => best.2
  | none => INVALID_SYMBOL

/-- Embeds `Solver._getDualEnteringSymbol`: among non-Dummy cells of the
row with positive coefficient, the first minimising
`objective.coefficientFor(symbol) / coefficient`. -/
def getDualEnteringSymbol (s : State) (row : Row) : Symbol :=
  let acc := row.cells.foldl
    (fun (acc : Option (ℚ × Symbol)) c =>
      if (0 : ℚ) < c.2 ∧ c.1.type ≠ SymbolType.Dummy then
        let ratio := s.objective.coefficientFor c.1 / c.2
        match acc with
        | none => some (ratio, c.1)
        | some best => if ratio < best.1 then some (ratio, c.1) else acc
      else acc)
    none
  match acc with
  | some best => best.2
  | none => INVALID_SYMBOL

/-- Embeds `Solver._getMarkerLeavingSymbol`: the three-candidate scan over
the basis (restricted negative-coefficient rows by ratio, then restricted
positive-coefficient rows by ratio, then the last unrestricted row holding
the marker). -/
def getMarkerLeavingSymbol (s : State) (marker : Symbol) : Symbol :=
  let acc := s.rowMap.foldl
    (fun (acc : Option (ℚ × Symbol) × Option (ℚ × Symbol) × Symbol) kr =>
      let c := kr.2.coefficientFor marker
      if c ≠ 0 then
        if kr.1.type = SymbolType.External then
          (acc.1, acc.2.1, kr.1)
        else if c < 0 then
          let r := -kr.2.constant / c
          match acc.1 with
          | none => (some (r, kr.1), acc.2.1, acc.2.2)
          | some best =>
            if r < best.1 then (some (r, kr.1), acc.2.1, acc.2.2) else acc
        else
          let r := kr.2.constant / c
          match acc.2.1 with
          | none => (acc.1, some (r, kr.1), acc.2.2)
          | some best =>
            if r < best.1 then (acc.1, some (r, kr.1), acc.2.2) else acc
      else acc)
    (none, none, INVALID_SYMBOL)
  match acc.1 with
  | some best => best.2
  | none =>
    match acc.2.1 with
    | some best => best.2
    | none => acc.2.2

/-- Which objective row `Solver._optimize` works against: the main
objective or the artificial one (the source passes the row by reference). -/
inductive ObjTarget where
  | main
  | art
deriving DecidableEq, Repr

/-- The row an `ObjTarget` denotes in a state. -/
def getObj (s : State) (t : ObjTarget) : Row :=
  match t with
  | ObjTarget.main => s.objective
  | ObjTarget.art =>
    match s.artificial with
    | some r => r
    | none => ⟨0, []⟩

/-- Embeds the `while` loop of `Solver._optimize`, with fuel. Each
iteration: find the entering symbol (done when Invalid), find the leaving
symbol (unbounded when Invalid), detach the leaving row, pivot it and
substitute the entering symbol through the tableau. -/
def optimizeLoop (t : ObjTarget) : Nat → State → Option SolverError × State
  | 0, s => (some SolverError.outOfFuel, s)
  | fuel + 1, s =>
    let entering := getEnteringSymbol (getObj s t)
    if entering.type = SymbolType.Invalid then (none, s)
    else
      let leaving := getLeavingSymbol s entering
      if leaving.type = SymbolType.Invalid then (some SolverError.unboundedObjective, s)
      else
        match alGet s.rowMap leaving with
        | none => (some SolverError.internalCorrupt, s)
        | some row =>
          let row1 := row.solveForEx leaving entering
          let s1 := substituteTableau { s with rowMap := alDel s.rowMap leaving } entering row1
          optimizeLoop t fuel { s1 with rowMap := alSet s1.rowMap entering row1 }

/-- Embeds the `while` loop of `Solver._dualOptimize`, with fuel: pop the
last infeasible symbol; if it is still basic with a negative constant, find
the dual entering symbol and pivot. -/
def dualOptimizeLoop : Nat → State → Option SolverError × State
  | 0, s => (some SolverError.outOfFuel, s)
  | fuel + 1, s =>
    match s.infeasibleRows.getLast? with
    | none => (none, s)
    | some leaving =>
      let s0 := { s with infeasibleRows := s.infeasibleRows.dropLast }
      match alGet s0.rowMap leaving with
      | none => dualOptimizeLoop fuel s0
      | some row =>
        if row.constant < 0 then
          let entering := getDualEnteringSymbol s0 row
          if entering.type = SymbolType.Invalid then
            (some SolverError.dualOptimizeFailed, s0)
          else
            let row1 := row.solveForEx leaving entering
            let s1 := substituteTableau { s0 with rowMap := alDel s0.rowMap leaving }
              entering row1
            dualOptimizeLoop fuel { s1 with rowMap := alSet s1.rowMap entering row1 }
        else dualOptimizeLoop fuel s0

/-- Removes the artificial symbol from every row and from the objective
(the tail of `Solver._addWithArtificialVariable`). -/
def stripArtificialSymbol (s : State) (art : Symbol) : State :=
  { s with
    rowMap := s.rowMap.map (fun kr => (kr.1, kr.2.removeSymbol art))
    objective := s.objective.removeSymbol art }

/-- Embeds `Solver._addWithArtificialVariable`. The boolean is the source's
return value (success of the phase); note the two early `return`s of the
source skip the symbol-stripping loop. -/
def addWithArtificialVariable (fuel : Nat) (s : State) (row : Row) :
    Option SolverError × State × Bool :=
  let p := makeSymbol s SymbolType.Slack
  let art := p.2
  let s1 := { p.1 with rowMap := alSet p.1.rowMap art row, artificial := some row }
  match optimizeLoop ObjTarget.art fuel s1 with
  | (some e, s2) => (some e, s2, false)
  | (none, s2) =>
    let success := nearZero (getObj s2 ObjTarget.art).constant
    let s3 := { s2 with artificial := none }
    match alGet s3.rowMap art with
    | some basicRow =>
      let s4 := { s3 with rowMap := alDel s3.rowMap art }
      if basicRow.isConstant then (none, s4, success)
      else
        let entering := anyPivotableSymbol basicRow
        if entering.type = SymbolType.Invalid then (none, s4, false)
        else
          let row1 := basicRow.solveForEx art entering
          let s5 := substituteTableau s4 entering row1
          let s6 := { s5 with rowMap := alSet s5.rowMap entering row1 }
          (none, stripArtificialSymbol s6 art, success)
    | none => (none, stripArtificialSymbol s3 art, success)

/-- Embeds `Solver.addConstraint`. A `some` error is the source's thrown
exception, paired with the state at the moment of the throw. -/
def addConstraint (fuel : Nat) (s : State) (cn : Constraint) : Option SolverError × State :=
  if (alGet s.cnMap cn).isSome then (some SolverError.duplicateConstraint, s)
  else
    let p := createRow s cn
    let s1 := p.1
    let row := p.2.1
    let tag := p.2.2
    let subject0 := chooseSubject row tag
    let allDum := subject0.type = SymbolType.Invalid ∧ row.allDummies
    if allDum ∧ ¬ nearZero row.constant then
      (some SolverError.unsatisfiableConstraint, s1)
    else
      let subject := if allDum then tag.marker else subject0
      if subject.type = SymbolType.Invalid then
        match addWithArtificialVariable fuel s1 row with
        | (some e, s2, _) => (some e, s2)
        | (none, s2, success) =>
          if ¬ success then (some SolverError.unsatisfiableConstraint, s2)
          else
            optimizeLoop ObjTarget.main fuel { s2 with cnMap := alSet s2.cnMap cn tag }
      else
        let row1 := row.solveFor subject
        let s2 := substituteTableau s1 subject row1
        let s3 := { s2 with rowMap := alSet s2.rowMap subject row1 }
        optimizeLoop ObjTarget.main fuel { s3 with cnMap := alSet s3.cnMap cn tag }

/-- Embeds `Solver._removeMarkerEffects`. -/
def removeMarkerEffects (s : State) (marker : Symbol) (strength : ℚ) : State :=
  match alGet s.rowMap marker with
  | some row => { s with objective := s.objective.insertRow row (-strength) }
  | none => { s with objective := s.objective.insertSymbol marker (-strength) }

/-- Embeds `Solver._removeConstraintEffects`. -/
def removeConstraintEffects (s : State) (cn : Constraint) (tag : Tag) : State :=
  let s1 :=
    if tag.marker.type = SymbolType.Error then removeMarkerEffects s tag.marker cn.strength
    else s
  if tag.other.type = SymbolType.Error then removeMarkerEffects s1 tag.other cn.strength
  else s1

/-- Embeds `Solver.removeConstraint`. -/
def removeConstraint (fuel : Nat) (s : State) (cn : Constraint) : Option SolverError × State :=
  match alGet s.cnMap cn with
  | none => (some SolverError.unknownConstraint, s)
  | some tag =>
    let s1 := { s with cnMap := alDel s.cnMap cn }
    let s2 := removeConstraintEffects s1 cn tag
    let marker := tag.marker
    if (alGet s2.rowMap marker).isSome then
      optimizeLoop ObjTarget.main fuel { s2 with rowMap := alDel s2.rowMap marker }
    else
      let leaving := getMarkerLeavingSymbol s2 marker
      if leaving.type = SymbolType.Invalid then
        (some SolverError.failedToFindLeavingRow, s2)
      else
        match alGet s2.rowMap leaving with
        | none => (some SolverError.internalCorrupt, s2)
        | some row =>
          let row1 := row.solveForEx leaving marker
          let s3 := substituteTableau { s2 with rowMap := alDel s2.rowMap leaving }
            marker row1
          optimizeLoop ObjTarget.main fuel s3

/-- Embeds `Solver.hasConstraint`. -/
def hasConstraint (s : State) (cn : Constraint) : Bool :=
  (alGet s.cnMap cn).isSome

/-- Embeds `Solver.addEditVariable`: synthesise the constraint `v == 0` at
the clipped strength (a fresh object, modelled by `cnTick`), add it, and
record the edit info. -/
def addEditVariable (fuel : Nat) (s : State) (v : VarId) (strength : ℚ) :
    Option SolverError × State :=
  if (alGet s.editMap v).isSome then (some SolverError.duplicateEditVariable, s)
  else
    let str := Strength.clip strength
    if str = Strength.required then (some SolverError.badRequiredStrength, s)
    else
      let cn : Constraint := ⟨s.cnTick, ⟨0, [(1, v)]⟩, Operator.Eq, str⟩
      let s0 := { s with cnTick := s.cnTick + 1 }
      match addConstraint fuel s0 cn with
      | (some e, s1) => (some e, s1)
      | (none, s1) =>
        match alGet s1.cnMap cn with
        | none => (some SolverError.internalCorrupt, s1)
        | some tag =>
          (none, { s1 with editMap := alSet s1.editMap v ⟨tag, cn, 0⟩ })

/-- Embeds `Solver.removeEditVariable`. -/
def removeEditVariable (fuel : Nat) (s : State) (v : VarId) :
    Option SolverError × State :=
  match alGet s.editMap v with
  | none => (some SolverError.unknownEditVariable, s)
  | some info =>
    removeConstraint fuel { s with editMap := alDel s.editMap v } info.constraint

/-- Embeds `Solver.hasEditVariable`. -/
def hasEditVariable (s : State) (v : VarId) : Bool :=
  (alGet s.editMap v).isSome

/-- Embeds `Solver.suggestValue`: update the edit constant, apply the delta
to the marker row, the other row, or every row holding the marker, pushing
newly negative rows as the source does, then dual-optimise. -/
def suggestValue (fuel : Nat) (s : State) (v : VarId) (value : ℚ) :
    Option SolverError × State :=
  match alGet s.editMap v with
  | none => (some SolverError.unknownEditVariable, s)
  | some info =>
    let delta := value - info.constant
    let s0 := { s with editMap := alSet s.editMap v { info with constant := value } }
    let marker := info.tag.marker
    match alGet s0.rowMap marker with
    | some row =>
      let row1 := row.add (-delta)
      dualOptimizeLoop fuel
        { s0 with
          rowMap := alSet s0.rowMap marker row1
          infeasibleRows :=
            if row1.constant < 0 then s0.infeasibleRows ++ [marker]
            else s0.infeasibleRows }
    | none =>
      match alGet s0.rowMap info.tag.other with
      | some row =>
        let row1 := row.add delta
        dualOptimizeLoop fuel
          { s0 with
            rowMap := alSet s0.rowMap info.tag.other row1
            infeasibleRows :=
              if row1.constant < 0 then s0.infeasibleRows ++ [info.tag.other]
              else s0.infeasibleRows }
      | none =>
        let upd : Symbol × Row → Symbol × Row := fun kr =>
          let coeff := kr.2.coefficientFor marker
          if coeff ≠ 0 then (kr.1, kr.2.add (delta * coeff)) else kr
        let newRows := s0.rowMap.map upd
        let pushes := s0.rowMap.filterMap
          (fun kr =>
            let coeff := kr.2.coefficientFor marker
            if coeff ≠ 0 ∧ (kr.2.add (delta * coeff)).constant < 0 ∧
                kr.1.type ≠ SymbolType.External then some kr.1
            else none)
        dualOptimizeLoop fuel
          { s0 with rowMap := newRows, infeasibleRows := s0.infeasibleRows ++ pushes }

/-- Embeds `Solver.updateVariables`: for each (variable, symbol) pair of the
variable map, in iteration order, write the basic row's constant — or 0 for
a parametric symbol — into the variable's value slot. -/
def updateVariables (s : State) : State :=
  let vals := s.varMap.foldl
    (fun vals p =>
      match alGet s.rowMap p.2 with
      | some row => alSet vals p.1 row.constant
      | none => alSet vals p.1 0)
    s.varValues
  { s with varValues := vals }

/-! Specification-side definitions. Each follows the wording of the spec
sentence it formalises and is compared with the corresponding embedded
source function by a theorem below. -/

/-- Written from the spec's subject-selection wording (§4.4): the first
External symbol among the row's cells in iteration order, whatever its
coefficient; otherwise `tag.marker` if it is Slack or Error with negative
coefficient in the row; otherwise `tag.other` likewise; otherwise Invalid. -/
def chooseSubjectSpec (row : Row) (tag : Tag) : Symbol :=
  match row.cells.find? (fun c => decide (c.1.type = SymbolType.External)) with
  | some c => c.1
  | none =>
    if (tag.marker.type = SymbolType.Slack ∨ tag.marker.type = SymbolType.Error) ∧
        row.coefficientFor tag.marker < 0 then tag.marker
    else if (tag.other.type = SymbolType.Slack ∨ tag.other.type = SymbolType.Error) ∧
        row.coefficientFor tag.other < 0 then tag.other
    else INVALID_SYMBOL

/-- The first entry of the list attaining the minimum of the first
component: a later entry replaces the current best only when strictly
smaller, so ties are broken in favour of the first encountered. -/
def firstStrictMinFrom (acc : Option (ℚ × Symbol)) (l : List (ℚ × Symbol)) :
    Option (ℚ × Symbol) :=
  l.foldl
    (fun acc x =>
      match acc with
      | none => some x
      | some best => if x.1 < best.1 then some x else some best)
    acc

/-- First strict minimiser of a candidate list. -/
def firstStrictMin (l : List (ℚ × Symbol)) : Option (ℚ × Symbol) :=
  firstStrictMinFrom none l

/-- The ratio candidates of `_getLeavingSymbol`: non-External basic rows
with a negative coefficient on the entering symbol, with ratio
`−constant/coefficient`. -/
def leavingCandidates (rows : List (Symbol × Row)) (entering : Symbol) :
    List (ℚ × Symbol) :=
  rows.filterMap
    (fun kr =>
      if kr.1.type ≠ SymbolType.External ∧ kr.2.coefficientFor entering < 0 then
        some (-kr.2.constant / kr.2.coefficientFor entering, kr.1)
      else none)

/-- The ratio candidates of `_getDualEnteringSymbol`: positive non-Dummy
cells, with ratio `objectiveCoefficient / cellCoefficient`. -/
def dualEnteringCandidates (objective : Row) (row : Row) : List (ℚ × Symbol) :=
  row.cells.filterMap
    (fun c =>
      if (0 : ℚ) < c.2 ∧ c.1.type ≠ SymbolType.Dummy then
        some (objective.coefficientFor c.1 / c.2, c.1)
      else none)

/-- The first candidate class of marker-leaving selection: non-External
basic rows with negative marker coefficient, ratio `−constant/c`. -/
def markerNegCandidates (rows : List (Symbol × Row)) (marker : Symbol) :
    List (ℚ × Symbol) :=
  rows.filterMap
    (fun kr =>
      let c := kr.2.coefficientFor marker
      if kr.1.type ≠ SymbolType.External ∧ c < 0 then some (-kr.2.constant / c, kr.1)
      else none)

/-- The second candidate class of marker-leaving selection: non-External
basic rows with positive marker coefficient, ratio `constant/c`. -/
def markerPosCandidates (rows : List (Symbol × Row)) (marker : Symbol) :
    List (ℚ × Symbol) :=
  rows.filterMap
    (fun kr =>
      let c := kr.2.coefficientFor marker
      if kr.1.type ≠ SymbolType.External ∧ 0 < c then some (kr.2.constant / c, kr.1)
      else none)

/-- The third candidate class of marker-leaving selection: External basic
rows with non-zero marker coefficient, in basis iteration order. -/
def markerExtCandidates (rows : List (Symbol × Row)) (marker : Symbol) : List Symbol :=
  rows.filterMap
    (fun kr =>
      if kr.1.type = SymbolType.External ∧ kr.2.coefficientFor marker ≠ 0 then some kr.1
      else none)

/-- Written from the spec's marker-leaving wording (§4.7): candidate rows
with non-zero marker coefficient split into non-External rows with negative
coefficient (ratio `−constant/c`, minimised with ties to the first found),
non-External rows with positive coefficient (ratio `constant/c`, likewise),
and External rows (most recently seen). Return the first class's minimiser
if present, else the second's, else the last External candidate, else
Invalid. -/
def markerLeavingSpec (s : State) (marker : Symbol) : Symbol :=
  match firstStrictMin (markerNegCandidates s.rowMap marker) with
  | some best => best.2
  | none =>
    match firstStrictMin (markerPosCandidates s.rowMap marker) with
    | some best => best.2
    | none => (markerExtCandidates s.rowMap marker).getLastD INVALID_SYMBOL

/-- Written from the spec's suggest-value wording (§4.8, cases 1 and 2):
add the delta to the basic row of the given symbol and enqueue that symbol
exactly when the new constant is negative. -/
def applyDeltaToBasicRow (s : State) (key : Symbol) (delta : ℚ) : State :=
  match alGet s.rowMap key with
  | some row =>
    let row1 := row.add delta
    { s with
      rowMap := alSet s.rowMap key row1
      infeasibleRows :=
        if row1.constant < 0 then s.infeasibleRows ++ [key] else s.infeasibleRows }
  | none => s

/-- Written from the spec's suggest-value wording (§4.8, case 3): visit
every basis row; where the coefficient on the marker is non-zero add
`delta × coefficient` to the row constant, enqueuing the row's basis symbol
exactly when the new constant is negative and the symbol is not External. -/
def applyDeltaToAllRows (s : State) (marker : Symbol) (delta : ℚ) : State :=
  let newRows := s.rowMap.map
    (fun kr =>
      let coeff := kr.2.coefficientFor marker
      if coeff ≠ 0 then (kr.1, kr.2.add (delta * coeff)) else kr)
  let pushes := s.rowMap.filterMap
    (fun kr =>
      let coeff := kr.2.coefficientFor marker
      if coeff ≠ 0 ∧ (kr.2.add (delta * coeff)).constant < 0 ∧
          kr.1.type ≠ SymbolType.External then some kr.1
      else none)
  { s with rowMap := newRows, infeasibleRows := s.infeasibleRows ++ pushes }

/-- Written from the spec's suggest-value wording (§4.8): fail on an
unregistered edit variable; otherwise set `delta = value − info.constant`,
update the stored constant, dispatch on whether the marker or the other
symbol is basic, and dual-optimise. -/
def suggestValueSpec (fuel : Nat) (s : State) (v : VarId) (value : ℚ) :
    Option SolverError × State :=
  match alGet s.editMap v with
  | none => (some SolverError.unknownEditVariable, s)
  | some info =>
    let delta := value - info.constant
    let s0 := { s with editMap := alSet s.editMap v { info with constant := value } }
    if (alGet s0.rowMap info.tag.marker).isSome then
      dualOptimizeLoop fuel (applyDeltaToBasicRow s0 info.tag.marker (-delta))
    else if (alGet s0.rowMap info.tag.other).isSome then
      dualOptimizeLoop fuel (applyDeltaToBasicRow s0 info.tag.other delta)
    else
      dualOptimizeLoop fuel (applyDeltaToAllRows s0 info.tag.marker delta)

/-! Invariant predicates about solver states, used as hypotheses of the
conditional theorems below. -/

/-- No stored cell coefficient passes the near-zero test (§3's Row
invariant). -/
def Row.noNearZeroCells (r : Row) : Prop :=
  ∀ p ∈ r.cells, nearZero p.2 = false

instance (r : Row) : Decidable r.noNearZeroCells := by
  unfold Row.noNearZeroCells; infer_instance

/-- Feasibility as the spec claims it, at tolerance ε, for the rows the
code actually maintains it for: every basic row keyed by a non-External
symbol has constant ≥ −ε. -/
def feasibleTableau (s : State) : Prop :=
  ∀ kr ∈ s.rowMap, kr.1.type ≠ SymbolType.External → -eps ≤ kr.2.constant

instance (s : State) : Decidable (feasibleTableau s) := by
  unfold feasibleTableau; infer_instance

/-- Exact feasibility of the restricted (non-External) basic rows. -/
def rowsFeasible (s : State) : Prop :=
  ∀ kr ∈ s.rowMap, kr.1.type ≠ SymbolType.External → 0 ≤ kr.2.constant

instance (s : State) : Decidable (rowsFeasible s) := by
  unfold rowsFeasible; infer_instance

/-- Restricted basic rows mention no External symbols (External symbols are
eliminated into External-keyed rows when a constraint row is built, and
pivoting never moves them into restricted rows). -/
def rowsExternalFree (s : State) : Prop :=
  ∀ kr ∈ s.rowMap, kr.1.type ≠ SymbolType.External →
    ∀ c ∈ kr.2.cells, c.1.type ≠ SymbolType.External

instance (s : State) : Decidable (rowsExternalFree s) := by
  unfold rowsExternalFree; infer_instance

/-- No basic symbol occurs among the cells of any row (spec invariant 3/4). -/
def basicNotInRows (s : State) : Prop :=
  ∀ kr ∈ s.rowMap, ∀ kr2 ∈ s.rowMap, ∀ c ∈ kr2.2.cells, c.1 ≠ kr.1

instance (s : State) : Decidable (basicNotInRows s) := by
  unfold basicNotInRows; infer_instance

/-- Every symbol of the tableau was minted below the id counter, so a
freshly minted symbol occurs nowhere. -/
def idsBounded (s : State) : Prop :=
  (∀ kr ∈ s.rowMap, kr.1.id < s.idTick ∧ ∀ c ∈ kr.2.cells, c.1.id < s.idTick) ∧
    (∀ c ∈ s.objective.cells, c.1.id < s.idTick) ∧
    ∀ vs ∈ s.varMap, vs.2.id < s.idTick

instance (s : State) : Decidable (idsBounded s) := by
  unfold idsBounded; infer_instance

/-- Optimality of the objective (spec invariant 2, held exactly after each
`_optimize` run): no non-Dummy objective cell has a negative coefficient. -/
def objectiveOptimal (s : State) : Prop :=
  ∀ c ∈ s.objective.cells, c.1.type ≠ SymbolType.Dummy → 0 ≤ c.2

instance (s : State) : Decidable (objectiveOptimal s) := by
  unfold objectiveOptimal; infer_instance

/-- Edit tags hold marker/error symbols, never External ones (they are the
slack/error symbols of the synthesised edit constraint). -/
def editTagsRestricted (s : State) : Prop :=
  ∀ ve ∈ s.editMap, ve.2.tag.marker.type ≠ SymbolType.External ∧
    ve.2.tag.other.type ≠ SymbolType.External

instance (s : State) : Decidable (editTagsRestricted s) := by
  unfold editTagsRestricted; infer_instance

/-- The basis map binds each symbol at most once (JS `Map` semantics). -/
def rowMapNodup (s : State) : Prop :=
  (s.rowMap.map Prod.fst).Nodup

instance (s : State) : Decidable (rowMapNodup s) := by
  unfold rowMapNodup; infer_instance

/-- Every basic row's cell map binds each symbol at most once (JS `Map`
semantics). -/
def rowCellsNodup (s : State) : Prop :=
  ∀ kr ∈ s.rowMap, (kr.2.cells.map Prod.fst).Nodup

instance (s : State) : Decidable (rowCellsNodup s) := by
  unfold rowCellsNodup; infer_instance

/-- The solver's internal invariant between public calls, as used by the
conditional theorems: empty worklist, exact feasibility and
External-freeness of restricted rows, no basic symbol inside any row,
id-counter freshness, objective optimality, restricted edit tags, no
pending artificial objective, and map-like key uniqueness for the basis
and for each row's cells. -/
def Inv (s : State) : Prop :=
  s.infeasibleRows = [] ∧ rowsFeasible s ∧ rowsExternalFree s ∧ basicNotInRows s ∧
    idsBounded s ∧ objectiveOptimal s ∧ editTagsRestricted s ∧ s.artificial = none ∧
    rowMapNodup s ∧ rowCellsNodup s

instance (s : State) : Decidable (Inv s) := by
  unfold Inv; infer_instance

/-- Worklist entries are non-External (only non-External symbols are ever
pushed). -/
def worklistRestricted (s : State) : Prop :=
  ∀ sym ∈ s.infeasibleRows, sym.type ≠ SymbolType.External

instance (s : State) : Decidable (worklistRestricted s) := by
  unfold worklistRestricted; infer_instance

/-- The dual loop's invariant: every restricted basic row with a negative
constant is on the infeasible worklist. -/
def negativesEnqueued (s : State) : Prop :=
  ∀ kr ∈ s.rowMap, kr.1.type ≠ SymbolType.External → kr.2.constant < 0 →
    kr.1 ∈ s.infeasibleRows

instance (s : State) : Decidable (negativesEnqueued s) := by
  unfold negativesEnqueued; infer_instance

/-- Whether `addConstraint` would install the given constraint through the
artificial-variable phase: the chosen subject is Invalid and the row is not
all-dummy. -/
def addUsesArtificial (s : State) (cn : Constraint) : Prop :=
  let p := createRow s cn
  (chooseSubject p.2.1 p.2.2).type = SymbolType.Invalid ∧ p.2.1.allDummies = false

instance (s : State) (cn : Constraint) : Decidable (addUsesArtificial s cn) := by
  unfold addUsesArtificial; infer_instance

/-- Whether `addConstraint` fails on the given constraint through the
all-dummy branch: no subject, an all-dummy row, and a constant that is not
near zero. -/
def addFailsAllDummy (s : State) (cn : Constraint) : Prop :=
  let p := createRow s cn
  (chooseSubject p.2.1 p.2.2).type = SymbolType.Invalid ∧ p.2.1.allDummies = true ∧
    nearZero p.2.1.constant = false

instance (s : State) (cn : Constraint) : Decidable (addFailsAllDummy s cn) := by
  unfold addFailsAllDummy; infer_instance

/-! Concrete constraints and states used by counterexamples and witnesses.
Variable 0 plays the role of `x`, variable 1 of `z`. -/

/-- The constraint `x + 5 ≤ 0` at required strength. -/
def cnXplus5Le0 : Constraint := ⟨1, ⟨5, [(1, 0)]⟩, Operator.Le, Strength.required⟩

/-- The constraint `x == 0` at required strength. -/
def cnXeq0Req : Constraint := ⟨1, ⟨0, [(1, 0)]⟩, Operator.Eq, Strength.required⟩

/-- The constraint `x ≥ 5` at required strength. -/
def cnXge5Req : Constraint := ⟨2, ⟨-5, [(1, 0)]⟩, Operator.Ge, Strength.required⟩

/-- The constraint `z == 0` at required strength. -/
def cnZeq0Req : Constraint := ⟨3, ⟨0, [(1, 1)]⟩, Operator.Eq, Strength.required⟩

/-- The constraint `x == 0` at weak strength. -/
def cnXeq0Weak : Constraint := ⟨1, ⟨0, [(1, 0)]⟩, Operator.Eq, 1⟩

/-- The constraint `x == 10` at weak strength. -/
def cnXeq10Weak : Constraint := ⟨2, ⟨-10, [(1, 0)]⟩, Operator.Eq, 1⟩

/-- The constraint `x == 10` at required strength. -/
def cnXeq10Req : Constraint := ⟨3, ⟨-10, [(1, 0)]⟩, Operator.Eq, Strength.required⟩

/-- The constraint `x == 20` at required strength. -/
def cnXeq20Req : Constraint := ⟨1, ⟨-20, [(1, 0)]⟩, Operator.Eq, Strength.required⟩

/-- The state after adding `x == 0` required to a fresh solver, written as
a literal; the theorem `stXeq0_reached` below proves that `addConstraint`
produces it. -/
def stXeq0 : State :=
  { cnMap := [({ cid := 1,
                  expression := { constant := 0, terms := [(1, 0)] },
                  op := Kiwi.Operator.Eq,
                  strength := Strength.required },
                { marker := { id := 1, type := Kiwi.SymbolType.Dummy },
                  other := { id := -1, type := Kiwi.SymbolType.Invalid } })],
     rowMap := [({ id := 0, type := Kiwi.SymbolType.External },
                 { constant := 0, cells := [({ id := 1, type := Kiwi.SymbolType.Dummy }, -1)] })],
     varMap := [(0, { id := 0, type := Kiwi.SymbolType.External })],
     editMap := [],
     infeasibleRows := [],
     objective := { constant := 0, cells := [] },
     artificial := none,
     idTick := 2,
     cnTick := 0,
     varValues := [] }

/-- The state after the failed add of `x ≥ 5` required on top of `stXeq0`:
the artificial phase fails and leaves a corrupted tableau behind (literal;
reached per `stCorrupt_reached`). -/
def stCorrupt : State :=
  { cnMap := [({ cid := 1,
                  expression := { constant := 0, terms := [(1, 0)] },
                  op := Kiwi.Operator.Eq,
                  strength := Strength.required },
                { marker := { id := 1, type := Kiwi.SymbolType.Dummy },
                  other := { id := -1, type := Kiwi.SymbolType.Invalid } })],
     rowMap := [({ id := 0, type := Kiwi.SymbolType.External },
                 { constant := 0, cells := [({ id := 1, type := Kiwi.SymbolType.Dummy }, -1)] }),
                ({ id := 2, type := Kiwi.SymbolType.Slack },
                 { constant := -5, cells := [({ id := 1, type := Kiwi.SymbolType.Dummy }, -1)] })],
     varMap := [(0, { id := 0, type := Kiwi.SymbolType.External })],
     editMap := [],
     infeasibleRows := [],
     objective := { constant := 0, cells := [] },
     artificial := none,
     idTick := 4,
     cnTick := 0,
     varValues := [] }

/-- The state after adding weak `x == 0` to a fresh solver (literal;
reached per `stWeak1_reached`). -/
def stWeak1 : State :=
  { cnMap := [({ cid := 1, expression := { constant := 0, terms := [(1, 0)] }, op := Kiwi.Operator.Eq, strength := 1 },
                { marker := { id := 1, type := Kiwi.SymbolType.Error },
                  other := { id := 2, type := Kiwi.SymbolType.Error } })],
     rowMap := [({ id := 0, type := Kiwi.SymbolType.External },
                 { constant := 0,
                   cells := [({ id := 1, type := Kiwi.SymbolType.Error }, 1),
                             ({ id := 2, type := Kiwi.SymbolType.Error }, -1)] })],
     varMap := [(0, { id := 0, type := Kiwi.SymbolType.External })],
     editMap := [],
     infeasibleRows := [],
     objective := { constant := 0,
                    cells := [({ id := 1, type := Kiwi.SymbolType.Error }, 1),
                              ({ id := 2, type := Kiwi.SymbolType.Error }, 1)] },
     artificial := none,
     idTick := 3,
     cnTick := 0,
     varValues := [] }

/-- The state after adding weak `x == 0` then weak `x == 10`: a degenerate
optimum whose objective value is the same for any `x ∈ [0, 10]` (literal;
reached per `stDegenerate_reached`). -/
def stDegenerate : State :=
  { cnMap := [({ cid := 1, expression := { constant := 0, terms := [(1, 0)] }, op := Kiwi.Operator.Eq, strength := 1 },
                { marker := { id := 1, type := Kiwi.SymbolType.Error },
                  other := { id := 2, type := Kiwi.SymbolType.Error } }),
               ({ cid := 2, expression := { constant := -10, terms := [(1, 0)] }, op := Kiwi.Operator.Eq, strength := 1 },
                { marker := { id := 3, type := Kiwi.SymbolType.Error },
                  other := { id := 4, type := Kiwi.SymbolType.Error } })],
     rowMap := [({ id := 0, type := Kiwi.SymbolType.External },
                 { constant := 0,
                   cells := [({ id := 1, type := Kiwi.SymbolType.Error }, 1),
                             ({ id := 2, type := Kiwi.SymbolType.Error }, -1)] }),
                ({ id := 4, type := Kiwi.SymbolType.Error },
                 { constant := 10,
                   cells := [({ id := 1, type := Kiwi.SymbolType.Error }, -1),
                             ({ id := 2, type := Kiwi.SymbolType.Error }, 1),
                             ({ id := 3, type := Kiwi.SymbolType.Error }, 1)] })],
     varMap := [(0, { id := 0, type := Kiwi.SymbolType.External })],
     editMap := [],
     infeasibleRows := [],
     objective := { constant := 10,
                    cells := [({ id := 2, type := Kiwi.SymbolType.Error }, 2),
                              ({ id := 3, type := Kiwi.SymbolType.Error }, 2)] },
     artificial := none,
     idTick := 5,
     cnTick := 0,
     varValues := [] }

/-- The state after adding required `x == 10` on top of `stDegenerate`
(literal; reached per `stDegenAdded_reached`). -/
def stDegenAdded : State :=
  { cnMap := [({ cid := 1, expression := { constant := 0, terms := [(1, 0)] }, op := Kiwi.Operator.Eq, strength := 1 },
                { marker := { id := 1, type := Kiwi.SymbolType.Error },
                  other := { id := 2, type := Kiwi.SymbolType.Error } }),
               ({ cid := 2, expression := { constant := -10, terms := [(1, 0)] }, op := Kiwi.Operator.Eq, strength := 1 },
                { marker := { id := 3, type := Kiwi.SymbolType.Error },
                  other := { id := 4, type := Kiwi.SymbolType.Error } }),
               ({ cid := 3,
                  expression := { constant := -10, terms := [(1, 0)] },
                  op := Kiwi.Operator.Eq,
                  strength := Strength.required },
                { marker := { id := 5, type := Kiwi.SymbolType.Dummy },
                  other := { id := -1, type := Kiwi.SymbolType.Invalid } })],
     rowMap := [({ id := 0, type := Kiwi.SymbolType.External },
                 { constant := 10, cells := [({ id := 5, type := Kiwi.SymbolType.Dummy }, -1)] }),
                ({ id := 1, type := Kiwi.SymbolType.Error },
                 { constant := 10,
                   cells := [({ id := 2, type := Kiwi.SymbolType.Error }, 1),
                             ({ id := 5, type := Kiwi.SymbolType.Dummy }, -1)] }),
                ({ id := 3, type := Kiwi.SymbolType.Error },
                 { constant := 0,
                   cells := [({ id := 5, type := Kiwi.SymbolType.Dummy }, -1),
                             ({ id := 4, type := Kiwi.SymbolType.Error }, 1)] })],
     varMap := [(0, { id := 0, type := Kiwi.SymbolType.External })],
     editMap := [],
     infeasibleRows := [],
     objective := { constant := 10,
                    cells := [({ id := 2, type := Kiwi.SymbolType.Error }, 2),
                              ({ id := 5, type := Kiwi.SymbolType.Dummy }, -2),
                              ({ id := 4, type := Kiwi.SymbolType.Error }, 2)] },
     artificial := none,
     idTick := 7,
     cnTick := 0,
     varValues := [] }

/-- The state after removing that required `x == 10` again (literal;
reached per `stDegenRemoved_reached`). -/
def stDegenRemoved : State :=
  { cnMap := [({ cid := 1, expression := { constant := 0, terms := [(1, 0)] }, op := Kiwi.Operator.Eq, strength := 1 },
                { marker := { id := 1, type := Kiwi.SymbolType.Error },
                  other := { id := 2, type := Kiwi.SymbolType.Error } }),
               ({ cid := 2, expression := { constant := -10, terms := [(1, 0)] }, op := Kiwi.Operator.Eq, strength := 1 },
                { marker := { id := 3, type := Kiwi.SymbolType.Error },
                  other := { id := 4, type := Kiwi.SymbolType.Error } })],
     rowMap := [({ id := 0, type := Kiwi.SymbolType.External },
                 { constant := 10,
                   cells := [({ id := 4, type := Kiwi.SymbolType.Error }, -1),
                             ({ id := 3, type := Kiwi.SymbolType.Error }, 1)] }),
                ({ id := 1, type := Kiwi.SymbolType.Error },
                 { constant := 10,
                   cells := [({ id := 2, type := Kiwi.SymbolType.Error }, 1),
                             ({ id := 4, type := Kiwi.SymbolType.Error }, -1),
                             ({ id := 3, type := Kiwi.SymbolType.Error }, 1)] })],
     varMap := [(0, { id := 0, type := Kiwi.SymbolType.External })],
     editMap := [],
     infeasibleRows := [],
     objective := { constant := 10,
                    cells := [({ id := 2, type := Kiwi.SymbolType.Error }, 2),
                              ({ id := 3, type := Kiwi.SymbolType.Error }, 2)] },
     artificial := none,
     idTick := 7,
     cnTick := 0,
     varValues := [] }

/-- The tag stored for the required `x == 10` constraint in `stDegenAdded`:
a Dummy marker and an Invalid other symbol. -/
def tagD : Tag := ⟨⟨5, SymbolType.Dummy⟩, ⟨-1, SymbolType.Invalid⟩⟩

/-- The leaving row picked when removing the required `x == 10` from
`stDegenAdded`. -/
def rowLeavD : Row :=
  ⟨0, [(⟨5, SymbolType.Dummy⟩, -1), (⟨4, SymbolType.Error⟩, 1)]⟩

/-- `rowLeavD` solved for the Dummy marker. -/
def row1D : Row :=
  ⟨0, [(⟨4, SymbolType.Error⟩, 1), (⟨3, SymbolType.Error⟩, -1)]⟩

/-- The state reached inside `removeConstraint` on `stDegenAdded` after the
constraint map deletion and `removeConstraintEffects` (which is a no-op
here: the tag holds no Error symbol). -/
def s2DL : State :=
  { cnMap := [(cnXeq0Weak, ⟨⟨1, SymbolType.Error⟩, ⟨2, SymbolType.Error⟩⟩),
              (cnXeq10Weak, ⟨⟨3, SymbolType.Error⟩, ⟨4, SymbolType.Error⟩⟩)],
    rowMap := [(⟨0, SymbolType.External⟩, ⟨10, [(⟨5, SymbolType.Dummy⟩, -1)]⟩),
               (⟨1, SymbolType.Error⟩,
                ⟨10, [(⟨2, SymbolType.Error⟩, 1), (⟨5, SymbolType.Dummy⟩, -1)]⟩),
               (⟨3, SymbolType.Error⟩,
                ⟨0, [(⟨5, SymbolType.Dummy⟩, -1), (⟨4, SymbolType.Error⟩, 1)]⟩)],
    varMap := [(0, ⟨0, SymbolType.External⟩)],
    editMap := [],
    infeasibleRows := [],
    objective := ⟨10, [(⟨2, SymbolType.Error⟩, 2), (⟨5, SymbolType.Dummy⟩, -2),
                       (⟨4, SymbolType.Error⟩, 2)]⟩,
    artificial := none,
    idTick := 7,
    cnTick := 0,
    varValues := [] }

/-- The state after successfully adding required `z == 0` on top of the
corrupted state `stCorrupt` (literal; reached per `stAfterZ_reached`): the
add succeeds, yet the infeasible worklist is left non-empty. -/
def stAfterZ : State :=
  { cnMap := [({ cid := 1,
                  expression := { constant := 0, terms := [(1, 0)] },
                  op := Kiwi.Operator.Eq,
                  strength := Strength.required },
                { marker := { id := 1, type := Kiwi.SymbolType.Dummy },
                  other := { id := -1, type := Kiwi.SymbolType.Invalid } }),
               ({ cid := 3,
                  expression := { constant := 0, terms := [(1, 1)] },
                  op := Kiwi.Operator.Eq,
                  strength := Strength.required },
                { marker := { id := 5, type := Kiwi.SymbolType.Dummy },
                  other := { id := -1, type := Kiwi.SymbolType.Invalid } })],
     rowMap := [({ id := 0, type := Kiwi.SymbolType.External },
                 { constant := 0, cells := [({ id := 1, type := Kiwi.SymbolType.Dummy }, -1)] }),
                ({ id := 2, type := Kiwi.SymbolType.Slack },
                 { constant := -5, cells := [({ id := 1, type := Kiwi.SymbolType.Dummy }, -1)] }),
                ({ id := 4, type := Kiwi.SymbolType.External },
                 { constant := 0, cells := [({ id := 5, type := Kiwi.SymbolType.Dummy }, -1)] })],
     varMap := [(0, { id := 0, type := Kiwi.SymbolType.External }),
                (1, { id := 4, type := Kiwi.SymbolType.External })],
     editMap := [],
     infeasibleRows := [{ id := 2, type := Kiwi.SymbolType.Slack }],
     objective := { constant := 0, cells := [] },
     artificial := none,
     idTick := 6,
     cnTick := 0,
     varValues := [] }

/-! ### Association-list lemmas -/

theorem alGet_mem {α β : Type} [DecidableEq α] {m : List (α × β)} {k : α} {v : β}
    (h : alGet m k = some v) : (k, v) ∈ m := by
  induction m with
  | nil => simp [alGet] at h
  | cons p t ih =>
    obtain ⟨a, b⟩ := p
    by_cases hp : a = k
    · rw [alGet, if_pos hp] at h
      obtain rfl : b = v := Option.some.inj h
      subst hp
      exact List.mem_cons_self _ _
    · rw [alGet, if_neg hp] at h
      exact List.mem_cons_of_mem _ (ih h)

theorem mem_alSet {α β : Type} [DecidableEq α] {m : List (α × β)} {k : α} {v : β}
    {p : α × β} (h : p ∈ alSet m k v) : p = (k, v) ∨ p ∈ m := by
  induction m with
  | nil => simp [alSet] at h; exact Or.inl h
  | cons q t ih =>
    by_cases hq : q.1 = k
    · rw [alSet, if_pos hq] at h
      rcases List.mem_cons.mp h with h1 | h1
      · exact Or.inl h1
      · exact Or.inr (List.mem_cons_of_mem _ h1)
    · rw [alSet, if_neg hq] at h
      rcases List.mem_cons.mp h with h1 | h1
      · exact Or.inr (h1 ▸ List.mem_cons_self _ _)
      · rcases ih h1 with h2 | h2
        · exact Or.inl h2
        · exact Or.inr (List.mem_cons_of_mem _ h2)

theorem mem_alDel {α β : Type} [DecidableEq α] {m : List (α × β)} {k : α}
    {p : α × β} (h : p ∈ alDel m k) : p ∈ m ∧ p.1 ≠ k := by
  induction m with
  | nil => simp [alDel] at h
  | cons q t ih =>
    by_cases hq : q.1 = k
    · rw [alDel, if_pos hq] at h
      exact ⟨List.mem_cons_of_mem _ (ih h).1, (ih h).2⟩
    · rw [alDel, if_neg hq] at h
      rcases List.mem_cons.mp h with h1 | h1
      · refine ⟨h1 ▸ List.mem_cons_self _ _, ?_⟩
        rw [h1]; exact hq
      · exact ⟨List.mem_cons_of_mem _ (ih h1).1, (ih h1).2⟩

theorem alGet_alSet_self {α β : Type} [DecidableEq α] (m : List (α × β)) (k : α) (v : β) :
    alGet (alSet m k v) k = some v := by
  induction m with
  | nil => simp [alSet, alGet]
  | cons q t ih =>
    by_cases hq : q.1 = k
    · rw [alSet, if_pos hq, alGet]; simp
    · rw [alSet, if_neg hq, alGet, if_neg hq]; exact ih

theorem alGet_alSet_ne {α β : Type} [DecidableEq α] (m : List (α × β)) {k k' : α} (v : β)
    (h : k' ≠ k) : alGet (alSet m k v) k' = alGet m k' := by
  have hk : ¬ k = k' := fun hc => h hc.symm
  induction m with
  | nil =>
    show (if k = k' then some v else none) = none
    rw [if_neg hk]
  | cons q t ih =>
    by_cases hq : q.1 = k
    · rw [alSet, if_pos hq]
      show (if k = k' then some v else alGet t k') = if q.1 = k' then some q.2 else alGet t k'
      rw [if_neg hk, if_neg (fun hc : q.1 = k' => hk (hq.symm.trans hc))]
    · rw [alSet, if_neg hq]
      show (if q.1 = k' then some q.2 else alGet (alSet t k v) k') = _
      rw [alGet]
      by_cases hq' : q.1 = k'
      · rw [if_pos hq', if_pos hq']
      · rw [if_neg hq', if_neg hq']; exact ih

theorem alGet_alDel_self {α β : Type} [DecidableEq α] (m : List (α × β)) (k : α) :
    alGet (alDel m k) k = none := by
  induction m with
  | nil => simp [alDel, alGet]
  | cons q t ih =>
    by_cases hq : q.1 = k
    · rw [alDel, if_pos hq]; exact ih
    · rw [alDel, if_neg hq, alGet, if_neg hq]; exact ih

theorem alGet_alDel_ne {α β : Type} [DecidableEq α] (m : List (α × β)) {k k' : α}
    (h : k' ≠ k) : alGet (alDel m k) k' = alGet m k' := by
  induction m with
  | nil => simp [alDel]
  | cons q t ih =>
    by_cases hq : q.1 = k
    · rw [alDel, if_pos hq, alGet, if_neg]
      · exact ih
      · rw [hq]; exact fun hc => h hc.symm
    · rw [alDel, if_neg hq, alGet, alGet]
      by_cases hq' : q.1 = k'
      · rw [if_pos hq', if_pos hq']
      · rw [if_neg hq', if_neg hq']; exact ih

theorem alDel_of_alGet_none {α β : Type} [DecidableEq α] {m : List (α × β)} {k : α}
    (h : alGet m k = none) : alDel m k = m := by
  induction m with
  | nil => rfl
  | cons q t ih =>
    rw [alGet] at h
    by_cases hq : q.1 = k
    · rw [if_pos hq] at h; exact absurd h (by simp)
    · rw [if_neg hq] at h
      rw [alDel, if_neg hq, ih h]

theorem alDel_alSet_of_none {α β : Type} [DecidableEq α] {m : List (α × β)} {k : α}
    (v : β) (h : alGet m k = none) : alDel (alSet m k v) k = m := by
  induction m with
  | nil => simp [alSet, alDel]
  | cons q t ih =>
    rw [alGet] at h
    by_cases hq : q.1 = k
    · rw [if_pos hq] at h; exact absurd h (by simp)
    · rw [if_neg hq] at h
      rw [alSet, if_neg hq, alDel, if_neg hq, ih h]

/-! ### Symbol lemmas -/

theorem symbol_ne_invalid {s : Symbol} (h : s.type ≠ SymbolType.Invalid) :
    s ≠ INVALID_SYMBOL := by
  intro hc
  rw [hc] at h
  exact h rfl

/-! ### Claim C6: subject selection -/

theorem firstExternal_acc_fixed (l : List (Symbol × ℚ)) (a : Symbol)
    (h : a ≠ INVALID_SYMBOL) :
    l.foldl
      (fun found c =>
        if found = INVALID_SYMBOL ∧ c.1.type = SymbolType.External then c.1 else found)
      a = a := by
  induction l with
  | nil => rfl
  | cons c t ih =>
    rw [List.foldl_cons, if_neg]
    · exact ih
    · exact fun hc => h hc.1

theorem firstExternal_eq_find (cells : List (Symbol × ℚ)) :
    firstExternal cells =
      match cells.find? (fun c => decide (c.1.type = SymbolType.External)) with
      | some c => c.1
      | none => INVALID_SYMBOL := by
  induction cells with
  | nil => rfl
  | cons c t ih =>
    by_cases hc : c.1.type = SymbolType.External
    · rw [firstExternal, List.foldl_cons, if_pos ⟨rfl, hc⟩,
        firstExternal_acc_fixed t c.1 (symbol_ne_invalid (by rw [hc]; simp)),
        List.find?_cons_of_pos _ (by simpa using hc)]
    · rw [firstExternal, List.foldl_cons, if_neg (fun h2 => hc h2.2),
        List.find?_cons_of_neg _ (by simpa using hc)]
      exact ih

/-- Claim C6: for every row and tag, subject selection returns the first
External symbol among the row's cells in iteration order, whatever its
coefficient; otherwise `tag.marker` if it is Slack or Error with negative
row coefficient; otherwise `tag.other` under the same test; otherwise the
Invalid symbol. -/
theorem claim_C6_chooseSubject (row : Row) (tag : Tag) :
    chooseSubject row tag = chooseSubjectSpec row tag := by
  rw [chooseSubject, chooseSubjectSpec, firstExternal_eq_find]
  cases hf : row.cells.find? (fun c => decide (c.1.type = SymbolType.External)) with
  | none => simp
  | some c =>
    have hext : c.1.type = SymbolType.External := by
      have := List.find?_some hf
      simpa using this
    simp only []
    rw [if_pos (symbol_ne_invalid (by rw [hext]; simp))]

/-! ### First-strict-minimiser lemmas -/

theorem firstStrictMinFrom_cons (acc : Option (ℚ × Symbol)) (x : ℚ × Symbol)
    (l : List (ℚ × Symbol)) :
    firstStrictMinFrom acc (x :: l) =
      firstStrictMinFrom
        (match acc with
          | none => some x
          | some best => if x.1 < best.1 then some x else some best) l := rfl

theorem fsm_step_some (a x : ℚ × Symbol) :
    (match some a with
      | none => some x
      | some best => if x.1 < best.1 then some x else some best) =
      if x.1 < a.1 then some x else some a := rfl

theorem firstStrictMinFrom_isSome (l : List (ℚ × Symbol)) (a : ℚ × Symbol) :
    ∃ b, firstStrictMinFrom (some a) l = some b := by
  induction l generalizing a with
  | nil => exact ⟨a, rfl⟩
  | cons x t ih =>
    rw [firstStrictMinFrom_cons, fsm_step_some]
    by_cases hx : x.1 < a.1
    · rw [if_pos hx]; exact ih x
    · rw [if_neg hx]; exact ih a

theorem firstStrictMinFrom_spec (l : List (ℚ × Symbol)) :
    ∀ (acc : Option (ℚ × Symbol)) (b : ℚ × Symbol),
      firstStrictMinFrom acc l = some b →
      (acc = some b ∨ b ∈ l) ∧ (∀ y ∈ l, b.1 ≤ y.1) ∧
        ∀ a, acc = some a → b.1 ≤ a.1 := by
  induction l with
  | nil =>
    intro acc b h
    refine ⟨Or.inl h, by simp, ?_⟩
    intro a ha
    rw [ha] at h
    rw [Option.some.inj h]
  | cons x t ih =>
    intro acc b h
    rw [firstStrictMinFrom_cons] at h
    cases acc with
    | none =>
      obtain ⟨h1, h2, h3⟩ := ih (some x) b h
      refine ⟨?_, ?_, by simp⟩
      · rcases h1 with h1 | h1
        · exact Or.inr (List.mem_cons.mpr (Or.inl (Option.some.inj h1).symm))
        · exact Or.inr (List.mem_cons_of_mem _ h1)
      · intro y hy
        rcases List.mem_cons.mp hy with hy | hy
        · rw [hy]; exact h3 x rfl
        · exact h2 y hy
    | some a =>
      rw [fsm_step_some] at h
      by_cases hx : x.1 < a.1
      · rw [if_pos hx] at h
        obtain ⟨h1, h2, h3⟩ := ih (some x) b h
        have hbx : b.1 ≤ x.1 := h3 x rfl
        refine ⟨?_, ?_, ?_⟩
        · rcases h1 with h1 | h1
          · exact Or.inr (List.mem_cons.mpr (Or.inl (Option.some.inj h1).symm))
          · exact Or.inr (List.mem_cons_of_mem _ h1)
        · intro y hy
          rcases List.mem_cons.mp hy with hy | hy
          · rw [hy]; exact hbx
          · exact h2 y hy
        · intro a' ha'
          obtain rfl : a = a' := Option.some.inj ha'
          exact le_of_lt (lt_of_le_of_lt hbx hx)
      · rw [if_neg hx] at h
        obtain ⟨h1, h2, h3⟩ := ih (some a) b h
        have hba : b.1 ≤ a.1 := h3 a rfl
        refine ⟨?_, ?_, ?_⟩
        · rcases h1 with h1 | h1
          · exact Or.inl h1
          · exact Or.inr (List.mem_cons_of_mem _ h1)
        · intro y hy
          rcases List.mem_cons.mp hy with hy | hy
          · rw [hy]; exact le_trans hba (not_lt.mp hx)
          · exact h2 y hy
        · intro a' ha'
          obtain rfl : a = a' := Option.some.inj ha'
          exact hba

theorem firstStrictMin_mem {l : List (ℚ × Symbol)} {b : ℚ × Symbol}
    (h : firstStrictMin l = some b) : b ∈ l := by
  rcases (firstStrictMinFrom_spec l none b h).1 with h1 | h1
  · exact absurd h1 (by simp)
  · exact h1

theorem firstStrictMin_le {l : List (ℚ × Symbol)} {b : ℚ × Symbol}
    (h : firstStrictMin l = some b) : ∀ y ∈ l, b.1 ≤ y.1 :=
  (firstStrictMinFrom_spec l none b h).2.1

theorem firstStrictMin_none {l : List (ℚ × Symbol)} (h : firstStrictMin l = none) :
    l = [] := by
  cases l with
  | nil => rfl
  | cons x t =>
    obtain ⟨b, hb⟩ := firstStrictMinFrom_isSome t x
    have h2 : firstStrictMinFrom (some x) t = none := h
    rw [hb] at h2
    exact absurd h2 (by simp)

/-- Fold fusion: a left fold whose step either skips an element or feeds a
candidate to the strict-minimiser step equals the strict minimiser of the
filtered candidate list. -/
theorem foldl_eq_firstStrictMinFrom {α : Type}
    (g : Option (ℚ × Symbol) → α → Option (ℚ × Symbol))
    (f : α → Option (ℚ × Symbol))
    (hg : ∀ acc x, g acc x =
      match f x with
      | some y =>
        match acc with
        | none => some y
        | some best => if y.1 < best.1 then some y else some best
      | none => acc) :
    ∀ (l : List α) (acc : Option (ℚ × Symbol)),
      l.foldl g acc = firstStrictMinFrom acc (l.filterMap f) := by
  intro l
  induction l with
  | nil => intro acc; rfl
  | cons x t ih =>
    intro acc
    rw [List.foldl_cons, ih]
    cases hf : f x with
    | none =>
      rw [List.filterMap_cons_none hf, hg acc x, hf]
    | some y =>
      rw [List.filterMap_cons_some hf, firstStrictMinFrom_cons, hg acc x, hf]

/-! ### Claim C7: marker leaving-row selection -/

theorem markerLeaving_fold (marker : Symbol) (l : List (Symbol × Row)) :
    ∀ (a1 a2 : Option (ℚ × Symbol)) (a3 : Symbol),
      l.foldl
        (fun (acc : Option (ℚ × Symbol) × Option (ℚ × Symbol) × Symbol) kr =>
          let c := kr.2.coefficientFor marker
          if c ≠ 0 then
            if kr.1.type = SymbolType.External then
              (acc.1, acc.2.1, kr.1)
            else if c < 0 then
              let r := -kr.2.constant / c
              match acc.1 with
              | none => (some (r, kr.1), acc.2.1, acc.2.2)
              | some best =>
                if r < best.1 then (some (r, kr.1), acc.2.1, acc.2.2) else acc
            else
              let r := kr.2.constant / c
              match acc.2.1 with
              | none => (acc.1, some (r, kr.1), acc.2.2)
              | some best =>
                if r < best.1 then (acc.1, some (r, kr.1), acc.2.2) else acc
          else acc)
        (a1, a2, a3) =
      (firstStrictMinFrom a1 (markerNegCandidates l marker),
        firstStrictMinFrom a2 (markerPosCandidates l marker),
        (markerExtCandidates l marker).getLastD a3) := by
  induction l with
  | nil => intro a1 a2 a3; rfl
  | cons kr t ih =>
    intro a1 a2 a3
    rw [List.foldl_cons]
    by_cases hc : kr.2.coefficientFor marker ≠ 0
    · by_cases hext : kr.1.type = SymbolType.External
      · have hno : (if kr.1.type ≠ SymbolType.External ∧
            kr.2.coefficientFor marker < 0 then
              some (-kr.2.constant / kr.2.coefficientFor marker, kr.1) else none) = none :=
          if_neg (fun hcon => hcon.1 hext)
        have hno2 : (if kr.1.type ≠ SymbolType.External ∧
            0 < kr.2.coefficientFor marker then
              some (kr.2.constant / kr.2.coefficientFor marker, kr.1) else none) = none :=
          if_neg (fun hcon => hcon.1 hext)
        rw [markerNegCandidates, List.filterMap_cons, markerPosCandidates,
          List.filterMap_cons, markerExtCandidates, List.filterMap_cons]
        simp only [hno, hno2, if_pos (And.intro hext hc)]
        rw [List.getLastD_cons]
        simp only [if_pos hc, if_pos hext]
        exact ih a1 a2 kr.1
      · by_cases hneg : kr.2.coefficientFor marker < 0
        · have hyes : (if kr.1.type ≠ SymbolType.External ∧
              kr.2.coefficientFor marker < 0 then
                some (-kr.2.constant / kr.2.coefficientFor marker, kr.1) else none) =
              some (-kr.2.constant / kr.2.coefficientFor marker, kr.1) :=
            if_pos ⟨hext, hneg⟩
          have hno2 : (if kr.1.type ≠ SymbolType.External ∧
              0 < kr.2.coefficientFor marker then
                some (kr.2.constant / kr.2.coefficientFor marker, kr.1) else none) = none :=
            if_neg (fun hcon => absurd hneg (not_lt.mpr (le_of_lt hcon.2)))
          have hno3 : (if kr.1.type = SymbolType.External ∧
              kr.2.coefficientFor marker ≠ 0 then some kr.1 else none) = none :=
            if_neg (fun hcon => hext hcon.1)
          rw [markerNegCandidates, List.filterMap_cons, markerPosCandidates,
            List.filterMap_cons, markerExtCandidates, List.filterMap_cons]
          simp only [hyes, hno2, hno3]
          rw [firstStrictMinFrom_cons]
          simp only [if_pos hc, if_neg hext, if_pos hneg]
          cases a1 with
          | none => exact ih _ a2 a3
          | some best =>
            by_cases hr : -kr.2.constant / kr.2.coefficientFor marker < best.1
            · simp only [if_pos hr]; exact ih _ a2 a3
            · simp only [if_neg hr]; exact ih _ a2 a3
        · have hpos : 0 < kr.2.coefficientFor marker :=
            lt_of_le_of_ne (not_lt.mp hneg) (Ne.symm hc)
          have hno : (if kr.1.type ≠ SymbolType.External ∧
              kr.2.coefficientFor marker < 0 then
                some (-kr.2.constant / kr.2.coefficientFor marker, kr.1) else none) = none :=
            if_neg (fun hcon => hneg hcon.2)
          have hyes2 : (if kr.1.type ≠ SymbolType.External ∧
              0 < kr.2.coefficientFor marker then
                some (kr.2.constant / kr.2.coefficientFor marker, kr.1) else none) =
              some (kr.2.constant / kr.2.coefficientFor marker, kr.1) :=
            if_pos ⟨hext, hpos⟩
          have hno3 : (if kr.1.type = SymbolType.External ∧
              kr.2.coefficientFor marker ≠ 0 then some kr.1 else none) = none :=
            if_neg (fun hcon => hext hcon.1)
          rw [markerNegCandidates, List.filterMap_cons, markerPosCandidates,
            List.filterMap_cons, markerExtCandidates, List.filterMap_cons]
          simp only [hno, hyes2, hno3]
          rw [firstStrictMinFrom_cons]
          simp only [if_pos hc, if_neg hext, if_neg hneg]
          cases a2 with
          | none => exact ih a1 _ a3
          | some best =>
            by_cases hr : kr.2.constant / kr.2.coefficientFor marker < best.1
            · simp only [if_pos hr]; exact ih a1 _ a3
            · simp only [if_neg hr]; exact ih a1 _ a3
    · have hzero : kr.2.coefficientFor marker = 0 := not_not.mp hc
      have hno : (if kr.1.type ≠ SymbolType.External ∧
          kr.2.coefficientFor marker < 0 then
            some (-kr.2.constant / kr.2.coefficientFor marker, kr.1) else none) = none :=
        if_neg (fun hcon => by rw [hzero] at hcon; exact absurd hcon.2 (by simp))
      have hno2 : (if kr.1.type ≠ SymbolType.External ∧
          0 < kr.2.coefficientFor marker then
            some (kr.2.constant / kr.2.coefficientFor marker, kr.1) else none) = none :=
        if_neg (fun hcon => by rw [hzero] at hcon; exact absurd hcon.2 (by simp))
      have hno3 : (if kr.1.type = SymbolType.External ∧
          kr.2.coefficientFor marker ≠ 0 then some kr.1 else none) = none :=
        if_neg (fun hcon => hcon.2 hzero)
      rw [markerNegCandidates, List.filterMap_cons, markerPosCandidates,
        List.filterMap_cons, markerExtCandidates, List.filterMap_cons]
      simp only [hno, hno2, hno3, if_neg hc]
      exact ih a1 a2 a3

/-- Claim C7: marker leaving-row selection scans the basis, skipping rows
with zero marker coefficient, and returns the first minimiser of
`−constant/c` among non-External rows with `c < 0`, else the first
minimiser of `constant/c` among non-External rows with `c > 0`, else the
most recently seen External row with non-zero `c`, else Invalid. -/
theorem claim_C7_markerLeaving (s : State) (marker : Symbol) :
    getMarkerLeavingSymbol s marker = markerLeavingSpec s marker := by
  rw [getMarkerLeavingSymbol, markerLeavingSpec, markerLeaving_fold]
  rfl

/-! ### Claims C9 and C10: variable readback -/

theorem alGet_append {α β : Type} [DecidableEq α] (l1 l2 : List (α × β)) (k : α) :
    alGet (l1 ++ l2) k =
      match alGet l1 k with
      | some v => some v
      | none => alGet l2 k := by
  induction l1 with
  | nil => rfl
  | cons p t ih =>
    by_cases hp : p.1 = k
    · rw [List.cons_append, alGet, if_pos hp, alGet, if_pos hp]
    · rw [List.cons_append, alGet, if_neg hp, alGet, if_neg hp, ih]

theorem alGet_eq_none_iff {α β : Type} [DecidableEq α] {m : List (α × β)} {k : α} :
    alGet m k = none ↔ ∀ p ∈ m, p.1 ≠ k := by
  induction m with
  | nil => simp [alGet]
  | cons p t ih =>
    by_cases hp : p.1 = k
    · rw [alGet, if_pos hp]
      simp only [List.mem_cons]
      constructor
      · intro h; exact absurd h (by simp)
      · intro h; exact absurd hp (h p (Or.inl rfl))
    · rw [alGet, if_neg hp]
      simp only [List.mem_cons, ih]
      constructor
      · intro h q hq
        rcases hq with hq | hq
        · rw [hq]; exact hp
        · exact h q hq
      · intro h q hq; exact h q (Or.inr hq)

theorem alGet_reverse_of_nodup {α β : Type} [DecidableEq α] {m : List (α × β)}
    (h : (m.map Prod.fst).Nodup) (k : α) : alGet m.reverse k = alGet m k := by
  induction m with
  | nil => rfl
  | cons p t ih =>
    rw [List.map_cons, List.nodup_cons] at h
    rw [List.reverse_cons, alGet_append, ih h.2]
    show (match alGet t k with
        | some v => some v
        | none => alGet [p] k) = if p.1 = k then some p.2 else alGet t k
    by_cases hp : p.1 = k
    · have hnone : alGet t k = none := by
        rw [alGet_eq_none_iff]
        intro q hq hqk
        exact h.1 (hp ▸ hqk ▸ List.mem_map_of_mem Prod.fst hq)
      rw [hnone, if_pos hp]
      show (if p.1 = k then some p.2 else none) = some p.2
      rw [if_pos hp]
    · rw [if_neg hp]
      cases ht : alGet t k with
      | some v => rfl
      | none =>
        show (if p.1 = k then some p.2 else none) = none
        rw [if_neg hp]

theorem updateVals_get (rm : List (Symbol × Row)) :
    ∀ (m : List (VarId × Symbol)) (vals : List (VarId × ℚ)) (v : VarId),
      alGet
        (m.foldl
          (fun vals p =>
            match alGet rm p.2 with
            | some row => alSet vals p.1 row.constant
            | none => alSet vals p.1 0)
          vals) v =
      match alGet m.reverse v with
      | some sym =>
        some (match alGet rm sym with
          | some row => row.constant
          | none => 0)
      | none => alGet vals v := by
  intro m
  induction m with
  | nil => intro vals v; rfl
  | cons p t ih =>
    intro vals v
    rw [List.foldl_cons, ih, List.reverse_cons, alGet_append]
    cases ht : alGet t.reverse v with
    | some sym => rfl
    | none =>
      by_cases hp : p.1 = v
      · subst hp
        have h1 : alGet [p] p.1 = some p.2 := by
          show (if p.1 = p.1 then some p.2 else none) = some p.2
          rw [if_pos rfl]
        cases hrm : alGet rm p.2 with
        | some row => simp only [hrm, h1, alGet_alSet_self]
        | none => simp only [hrm, h1, alGet_alSet_self]
      · have h1 : alGet [p] v = none := by
          show (if p.1 = v then some p.2 else none) = none
          rw [if_neg hp]
        have hv : v ≠ p.1 := fun hc => hp hc.symm
        cases hrm : alGet rm p.2 with
        | some row => simp only [hrm, h1]; exact alGet_alSet_ne _ _ hv
        | none => simp only [hrm, h1]; exact alGet_alSet_ne _ _ hv

/-- Claim C9: `updateVariables` writes, for each (variable, symbol) pair of
the variable map, the constant of the basic row keyed by that symbol, or 0
when the symbol is parametric; and a second call with no intervening
mutation leaves every variable's value unchanged. -/
theorem updateVariables_varValues_get (s : State) (v : VarId) :
    alGet (updateVariables s).varValues v =
      match alGet s.varMap.reverse v with
      | some sym =>
        some (match alGet s.rowMap sym with
          | some row => row.constant
          | none => 0)
      | none => alGet s.varValues v := by
  show alGet (s.varMap.foldl _ s.varValues) v = _
  exact updateVals_get s.rowMap s.varMap s.varValues v

theorem claim_C9_updateVariables (s : State) :
    ((s.varMap.map Prod.fst).Nodup →
      ∀ (v : VarId) (sym : Symbol), alGet s.varMap v = some sym →
        alGet (updateVariables s).varValues v =
          some (match alGet s.rowMap sym with
            | some row => row.constant
            | none => 0)) ∧
    (∀ v : VarId,
      alGet (updateVariables (updateVariables s)).varValues v =
        alGet (updateVariables s).varValues v) := by
  constructor
  · intro hnodup v sym hv
    rw [updateVariables_varValues_get s v, alGet_reverse_of_nodup hnodup, hv]
  · intro v
    rw [updateVariables_varValues_get (updateVariables s) v]
    have h2 : alGet ((updateVariables s).varMap).reverse v = alGet s.varMap.reverse v := rfl
    rw [h2]
    cases ht : alGet s.varMap.reverse v with
    | none => rfl
    | some sym =>
      rw [updateVariables_varValues_get s v, ht]
      rfl

/-- Witness for claim C9 at a concrete one-variable state whose variable 0
is basic with row constant 7. -/
theorem claim_C9_witness :
    alGet (updateVariables
      (⟨[], [(⟨0, SymbolType.External⟩, ⟨7, []⟩)], [(0, ⟨0, SymbolType.External⟩)],
        [], [], ⟨0, []⟩, none, 1, 0, []⟩ : State)).varValues 0 = some 7 :=
  (claim_C9_updateVariables
      ⟨[], [(⟨0, SymbolType.External⟩, ⟨7, []⟩)], [(0, ⟨0, SymbolType.External⟩)],
        [], [], ⟨0, []⟩, none, 1, 0, []⟩).1
    (by decide) 0 ⟨0, SymbolType.External⟩ (by decide)

/-- Claim C10: `updateVariables` is total and modifies no solver state —
every solver field is unchanged — and writes only the value slots of
variables appearing in the variable map. -/
theorem claim_C10_updateVariables_frame (s : State) :
    (updateVariables s).cnMap = s.cnMap ∧
    (updateVariables s).rowMap = s.rowMap ∧
    (updateVariables s).varMap = s.varMap ∧
    (updateVariables s).editMap = s.editMap ∧
    (updateVariables s).infeasibleRows = s.infeasibleRows ∧
    (updateVariables s).objective = s.objective ∧
    (updateVariables s).artificial = s.artificial ∧
    (updateVariables s).idTick = s.idTick ∧
    (updateVariables s).cnTick = s.cnTick ∧
    ∀ v : VarId, (∀ p ∈ s.varMap, p.1 ≠ v) →
      alGet (updateVariables s).varValues v = alGet s.varValues v := by
  refine ⟨rfl, rfl, rfl, rfl, rfl, rfl, rfl, rfl, rfl, ?_⟩
  intro v hv
  rw [updateVariables_varValues_get s v]
  have hnone : alGet s.varMap.reverse v = none := by
    rw [alGet_eq_none_iff]
    intro p hp
    exact hv p (List.mem_reverse.mp hp)
  rw [hnone]

/-- Witness for claim C10 at a concrete state with a variable 9 outside the
variable map. -/
theorem claim_C10_witness :
    alGet (updateVariables
      (⟨[], [(⟨0, SymbolType.External⟩, ⟨7, []⟩)], [(0, ⟨0, SymbolType.External⟩)],
        [], [], ⟨0, []⟩, none, 1, 0, [(9, 3)]⟩ : State)).varValues 9 = some 3 := by
  have h := (claim_C10_updateVariables_frame
      ⟨[], [(⟨0, SymbolType.External⟩, ⟨7, []⟩)], [(0, ⟨0, SymbolType.External⟩)],
        [], [], ⟨0, []⟩, none, 1, 0, [(9, 3)]⟩).2.2.2.2.2.2.2.2.2 9 (by decide)
  rw [h]
  decide

/-! ### Claim C8: the near-zero cell invariant of Row -/

theorem nearZero_neg (c : ℚ) : nearZero (-c) = nearZero c := by
  unfold nearZero
  rcases lt_trichotomy c 0 with hc | hc | hc
  · rw [if_pos hc, if_neg (by linarith : ¬ -c < 0)]
  · rw [hc]; norm_num
  · rw [if_neg (by linarith : ¬ c < 0), if_pos (by linarith : -c < 0), neg_neg]

theorem insertSymbol_noNearZero {r : Row} (h : r.noNearZeroCells) (sym : Symbol)
    (c : ℚ) : (r.insertSymbol sym c).noNearZeroCells := by
  unfold Row.insertSymbol
  by_cases hz : nearZero (c + r.coefficientFor sym)
  · rw [if_pos hz]
    intro p hp
    exact h p (mem_alDel hp).1
  · rw [if_neg hz]
    intro p hp
    rcases mem_alSet hp with hp1 | hp1
    · rw [hp1]
      exact Bool.not_eq_true _ ▸ eq_false_of_ne_true hz
    · exact h p hp1

theorem insertRow_foldl_noNearZero (k : ℚ) (l : List (Symbol × ℚ)) :
    ∀ {r : Row}, r.noNearZeroCells →
      (l.foldl (fun acc cell => acc.insertSymbol cell.1 (cell.2 * k)) r).noNearZeroCells := by
  induction l with
  | nil => intro r h; exact h
  | cons cell t ih =>
    intro r h
    rw [List.foldl_cons]
    exact ih (insertSymbol_noNearZero h cell.1 (cell.2 * k))

theorem insertRow_noNearZero {r : Row} (h : r.noNearZeroCells) (other : Row) (c : ℚ) :
    (r.insertRow other c).noNearZeroCells := by
  unfold Row.insertRow
  exact insertRow_foldl_noNearZero c other.cells
    (by intro p hp; exact h p hp)

theorem reverseSign_noNearZero {r : Row} (h : r.noNearZeroCells) :
    r.reverseSign.noNearZeroCells := by
  intro p hp
  rw [Row.reverseSign] at hp
  obtain ⟨q, hq, hpq⟩ := List.mem_map.mp hp
  rw [← hpq]
  show nearZero (-q.2) = false
  rw [nearZero_neg]
  exact h q hq

theorem substitute_noNearZero {r : Row} (h : r.noNearZeroCells) (sym : Symbol)
    (other : Row) : (r.substitute sym other).noNearZeroCells := by
  unfold Row.substitute
  cases ha : alGet r.cells sym with
  | none => exact h
  | some a =>
    refine insertRow_noNearZero ?_ other a
    intro p hp
    exact h p (mem_alDel hp).1

/-- Claim C8 counterexample: a row whose cells all fail the near-zero test,
on which `solveFor` (one of the five primitives the claim lists) produces a
cell that passes it: solving for a coefficient of 10⁹ scales the other
coefficient 1 down to 10⁻⁹ < ε. -/
theorem claim_C8_counterexample :
    (⟨0, [(⟨0, SymbolType.Slack⟩, 1000000000), (⟨1, SymbolType.Slack⟩, 1)]⟩ :
        Row).noNearZeroCells ∧
    ¬ ((⟨0, [(⟨0, SymbolType.Slack⟩, 1000000000), (⟨1, SymbolType.Slack⟩, 1)]⟩ :
        Row).solveFor ⟨0, SymbolType.Slack⟩).noNearZeroCells :=
  of_decide_eq_true (by with_unfolding_all rfl)

/-- Claim C8 amended: the Row primitives insert-symbol, insert-row,
reverse-sign and substitute preserve the invariant that no stored
coefficient passes the near-zero test; solve-for (and hence solve-for-ex)
does not preserve it, since dividing by a coefficient of large magnitude
can leave a stored near-zero cell. -/
theorem claim_C8_amended (r other : Row) (sym : Symbol) (c : ℚ)
    (h : r.noNearZeroCells) :
    (r.insertSymbol sym c).noNearZeroCells ∧
    (r.insertRow other c).noNearZeroCells ∧
    r.reverseSign.noNearZeroCells ∧
    (r.substitute sym other).noNearZeroCells :=
  ⟨insertSymbol_noNearZero h sym c, insertRow_noNearZero h other c,
    reverseSign_noNearZero h, substitute_noNearZero h sym other⟩

/-- Witness for claim C8 amended at a concrete row. -/
theorem claim_C8_witness :
    ((⟨3, [(⟨0, SymbolType.Slack⟩, 2)]⟩ : Row).insertSymbol ⟨1, SymbolType.Error⟩
        5).noNearZeroCells ∧
    ((⟨3, [(⟨0, SymbolType.Slack⟩, 2)]⟩ : Row).insertRow ⟨1, [(⟨1, SymbolType.Error⟩, 4)]⟩
        5).noNearZeroCells ∧
    (⟨3, [(⟨0, SymbolType.Slack⟩, 2)]⟩ : Row).reverseSign.noNearZeroCells ∧
    ((⟨3, [(⟨0, SymbolType.Slack⟩, 2)]⟩ : Row).substitute ⟨1, SymbolType.Error⟩
        ⟨1, [(⟨1, SymbolType.Error⟩, 4)]⟩).noNearZeroCells :=
  claim_C8_amended ⟨3, [(⟨0, SymbolType.Slack⟩, 2)]⟩ ⟨1, [(⟨1, SymbolType.Error⟩, 4)]⟩
    ⟨1, SymbolType.Error⟩ 5 (of_decide_eq_true (by with_unfolding_all rfl))

/-! ### Claim C5: suggest-value behaviour -/

/-- Claim C5: `suggestValue` fails with UnknownEditVariable on an
unregistered variable; otherwise it sets `delta = value − info.constant`,
stores the new constant, then (1) if the marker is basic adds `−delta` to
that row's constant, enqueueing the marker exactly when the new constant is
negative, and dual-optimises; (2) else if the other symbol is basic does
the symmetric update with `+delta`; (3) else adds `delta × coefficient` to
every basis row with non-zero marker coefficient, enqueueing non-External
basis symbols whose constants become negative, and dual-optimises. -/
theorem claim_C5_suggestValue (fuel : Nat) (s : State) (v : VarId) (value : ℚ) :
    suggestValue fuel s v value = suggestValueSpec fuel s v value := by
  unfold suggestValue suggestValueSpec applyDeltaToBasicRow applyDeltaToAllRows
  cases he : alGet s.editMap v with
  | none => rfl
  | some info =>
    simp only []
    cases hm : alGet s.rowMap info.tag.marker with
    | some row => simp only [hm, Option.isSome_some, if_pos]
    | none =>
      simp only [hm, Option.isSome_none]
      rw [if_neg Bool.false_ne_true]
      cases ho : alGet s.rowMap info.tag.other with
      | some row => simp only [ho, Option.isSome_some, if_pos]
      | none =>
        simp only [ho, Option.isSome_none]
        rw [if_neg Bool.false_ne_true]

/-! ### Row arithmetic lemmas -/

theorem Row.insertSymbol_constant (r : Row) (sym : Symbol) (c : ℚ) :
    (r.insertSymbol sym c).constant = r.constant := by
  unfold Row.insertSymbol
  by_cases hz : nearZero (c + r.coefficientFor sym)
  · rw [if_pos hz]
  · rw [if_neg hz]

theorem Row.mem_insertSymbol {r : Row} {sym : Symbol} {c : ℚ} {p : Symbol × ℚ}
    (h : p ∈ (r.insertSymbol sym c).cells) : p.1 = sym ∨ p ∈ r.cells := by
  unfold Row.insertSymbol at h
  by_cases hz : nearZero (c + r.coefficientFor sym)
  · rw [if_pos hz] at h
    exact Or.inr (mem_alDel h).1
  · rw [if_neg hz] at h
    rcases mem_alSet h with h1 | h1
    · rw [h1]; exact Or.inl rfl
    · exact Or.inr h1

theorem Row.insertRow_foldl_constant (k : ℚ) (l : List (Symbol × ℚ)) :
    ∀ r : Row,
      (l.foldl (fun acc cell => acc.insertSymbol cell.1 (cell.2 * k)) r).constant =
        r.constant := by
  induction l with
  | nil => intro r; rfl
  | cons cell t ih =>
    intro r
    rw [List.foldl_cons, ih, Row.insertSymbol_constant]

theorem Row.insertRow_constant (r other : Row) (c : ℚ) :
    (r.insertRow other c).constant = r.constant + other.constant * c := by
  unfold Row.insertRow
  rw [Row.insertRow_foldl_constant]

theorem Row.insertRow_foldl_mem (k : ℚ) (l : List (Symbol × ℚ)) :
    ∀ (r : Row) (p : Symbol × ℚ),
      p ∈ (l.foldl (fun acc cell => acc.insertSymbol cell.1 (cell.2 * k)) r).cells →
      p ∈ r.cells ∨ ∃ q ∈ l, p.1 = q.1 := by
  induction l with
  | nil => intro r p h; exact Or.inl h
  | cons cell t ih =>
    intro r p h
    rw [List.foldl_cons] at h
    rcases ih _ p h with h1 | h1
    · rcases Row.mem_insertSymbol h1 with h2 | h2
      · exact Or.inr ⟨cell, List.mem_cons_self _ _, h2⟩
      · exact Or.inl h2
    · obtain ⟨q, hq, hpq⟩ := h1
      exact Or.inr ⟨q, List.mem_cons_of_mem _ hq, hpq⟩

theorem Row.mem_insertRow {r other : Row} {c : ℚ} {p : Symbol × ℚ}
    (h : p ∈ (r.insertRow other c).cells) :
    p ∈ r.cells ∨ ∃ q ∈ other.cells, p.1 = q.1 := by
  unfold Row.insertRow at h
  rcases Row.insertRow_foldl_mem c other.cells _ p h with h1 | h1
  · exact Or.inl h1
  · exact Or.inr h1

theorem Row.substitute_constant (r : Row) (sym : Symbol) (other : Row) :
    (r.substitute sym other).constant =
      r.constant + r.coefficientFor sym * other.constant := by
  unfold Row.substitute
  cases ha : alGet r.cells sym with
  | none =>
    show r.constant = r.constant + r.coefficientFor sym * other.constant
    rw [Row.coefficientFor, ha]
    show r.constant = r.constant + 0 * other.constant
    ring
  | some a =>
    rw [Row.insertRow_constant, Row.coefficientFor, ha]
    show r.constant + other.constant * a = r.constant + a * other.constant
    ring

theorem Row.mem_substitute {r other : Row} {sym : Symbol} {p : Symbol × ℚ}
    (h : p ∈ (r.substitute sym other).cells) :
    p ∈ r.cells ∨ ∃ q ∈ other.cells, p.1 = q.1 := by
  unfold Row.substitute at h
  cases ha : alGet r.cells sym with
  | none => rw [ha] at h; exact Or.inl h
  | some a =>
    rw [ha] at h
    rcases Row.mem_insertRow h with h1 | h1
    · exact Or.inl (mem_alDel h1).1
    · exact Or.inr h1

theorem Row.substitute_of_not_mem {r : Row} {sym : Symbol} (other : Row)
    (h : ∀ q ∈ r.cells, q.1 ≠ sym) : r.substitute sym other = r := by
  unfold Row.substitute
  rw [alGet_eq_none_iff.mpr h]

theorem Row.coefficientFor_mem {r : Row} {sym : Symbol}
    (h : r.coefficientFor sym ≠ 0) : (sym, r.coefficientFor sym) ∈ r.cells := by
  rw [Row.coefficientFor] at h ⊢
  cases ha : alGet r.cells sym with
  | none => rw [ha] at h; exact absurd rfl h
  | some a => exact alGet_mem ha

theorem Row.insertSymbol_eq_del {r : Row} {sym : Symbol} {c : ℚ}
    (hz : nearZero (c + r.coefficientFor sym) = true) :
    r.insertSymbol sym c = { r with cells := alDel r.cells sym } := by
  simp only [Row.insertSymbol]
  rw [if_pos hz]

theorem Row.insertSymbol_eq_set {r : Row} {sym : Symbol} {c : ℚ}
    (hz : nearZero (c + r.coefficientFor sym) = false) :
    r.insertSymbol sym c =
      { r with cells := alSet r.cells sym (c + r.coefficientFor sym) } := by
  simp only [Row.insertSymbol]
  rw [if_neg (by rw [hz]; exact Bool.false_ne_true)]

theorem Row.coefficientFor_insertSymbol_ne (r : Row) {sym sym' : Symbol} (c : ℚ)
    (h : sym' ≠ sym) :
    (r.insertSymbol sym c).coefficientFor sym' = r.coefficientFor sym' := by
  cases hz : nearZero (c + r.coefficientFor sym) with
  | true =>
    rw [Row.insertSymbol_eq_del hz]
    show (alGet (alDel r.cells sym) sym').getD 0 = (alGet r.cells sym').getD 0
    rw [alGet_alDel_ne _ h]
  | false =>
    rw [Row.insertSymbol_eq_set hz]
    show (alGet (alSet r.cells sym (c + r.coefficientFor sym)) sym').getD 0 =
      (alGet r.cells sym').getD 0
    rw [alGet_alSet_ne _ _ h]

theorem Row.coefficientFor_insertSymbol_self (r : Row) (sym : Symbol) (c : ℚ)
    (h0 : r.coefficientFor sym = 0) (hnz : nearZero c = false) :
    (r.insertSymbol sym c).coefficientFor sym = c := by
  have hz : nearZero (c + r.coefficientFor sym) = false := by
    rw [h0, add_zero]; exact hnz
  rw [Row.insertSymbol_eq_set hz]
  show (alGet (alSet r.cells sym (c + r.coefficientFor sym)) sym).getD 0 = c
  rw [alGet_alSet_self]
  show c + r.coefficientFor sym = c
  rw [h0]
  ring

theorem Row.solveFor_constant (r : Row) (sym : Symbol) :
    (r.solveFor sym).constant = r.constant * (-1 / r.coefficientFor sym) := rfl

theorem Row.mem_solveFor {r : Row} {sym : Symbol} {p : Symbol × ℚ}
    (h : p ∈ (r.solveFor sym).cells) :
    ∃ q ∈ r.cells, p.1 = q.1 ∧ q.1 ≠ sym ∧
      p.2 = q.2 * (-1 / r.coefficientFor sym) := by
  unfold Row.solveFor at h
  obtain ⟨q, hq, hpq⟩ := List.mem_map.mp h
  obtain ⟨hq1, hq2⟩ := mem_alDel hq
  exact ⟨q, hq1, by rw [← hpq], hq2, by rw [← hpq]⟩

theorem Row.coefficientFor_eq_zero_of_forall {r : Row} {sym : Symbol}
    (h : ∀ q ∈ r.cells, q.1 ≠ sym) : r.coefficientFor sym = 0 := by
  rw [Row.coefficientFor, alGet_eq_none_iff.mpr h]
  rfl

theorem Row.solveForEx_constant (r : Row) {lhs rhs : Symbol} (h : rhs ≠ lhs) :
    (r.solveForEx lhs rhs).constant =
      r.constant * (-1 / r.coefficientFor rhs) := by
  unfold Row.solveForEx
  rw [Row.solveFor_constant, Row.insertSymbol_constant,
    Row.coefficientFor_insertSymbol_ne _ _ h]

theorem Row.mem_solveForEx {r : Row} {lhs rhs : Symbol} {p : Symbol × ℚ}
    (h : p ∈ (r.solveForEx lhs rhs).cells) :
    p.1 = lhs ∨ ∃ q ∈ r.cells, p.1 = q.1 := by
  unfold Row.solveForEx at h
  obtain ⟨q, hq, hpq, hqs, hp2⟩ := Row.mem_solveFor h
  rcases Row.mem_insertSymbol hq with h1 | h1
  · exact Or.inl (hpq ▸ h1)
  · exact Or.inr ⟨q, h1, hpq⟩

theorem Row.add_constant (r : Row) (v : ℚ) : (r.add v).constant = r.constant + v := rfl

theorem Row.add_cells (r : Row) (v : ℚ) : (r.add v).cells = r.cells := rfl

/-! ### Frame lemmas for the tableau operations -/

theorem substituteTableau_frame (s : State) (symbol : Symbol) (row : Row) :
    (substituteTableau s symbol row).cnMap = s.cnMap ∧
    (substituteTableau s symbol row).varMap = s.varMap ∧
    (substituteTableau s symbol row).editMap = s.editMap ∧
    (substituteTableau s symbol row).varValues = s.varValues ∧
    (substituteTableau s symbol row).cnTick = s.cnTick ∧
    (substituteTableau s symbol row).idTick = s.idTick :=
  ⟨rfl, rfl, rfl, rfl, rfl, rfl⟩

theorem optimizeLoop_frame (t : ObjTarget) :
    ∀ (fuel : Nat) (s : State),
      (optimizeLoop t fuel s).2.cnMap = s.cnMap ∧
      (optimizeLoop t fuel s).2.varMap = s.varMap ∧
      (optimizeLoop t fuel s).2.editMap = s.editMap ∧
      (optimizeLoop t fuel s).2.varValues = s.varValues ∧
      (optimizeLoop t fuel s).2.cnTick = s.cnTick ∧
      (optimizeLoop t fuel s).2.idTick = s.idTick := by
  intro fuel
  induction fuel with
  | zero => intro s; exact ⟨rfl, rfl, rfl, rfl, rfl, rfl⟩
  | succ fuel ih =>
    intro s
    rw [optimizeLoop]
    dsimp only
    split
    · exact ⟨rfl, rfl, rfl, rfl, rfl, rfl⟩
    · split
      · exact ⟨rfl, rfl, rfl, rfl, rfl, rfl⟩
      · split
        · exact ⟨rfl, rfl, rfl, rfl, rfl, rfl⟩
        · exact ih _

theorem dualOptimizeLoop_frame :
    ∀ (fuel : Nat) (s : State),
      (dualOptimizeLoop fuel s).2.cnMap = s.cnMap ∧
      (dualOptimizeLoop fuel s).2.varMap = s.varMap ∧
      (dualOptimizeLoop fuel s).2.editMap = s.editMap ∧
      (dualOptimizeLoop fuel s).2.varValues = s.varValues ∧
      (dualOptimizeLoop fuel s).2.cnTick = s.cnTick ∧
      (dualOptimizeLoop fuel s).2.idTick = s.idTick := by
  intro fuel
  induction fuel with
  | zero => intro s; exact ⟨rfl, rfl, rfl, rfl, rfl, rfl⟩
  | succ fuel ih =>
    intro s
    rw [dualOptimizeLoop]
    dsimp only
    split
    · exact ⟨rfl, rfl, rfl, rfl, rfl, rfl⟩
    · split
      · exact ih _
      · split
        · split
          · exact ⟨rfl, rfl, rfl, rfl, rfl, rfl⟩
          · exact ih _
        · exact ih _

theorem stripArtificialSymbol_frame (s : State) (art : Symbol) :
    (stripArtificialSymbol s art).cnMap = s.cnMap ∧
    (stripArtificialSymbol s art).varMap = s.varMap ∧
    (stripArtificialSymbol s art).editMap = s.editMap ∧
    (stripArtificialSymbol s art).varValues = s.varValues ∧
    (stripArtificialSymbol s art).cnTick = s.cnTick ∧
    (stripArtificialSymbol s art).idTick = s.idTick :=
  ⟨rfl, rfl, rfl, rfl, rfl, rfl⟩

theorem addWithArtificialVariable_frame (fuel : Nat) (s : State) (row : Row) :
    (addWithArtificialVariable fuel s row).2.1.cnMap = s.cnMap ∧
    (addWithArtificialVariable fuel s row).2.1.varMap = s.varMap ∧
    (addWithArtificialVariable fuel s row).2.1.editMap = s.editMap ∧
    (addWithArtificialVariable fuel s row).2.1.varValues = s.varValues ∧
    (addWithArtificialVariable fuel s row).2.1.cnTick = s.cnTick := by
  rw [addWithArtificialVariable]
  dsimp only
  split
  next e s2 heq =>
    obtain ⟨hc, hv, he2, hvv, hct, _⟩ := optimizeLoop_frame ObjTarget.art fuel _
    rw [heq] at hc hv he2 hvv hct
    exact ⟨hc, hv, he2, hvv, hct⟩
  next s2 heq =>
    obtain ⟨hc, hv, he2, hvv, hct, _⟩ := optimizeLoop_frame ObjTarget.art fuel _
    rw [heq] at hc hv he2 hvv hct
    split
    · split
      · exact ⟨hc, hv, he2, hvv, hct⟩
      · split
        · exact ⟨hc, hv, he2, hvv, hct⟩
        · exact ⟨hc, hv, he2, hvv, hct⟩
    · exact ⟨hc, hv, he2, hvv, hct⟩

/-! ### Lemmas about row construction -/

theorem getVarSymbol_props (s : State) (v : VarId) (h : idsBounded s) :
    (getVarSymbol s v).1.cnMap = s.cnMap ∧
    (getVarSymbol s v).1.rowMap = s.rowMap ∧
    (getVarSymbol s v).1.editMap = s.editMap ∧
    (getVarSymbol s v).1.infeasibleRows = s.infeasibleRows ∧
    (getVarSymbol s v).1.objective = s.objective ∧
    (getVarSymbol s v).1.artificial = s.artificial ∧
    (getVarSymbol s v).1.cnTick = s.cnTick ∧
    (getVarSymbol s v).1.varValues = s.varValues ∧
    s.idTick ≤ (getVarSymbol s v).1.idTick ∧
    idsBounded (getVarSymbol s v).1 ∧
    (getVarSymbol s v).2.id < (getVarSymbol s v).1.idTick := by
  rw [getVarSymbol]
  split
  next sym hsym =>
    exact ⟨rfl, rfl, rfl, rfl, rfl, rfl, rfl, rfl, le_refl _, h, h.2.2 _ (alGet_mem hsym)⟩
  next hnone =>
    refine ⟨rfl, rfl, rfl, rfl, rfl, rfl, rfl, rfl, le_of_lt (lt_add_one _),
      ⟨?_, ?_, ?_⟩, lt_add_one _⟩
    · intro kr hkr
      obtain ⟨h1, h2⟩ := h.1 kr hkr
      exact ⟨lt_trans h1 (lt_add_one _), fun c hc => lt_trans (h2 c hc) (lt_add_one _)⟩
    · intro c hc
      exact lt_trans (h.2.1 c hc) (lt_add_one _)
    · intro vs hvs
      rcases mem_alSet hvs with h1 | h1
      · rw [h1]; exact lt_add_one _
      · exact lt_trans (h.2.2 vs h1) (lt_add_one _)

theorem createRowTerms_cons (s : State) (row : Row) (t : ℚ × VarId)
    (ts : List (ℚ × VarId)) :
    createRowTerms s row (t :: ts) =
      (if nearZero t.1 then createRowTerms s row ts
      else
        match alGet (getVarSymbol s t.2).1.rowMap (getVarSymbol s t.2).2 with
        | some basicRow =>
          createRowTerms (getVarSymbol s t.2).1 (row.insertRow basicRow t.1) ts
        | none =>
          createRowTerms (getVarSymbol s t.2).1
            (row.insertSymbol (getVarSymbol s t.2).2 t.1) ts) := by
  show (t :: ts).foldl _ (s, row) = _
  rw [List.foldl_cons]
  by_cases hz : nearZero t.1
  · rw [if_pos hz, if_pos hz]
    rfl
  · rw [if_neg hz, if_neg hz]
    cases hb : alGet (getVarSymbol s t.2).1.rowMap (getVarSymbol s t.2).2 with
    | some basicRow =>
      dsimp only
      rw [hb]
      rfl
    | none =>
      dsimp only
      rw [hb]
      rfl

theorem createRowTerms_props (terms : List (ℚ × VarId)) :
    ∀ (s : State) (row : Row), idsBounded s →
      (∀ c ∈ row.cells, c.1.id < s.idTick) →
      (createRowTerms s row terms).1.cnMap = s.cnMap ∧
      (createRowTerms s row terms).1.rowMap = s.rowMap ∧
      (createRowTerms s row terms).1.editMap = s.editMap ∧
      (createRowTerms s row terms).1.infeasibleRows = s.infeasibleRows ∧
      (createRowTerms s row terms).1.objective = s.objective ∧
      (createRowTerms s row terms).1.artificial = s.artificial ∧
      (createRowTerms s row terms).1.cnTick = s.cnTick ∧
      (createRowTerms s row terms).1.varValues = s.varValues ∧
      s.idTick ≤ (createRowTerms s row terms).1.idTick ∧
      idsBounded (createRowTerms s row terms).1 ∧
      ∀ c ∈ (createRowTerms s row terms).2.cells,
        c.1.id < (createRowTerms s row terms).1.idTick := by
  induction terms with
  | nil =>
    intro s row hids hcells
    exact ⟨rfl, rfl, rfl, rfl, rfl, rfl, rfl, rfl, le_refl _, hids, hcells⟩
  | cons t ts ih =>
    intro s row hids hcells
    rw [createRowTerms_cons]
    by_cases hz : nearZero t.1
    · rw [if_pos hz]
      exact ih s row hids hcells
    · rw [if_neg hz]
      obtain ⟨g1, g2, g3, g4, g5, g6, g7, g8, g9, g10, g11⟩ :=
        getVarSymbol_props s t.2 hids
      cases hb : alGet (getVarSymbol s t.2).1.rowMap (getVarSymbol s t.2).2 with
      | some basicRow =>
        have hcells2 : ∀ c ∈ (row.insertRow basicRow t.1).cells,
            c.1.id < (getVarSymbol s t.2).1.idTick := by
          intro c hc
          rcases Row.mem_insertRow hc with h1 | h1
          · exact lt_of_lt_of_le (hcells c h1) g9
          · obtain ⟨q, hq, hcq⟩ := h1
            have hmem : ((getVarSymbol s t.2).2, basicRow) ∈ (getVarSymbol s t.2).1.rowMap :=
              alGet_mem hb
            have := (g10.1 _ hmem).2 q hq
            rw [hcq]
            exact this
        obtain ⟨f1, f2, f3, f4, f5, f6, f7, f8, f9, f10, f11⟩ :=
          ih (getVarSymbol s t.2).1 (row.insertRow basicRow t.1) g10 hcells2
        exact ⟨f1.trans g1, f2.trans g2, f3.trans g3, f4.trans g4, f5.trans g5,
          f6.trans g6, f7.trans g7, f8.trans g8, le_trans g9 f9, f10, f11⟩
      | none =>
        have hcells2 : ∀ c ∈ (row.insertSymbol (getVarSymbol s t.2).2 t.1).cells,
            c.1.id < (getVarSymbol s t.2).1.idTick := by
          intro c hc
          rcases Row.mem_insertSymbol hc with h1 | h1
          · rw [h1]; exact g11
          · exact lt_of_lt_of_le (hcells c h1) g9
        obtain ⟨f1, f2, f3, f4, f5, f6, f7, f8, f9, f10, f11⟩ :=
          ih (getVarSymbol s t.2).1 (row.insertSymbol (getVarSymbol s t.2).2 t.1) g10 hcells2
        exact ⟨f1.trans g1, f2.trans g2, f3.trans g3, f4.trans g4, f5.trans g5,
          f6.trans g6, f7.trans g7, f8.trans g8, le_trans g9 f9, f10, f11⟩

theorem symbol_ne_of_id_lt {a b : Symbol} (h : a.id < b.id) : a ≠ b := by
  intro hc
  rw [hc] at h
  exact lt_irrefl _ h

theorem Row.allDummies_iff (r : Row) :
    r.allDummies = true ↔ ∀ p ∈ r.cells, p.1.type = SymbolType.Dummy := by
  unfold Row.allDummies
  rw [List.all_eq_true]
  constructor
  · intro h p hp; exact of_decide_eq_true (h p hp)
  · intro h p hp; exact decide_eq_true (h p hp)

theorem Row.allDummies_false_of_mem {r : Row} {p : Symbol × ℚ} (hp : p ∈ r.cells)
    (ht : p.1.type ≠ SymbolType.Dummy) : r.allDummies = false := by
  cases hd : r.allDummies with
  | false => rfl
  | true => exact absurd (r.allDummies_iff.mp hd p hp) ht

theorem Row.reverseSign_allDummies (r : Row) :
    r.reverseSign.allDummies = r.allDummies := by
  simp only [Row.allDummies, Row.reverseSign, List.all_map]
  rfl

theorem Row.coefficientFor_fresh {r : Row} {s : State} {sym : Symbol}
    (hcells : ∀ c ∈ r.cells, c.1.id < s.idTick) (hsym : sym.id = s.idTick) :
    r.coefficientFor sym = 0 := by
  refine Row.coefficientFor_eq_zero_of_forall ?_
  intro q hq hqc
  have := hcells q hq
  rw [hqc, hsym] at this
  exact lt_irrefl _ this

theorem createRowAux_props (s : State) (cn : Constraint) (row : Row)
    (hcells : ∀ c ∈ row.cells, c.1.id < s.idTick) :
    (createRowAux s cn row).1.cnMap = s.cnMap ∧
    (createRowAux s cn row).1.rowMap = s.rowMap ∧
    (createRowAux s cn row).1.editMap = s.editMap ∧
    (createRowAux s cn row).1.infeasibleRows = s.infeasibleRows ∧
    (createRowAux s cn row).1.cnTick = s.cnTick ∧
    (createRowAux s cn row).1.varValues = s.varValues ∧
    (createRowAux s cn row).1.artificial = s.artificial ∧
    ((createRowAux s cn row).2.1.allDummies = true →
      (createRowAux s cn row).1.objective = s.objective) := by
  rw [createRowAux]
  cases hop : cn.op with
  | Le =>
    dsimp only
    rw [if_pos rfl]
    by_cases hstr : cn.strength < Strength.required
    · rw [if_pos hstr]
      refine ⟨rfl, rfl, rfl, rfl, rfl, rfl, rfl, ?_⟩
      intro hdum
      dsimp only [makeSymbol] at hdum
      have hc1 : (row.insertSymbol ⟨s.idTick, SymbolType.Slack⟩ 1).coefficientFor
          ⟨s.idTick, SymbolType.Slack⟩ = 1 :=
        Row.coefficientFor_insertSymbol_self _ _ _
          (Row.coefficientFor_fresh hcells rfl) (by decide)
      have hc2 : ((row.insertSymbol ⟨s.idTick, SymbolType.Slack⟩ 1).insertSymbol
          ⟨s.idTick + 1, SymbolType.Error⟩ (-1)).coefficientFor
          ⟨s.idTick, SymbolType.Slack⟩ = 1 := by
        rw [Row.coefficientFor_insertSymbol_ne _ _
          (symbol_ne_of_id_lt (show (s.idTick : Int) < s.idTick + 1 from lt_add_one _))]
        exact hc1
      have hmem := @Row.coefficientFor_mem
        ((row.insertSymbol ⟨s.idTick, SymbolType.Slack⟩ 1).insertSymbol
          ⟨s.idTick + 1, SymbolType.Error⟩ (-1))
        ⟨s.idTick, SymbolType.Slack⟩ (by rw [hc2]; norm_num)
      have := Row.allDummies_false_of_mem hmem (by dsimp only; decide)
      rw [this] at hdum
      exact absurd hdum Bool.false_ne_true
    · rw [if_neg hstr]
      exact ⟨rfl, rfl, rfl, rfl, rfl, rfl, rfl, fun _ => rfl⟩
  | Ge =>
    dsimp only
    rw [show (if Operator.Ge = Operator.Le then (1 : ℚ) else -1) = -1 from
      if_neg (by decide)]
    by_cases hstr : cn.strength < Strength.required
    · rw [if_pos hstr]
      refine ⟨rfl, rfl, rfl, rfl, rfl, rfl, rfl, ?_⟩
      intro hdum
      dsimp only [makeSymbol] at hdum
      rw [neg_neg] at hdum
      have hc1 : (row.insertSymbol ⟨s.idTick, SymbolType.Slack⟩ (-1)).coefficientFor
          ⟨s.idTick, SymbolType.Slack⟩ = -1 :=
        Row.coefficientFor_insertSymbol_self _ _ _
          (Row.coefficientFor_fresh hcells rfl) (by decide)
      have hc2 : ((row.insertSymbol ⟨s.idTick, SymbolType.Slack⟩ (-1)).insertSymbol
          ⟨s.idTick + 1, SymbolType.Error⟩ 1).coefficientFor
          ⟨s.idTick, SymbolType.Slack⟩ = -1 := by
        rw [Row.coefficientFor_insertSymbol_ne _ _
          (symbol_ne_of_id_lt (show (s.idTick : Int) < s.idTick + 1 from lt_add_one _))]
        exact hc1
      have hmem := @Row.coefficientFor_mem
        ((row.insertSymbol ⟨s.idTick, SymbolType.Slack⟩ (-1)).insertSymbol
          ⟨s.idTick + 1, SymbolType.Error⟩ 1)
        ⟨s.idTick, SymbolType.Slack⟩ (by rw [hc2]; norm_num)
      have := Row.allDummies_false_of_mem hmem (by dsimp only; decide)
      rw [this] at hdum
      exact absurd hdum Bool.false_ne_true
    · rw [if_neg hstr]
      exact ⟨rfl, rfl, rfl, rfl, rfl, rfl, rfl, fun _ => rfl⟩
  | Eq =>
    dsimp only
    by_cases hstr : cn.strength < Strength.required
    · rw [if_pos hstr]
      refine ⟨rfl, rfl, rfl, rfl, rfl, rfl, rfl, ?_⟩
      intro hdum
      dsimp only [makeSymbol] at hdum
      have hc1 : (row.insertSymbol ⟨s.idTick, SymbolType.Error⟩ (-1)).coefficientFor
          ⟨s.idTick, SymbolType.Error⟩ = -1 :=
        Row.coefficientFor_insertSymbol_self _ _ _
          (Row.coefficientFor_fresh hcells rfl) (by decide)
      have hc2 : ((row.insertSymbol ⟨s.idTick, SymbolType.Error⟩ (-1)).insertSymbol
          ⟨s.idTick + 1, SymbolType.Error⟩ 1).coefficientFor
          ⟨s.idTick, SymbolType.Error⟩ = -1 := by
        rw [Row.coefficientFor_insertSymbol_ne _ _
          (symbol_ne_of_id_lt (show (s.idTick : Int) < s.idTick + 1 from lt_add_one _))]
        exact hc1
      have hmem := @Row.coefficientFor_mem
        ((row.insertSymbol ⟨s.idTick, SymbolType.Error⟩ (-1)).insertSymbol
          ⟨s.idTick + 1, SymbolType.Error⟩ 1)
        ⟨s.idTick, SymbolType.Error⟩ (by rw [hc2]; norm_num)
      have := Row.allDummies_false_of_mem hmem (by dsimp only; decide)
      rw [this] at hdum
      exact absurd hdum Bool.false_ne_true
    · rw [if_neg hstr]
      exact ⟨rfl, rfl, rfl, rfl, rfl, rfl, rfl, fun _ => rfl⟩

theorem createRow_props (s : State) (cn : Constraint) (hids : idsBounded s) :
    (createRow s cn).1.cnMap = s.cnMap ∧
    (createRow s cn).1.rowMap = s.rowMap ∧
    (createRow s cn).1.editMap = s.editMap ∧
    (createRow s cn).1.infeasibleRows = s.infeasibleRows ∧
    (createRow s cn).1.cnTick = s.cnTick ∧
    (createRow s cn).1.varValues = s.varValues ∧
    (createRow s cn).1.artificial = s.artificial ∧
    ((createRow s cn).2.1.allDummies = true →
      (createRow s cn).1.objective = s.objective) := by
  obtain ⟨f1, f2, f3, f4, f5, f6, f7, f8, f9, f10, f11⟩ :=
    createRowTerms_props cn.expression.terms s ⟨cn.expression.constant, []⟩ hids
      (by intro c hc; exact absurd hc (List.not_mem_nil c))
  obtain ⟨g1, g2, g3, g4, g5, g6, g7, g8⟩ :=
    createRowAux_props (createRowTerms s ⟨cn.expression.constant, []⟩ cn.expression.terms).1
      cn (createRowTerms s ⟨cn.expression.constant, []⟩ cn.expression.terms).2 f11
  have hmain : createRow s cn =
      ((createRowAux (createRowTerms s ⟨cn.expression.constant, []⟩ cn.expression.terms).1
          cn (createRowTerms s ⟨cn.expression.constant, []⟩ cn.expression.terms).2).1,
        (if (createRowAux (createRowTerms s ⟨cn.expression.constant, []⟩
            cn.expression.terms).1 cn
            (createRowTerms s ⟨cn.expression.constant, []⟩ cn.expression.terms).2).2.1.constant
            < 0 then
          (createRowAux (createRowTerms s ⟨cn.expression.constant, []⟩
            cn.expression.terms).1 cn
            (createRowTerms s ⟨cn.expression.constant, []⟩
              cn.expression.terms).2).2.1.reverseSign
        else
          (createRowAux (createRowTerms s ⟨cn.expression.constant, []⟩
            cn.expression.terms).1 cn
            (createRowTerms s ⟨cn.expression.constant, []⟩ cn.expression.terms).2).2.1),
        (createRowAux (createRowTerms s ⟨cn.expression.constant, []⟩ cn.expression.terms).1
          cn (createRowTerms s ⟨cn.expression.constant, []⟩
            cn.expression.terms).2).2.2) := rfl
  rw [hmain]
  refine ⟨g1.trans f1, g2.trans f2, g3.trans f3, g4.trans f4, g5.trans f7, g6.trans f8,
    g7.trans f6, ?_⟩
  intro hdum
  refine (g8 ?_).trans f5
  by_cases hneg : (createRowAux (createRowTerms s ⟨cn.expression.constant, []⟩
      cn.expression.terms).1 cn
      (createRowTerms s ⟨cn.expression.constant, []⟩ cn.expression.terms).2).2.1.constant < 0
  · rw [if_pos hneg, Row.reverseSign_allDummies] at hdum
    exact hdum
  · rw [if_neg hneg] at hdum
    exact hdum

/-! ### Reaching the literal states

Each literal state above is proved equal to the result of the concrete
solver call that produced it, so the literals are merely names for states
on genuine execution traces. -/

/-- Adding required `x == 0` to a fresh solver succeeds and yields the
literal state `stXeq0`. -/
theorem stXeq0_reached : addConstraint 50 initState cnXeq0Req = (none, stXeq0) := by
  with_unfolding_all rfl

/-- Adding required `x ≥ 5` on top of `stXeq0` fails with
UnsatisfiableConstraint through the artificial-variable phase and yields
the literal state `stCorrupt`. -/
theorem stCorrupt_reached :
    addConstraint 50 stXeq0 cnXge5Req = (some SolverError.unsatisfiableConstraint, stCorrupt) := by
  with_unfolding_all rfl

/-- Adding weak `x == 0` to a fresh solver succeeds and yields the literal
state `stWeak1`. -/
theorem stWeak1_reached : addConstraint 50 initState cnXeq0Weak = (none, stWeak1) := by
  with_unfolding_all rfl

/-- Adding weak `x == 10` on top of `stWeak1` succeeds and yields the
literal state `stDegenerate`. -/
theorem stDegenerate_reached :
    addConstraint 50 stWeak1 cnXeq10Weak = (none, stDegenerate) := by
  with_unfolding_all rfl

/-- Adding required `x == 10` on top of `stDegenerate` succeeds and yields
the literal state `stDegenAdded`. -/
theorem stDegenAdded_reached :
    addConstraint 50 stDegenerate cnXeq10Req = (none, stDegenAdded) := by
  with_unfolding_all rfl

/-- In `removeConstraint`, when the constraint is present, its marker is
not basic, and a valid leaving row exists, the call reduces to the main
optimize loop run on the tableau obtained by pivoting the marker into the
basis through the leaving row. -/
theorem removeConstraint_eq_pivot (fuel : Nat) (s s2 : State) (cn : Constraint)
    (tag : Tag) (leaving : Symbol) (row : Row)
    (h1 : alGet s.cnMap cn = some tag)
    (h2 : removeConstraintEffects { s with cnMap := alDel s.cnMap cn } cn tag = s2)
    (h3 : alGet s2.rowMap tag.marker = none)
    (h4 : getMarkerLeavingSymbol s2 tag.marker = leaving)
    (h5 : ¬ leaving.type = SymbolType.Invalid)
    (h6 : alGet s2.rowMap leaving = some row) :
    removeConstraint fuel s cn =
      optimizeLoop ObjTarget.main fuel
        (substituteTableau { s2 with rowMap := alDel s2.rowMap leaving } tag.marker
          (row.solveForEx leaving tag.marker)) := by
  unfold removeConstraint
  rw [h1]
  dsimp only
  rw [h2, h3]
  simp only [Option.isSome_none, Bool.false_eq_true, if_false, h4, if_neg h5, h6]

/-- Removing the required `x == 10` from `stDegenAdded` succeeds and
yields the literal state `stDegenRemoved`. -/
theorem stDegenRemoved_reached :
    removeConstraint 50 stDegenAdded cnXeq10Req = (none, stDegenRemoved) := by
  have e := removeConstraint_eq_pivot 50 stDegenAdded s2DL cnXeq10Req tagD
    ⟨3, SymbolType.Error⟩ rowLeavD
    (by rfl) (by rfl) (by rfl)
    (by with_unfolding_all rfl) (by decide) (by rfl)
  rw [e,
    show Row.solveForEx rowLeavD ⟨3, SymbolType.Error⟩ tagD.marker = row1D from by
      with_unfolding_all rfl,
    show substituteTableau { s2DL with rowMap := alDel s2DL.rowMap ⟨3, SymbolType.Error⟩ }
        tagD.marker row1D = stDegenRemoved from by with_unfolding_all rfl]
  with_unfolding_all rfl

/-- Adding required `z == 0` on top of the corrupted state `stCorrupt`
succeeds and yields the literal state `stAfterZ`. -/
theorem stAfterZ_reached :
    addConstraint 50 stCorrupt cnZeq0Req = (none, stAfterZ) := by
  with_unfolding_all rfl

/-! ### Claim C2: atomicity of failed calls -/

/-- Claim C2 counterexample: from the state after `x == 0` (required) —
itself reached from a fresh solver — the required constraint `x ≥ 5` fails
with UnsatisfiableConstraint through the artificial-variable phase, yet the
basis rows after the failed call differ from the basis rows before it: a
new Slack-keyed row with constant −5 was left behind, so the failed call is
not atomic. -/
theorem claim_C2_counterexample :
    addConstraint 50 initState cnXeq0Req = (none, stXeq0) ∧
    addConstraint 50 stXeq0 cnXge5Req =
      (some SolverError.unsatisfiableConstraint, stCorrupt) ∧
    ¬ stCorrupt.rowMap = stXeq0.rowMap :=
  ⟨stXeq0_reached, stCorrupt_reached, of_decide_eq_true (by with_unfolding_all rfl)⟩

/-- Claim C2 amended: a failed public call leaves the tableau unchanged for
every check-first failure (DuplicateConstraint, UnknownConstraint,
DuplicateEditVariable, BadRequiredStrength, UnknownEditVariable from either
remove_edit_variable or suggest_value) — the post state is exactly the pre
state — and for UnsatisfiableConstraint raised through the all-dummy
branch, where the constraint map, basis rows, objective row, edit map and
infeasible worklist are unchanged (only the variable map and the id counter
may change); atomicity does not extend to add_constraint failing through
the artificial-variable phase. -/
theorem claim_C2_amended (fuel : Nat) (s : State) (cn : Constraint) (v : VarId)
    (strength value : ℚ) :
    ((alGet s.cnMap cn).isSome = true →
      addConstraint fuel s cn = (some SolverError.duplicateConstraint, s)) ∧
    (alGet s.cnMap cn = none →
      removeConstraint fuel s cn = (some SolverError.unknownConstraint, s)) ∧
    ((alGet s.editMap v).isSome = true →
      addEditVariable fuel s v strength = (some SolverError.duplicateEditVariable, s)) ∧
    (alGet s.editMap v = none → Strength.clip strength = Strength.required →
      addEditVariable fuel s v strength = (some SolverError.badRequiredStrength, s)) ∧
    (alGet s.editMap v = none →
      removeEditVariable fuel s v = (some SolverError.unknownEditVariable, s)) ∧
    (alGet s.editMap v = none →
      suggestValue fuel s v value = (some SolverError.unknownEditVariable, s)) ∧
    (idsBounded s → alGet s.cnMap cn = none → addFailsAllDummy s cn →
      (addConstraint fuel s cn).1 = some SolverError.unsatisfiableConstraint ∧
      (addConstraint fuel s cn).2.cnMap = s.cnMap ∧
      (addConstraint fuel s cn).2.rowMap = s.rowMap ∧
      (addConstraint fuel s cn).2.objective = s.objective ∧
      (addConstraint fuel s cn).2.editMap = s.editMap ∧
      (addConstraint fuel s cn).2.infeasibleRows = s.infeasibleRows) := by
  refine ⟨?_, ?_, ?_, ?_, ?_, ?_, ?_⟩
  · intro h
    rw [addConstraint, if_pos h]
  · intro h
    rw [removeConstraint]
    rw [h]
  · intro h
    rw [addEditVariable, if_pos h]
  · intro h hclip
    rw [addEditVariable, if_neg (by rw [h]; exact Bool.false_ne_true), if_pos hclip]
  · intro h
    rw [removeEditVariable, h]
  · intro h
    rw [suggestValue, h]
  · intro hids hnone hfail
    obtain ⟨hf1, hf2, hf3⟩ := hfail
    have hif : addConstraint fuel s cn =
        (some SolverError.unsatisfiableConstraint, (createRow s cn).1) := by
      rw [addConstraint, if_neg (by rw [hnone]; exact Bool.false_ne_true)]
      dsimp only
      rw [if_pos ⟨⟨hf1, hf2⟩, by rw [hf3]; exact Bool.false_ne_true⟩]
    obtain ⟨g1, g2, g3, g4, _, _, _, g8⟩ := createRow_props s cn hids
    rw [hif]
    exact ⟨rfl, g1, g2, g8 hf2, g3, g4⟩

/-- Witness for claim C2 amended at concrete states: a duplicate add on the
state holding `x == 0`, an unknown removal on a fresh solver, and the
all-dummy unsatisfiable add of `x == 10` (required) on the state holding
`x == 0` (required). -/
theorem claim_C2_witness :
    addConstraint 10 stXeq0 cnXeq0Req = (some SolverError.duplicateConstraint, stXeq0) ∧
    removeConstraint 10 initState cnXeq0Req =
      (some SolverError.unknownConstraint, initState) ∧
    (addConstraint 10 stXeq0 cnXeq10Req).1 = some SolverError.unsatisfiableConstraint ∧
    (addConstraint 10 stXeq0 cnXeq10Req).2.rowMap = stXeq0.rowMap := by
  refine ⟨?_, ?_, ?_, ?_⟩
  · exact (claim_C2_amended 10 stXeq0 cnXeq0Req 0 0 0).1 (by rfl)
  · exact (claim_C2_amended 10 initState cnXeq0Req 0 0 0).2.1 rfl
  · exact ((claim_C2_amended 10 stXeq0 cnXeq10Req 0 0 0).2.2.2.2.2.2
      (of_decide_eq_true (by with_unfolding_all rfl))
      (by rfl)
      (of_decide_eq_true (by with_unfolding_all rfl))).1
  · exact ((claim_C2_amended 10 stXeq0 cnXeq10Req 0 0 0).2.2.2.2.2.2
      (of_decide_eq_true (by with_unfolding_all rfl))
      (by rfl)
      (of_decide_eq_true (by with_unfolding_all rfl))).2.2.1


/-! ### Claim C3: the add/remove round-trip -/

theorem getVarSymbol_cnMap (s : State) (v : VarId) :
    (getVarSymbol s v).1.cnMap = s.cnMap := by
  unfold getVarSymbol
  split <;> rfl

theorem createRowTerms_cnMap (terms : List (ℚ × VarId)) :
    ∀ (s : State) (row : Row), (createRowTerms s row terms).1.cnMap = s.cnMap := by
  induction terms with
  | nil => intro s row; rfl
  | cons t ts ih =>
    intro s row
    rw [createRowTerms_cons]
    by_cases hz : nearZero t.1
    · rw [if_pos hz]; exact ih s row
    · rw [if_neg hz]
      split
      · exact (ih _ _).trans (getVarSymbol_cnMap s t.2)
      · exact (ih _ _).trans (getVarSymbol_cnMap s t.2)

theorem createRowAux_cnMap (s : State) (cn : Constraint) (row : Row) :
    (createRowAux s cn row).1.cnMap = s.cnMap := by
  unfold createRowAux
  cases hop : cn.op <;> dsimp only <;> split <;> rfl

theorem createRow_cnMap (s : State) (cn : Constraint) :
    (createRow s cn).1.cnMap = s.cnMap := by
  show (createRowAux (createRowTerms s ⟨cn.expression.constant, []⟩ cn.expression.terms).1
      cn (createRowTerms s ⟨cn.expression.constant, []⟩ cn.expression.terms).2).1.cnMap
    = s.cnMap
  rw [createRowAux_cnMap]
  exact createRowTerms_cnMap _ _ _

theorem addConstraint_cnMap (fuel : Nat) (s : State) (cn : Constraint)
    (hnone : alGet s.cnMap cn = none)
    (hok : (addConstraint fuel s cn).1 = none) :
    (addConstraint fuel s cn).2.cnMap = alSet s.cnMap cn ((createRow s cn).2.2) := by
  revert hok
  unfold addConstraint
  rw [if_neg (by rw [hnone]; exact Bool.false_ne_true)]
  dsimp only
  split
  · intro h; exact absurd h (by simp)
  · split
    · split
      ·
          split
          · intro h; exact absurd h (by simp)
          next s2 success heq =>
            split
            · intro h; exact absurd h (by simp)
            · intro _
              rw [(optimizeLoop_frame ObjTarget.main fuel _).1]
              show alSet s2.cnMap cn (createRow s cn).2.2 = alSet s.cnMap cn (createRow s cn).2.2
              have hfr := (addWithArtificialVariable_frame fuel (createRow s cn).1
                (createRow s cn).2.1).1
              rw [heq] at hfr
              rw [show s2.cnMap = s.cnMap from hfr.trans (createRow_cnMap s cn)]
      ·
          intro _
          rw [(optimizeLoop_frame ObjTarget.main fuel _).1]
          show alSet (substituteTableau (createRow s cn).1 _ _).cnMap cn (createRow s cn).2.2
            = alSet s.cnMap cn (createRow s cn).2.2
          rw [(substituteTableau_frame _ _ _).1, createRow_cnMap]
    · split
      ·
          split
          · intro h; exact absurd h (by simp)
          next s2 success heq =>
            split
            · intro h; exact absurd h (by simp)
            · intro _
              rw [(optimizeLoop_frame ObjTarget.main fuel _).1]
              show alSet s2.cnMap cn (createRow s cn).2.2 = alSet s.cnMap cn (createRow s cn).2.2
              have hfr := (addWithArtificialVariable_frame fuel (createRow s cn).1
                (createRow s cn).2.1).1
              rw [heq] at hfr
              rw [show s2.cnMap = s.cnMap from hfr.trans (createRow_cnMap s cn)]
      ·
          intro _
          rw [(optimizeLoop_frame ObjTarget.main fuel _).1]
          show alSet (substituteTableau (createRow s cn).1 _ _).cnMap cn (createRow s cn).2.2
            = alSet s.cnMap cn (createRow s cn).2.2
          rw [(substituteTableau_frame _ _ _).1, createRow_cnMap]

theorem removeMarkerEffects_cnMap (s : State) (marker : Symbol) (strength : ℚ) :
    (removeMarkerEffects s marker strength).cnMap = s.cnMap := by
  unfold removeMarkerEffects
  split <;> rfl

theorem removeConstraintEffects_cnMap (s : State) (cn : Constraint) (tag : Tag) :
    (removeConstraintEffects s cn tag).cnMap = s.cnMap := by
  unfold removeConstraintEffects
  dsimp only
  split
  · rw [removeMarkerEffects_cnMap]
    split
    · rw [removeMarkerEffects_cnMap]
    · rfl
  · split
    · rw [removeMarkerEffects_cnMap]
    · rfl

theorem removeConstraint_cnMap (fuel : Nat) (s : State) (cn : Constraint)
    (hok : (removeConstraint fuel s cn).1 = none) :
    (removeConstraint fuel s cn).2.cnMap = alDel s.cnMap cn := by
  revert hok
  unfold removeConstraint
  split
  · intro h; exact absurd h (by simp)
  next tag heq =>
    dsimp only
    split
    · intro _
      rw [(optimizeLoop_frame ObjTarget.main fuel _).1]
      show (removeConstraintEffects { s with cnMap := alDel s.cnMap cn } cn tag).cnMap
        = alDel s.cnMap cn
      rw [removeConstraintEffects_cnMap]
    · split
      · intro h; exact absurd h (by simp)
      · split
        · intro h; exact absurd h (by simp)
        · intro _
          rw [(optimizeLoop_frame ObjTarget.main fuel _).1,
            (substituteTableau_frame _ _ _).1]
          show (removeConstraintEffects { s with cnMap := alDel s.cnMap cn } cn tag).cnMap
            = alDel s.cnMap cn
          rw [removeConstraintEffects_cnMap]

/-- Claim C3 counterexample: from a fresh solver, add weak `x == 0`, then
weak `x == 10` (a degenerate optimum: any `x ∈ [0, 10]` has the same
objective value, and the solver settles at `x = 0`). The required
constraint `x == 10` is not present; adding it succeeds, and removing it
again succeeds — but afterwards `update_variables` gives `x = 10`, while it
gave `x = 0` immediately before the add: the round trip moves a variable by
10, far beyond ε. -/
theorem claim_C3_counterexample :
    addConstraint 50 initState cnXeq0Weak = (none, stWeak1) ∧
    addConstraint 50 stWeak1 cnXeq10Weak = (none, stDegenerate) ∧
    alGet stDegenerate.cnMap cnXeq10Req = none ∧
    addConstraint 50 stDegenerate cnXeq10Req = (none, stDegenAdded) ∧
    removeConstraint 50 stDegenAdded cnXeq10Req = (none, stDegenRemoved) ∧
    alGet (updateVariables stDegenerate).varValues 0 = some 0 ∧
    alGet (updateVariables stDegenRemoved).varValues 0 = some 10 ∧
    ¬ ((10 : ℚ) - 0 ≤ eps) :=
  ⟨stWeak1_reached, stDegenerate_reached, rfl, stDegenAdded_reached, stDegenRemoved_reached,
    rfl, rfl, of_decide_eq_true (by with_unfolding_all rfl)⟩

/-- Claim C3 amended: for a constraint not already present, a successful
`add_constraint(c)` followed by a successful `remove_constraint(c)`
restores the constraint map exactly (the solver fully deregisters the
constraint); variable values, however, are not restored to within ε in
general — under a degenerate optimum the round trip can move a variable by
the full width of the optimal face. -/
theorem claim_C3_amended (fuel : Nat) (s : State) (cn : Constraint)
    (hnotin : alGet s.cnMap cn = none)
    (hadd : (addConstraint fuel s cn).1 = none)
    (hrem : (removeConstraint fuel (addConstraint fuel s cn).2 cn).1 = none) :
    (removeConstraint fuel (addConstraint fuel s cn).2 cn).2.cnMap = s.cnMap := by
  rw [removeConstraint_cnMap _ _ _ hrem, addConstraint_cnMap fuel s cn hnotin hadd,
    alDel_alSet_of_none _ hnotin]

/-- Witness for claim C3 amended: the degenerate trace itself — adding and
removing required `x == 10` on `stDegenerate` restores the constraint map
(even though, per the counterexample, it does not restore the values). -/
theorem claim_C3_witness :
    alGet stDegenerate.cnMap cnXeq10Req = none ∧
    (removeConstraint 50 (addConstraint 50 stDegenerate cnXeq10Req).2 cnXeq10Req).2.cnMap
      = stDegenerate.cnMap :=
  ⟨rfl,
    claim_C3_amended 50 stDegenerate cnXeq10Req rfl
      (congrArg Prod.fst stDegenAdded_reached)
      (by rw [stDegenAdded_reached]; exact congrArg Prod.fst stDegenRemoved_reached)⟩


/-! ### Claim C4: the infeasible worklist -/

theorem alGet_of_mem_nodup {α β : Type} [DecidableEq α] {m : List (α × β)}
    (hnd : (m.map Prod.fst).Nodup) {k : α} {v : β} (h : (k, v) ∈ m) :
    alGet m k = some v := by
  induction m with
  | nil => exact absurd h (List.not_mem_nil _)
  | cons q t ih =>
    rw [List.map_cons, List.nodup_cons] at hnd
    rcases List.mem_cons.mp h with h1 | h1
    · rw [← h1, alGet, if_pos rfl]
    · rw [alGet]
      by_cases hq : q.1 = k
      · refine absurd (List.mem_map_of_mem Prod.fst h1) ?_
        show ¬ (k, v).1 ∈ t.map Prod.fst
        rw [show (k, v).1 = q.1 from hq.symm]
        exact hnd.1
      · rw [if_neg hq]; exact ih hnd.2 h1

theorem keys_alSet_subset {α β : Type} [DecidableEq α] {m : List (α × β)} {k : α}
    {v : β} {a : α} (h : a ∈ (alSet m k v).map Prod.fst) :
    a ∈ m.map Prod.fst ∨ a = k := by
  obtain ⟨p, hp, hpa⟩ := List.mem_map.mp h
  rcases mem_alSet hp with h1 | h1
  · rw [h1] at hpa; exact Or.inr hpa.symm
  · exact Or.inl (hpa ▸ List.mem_map_of_mem Prod.fst h1)

theorem nodup_alSet {α β : Type} [DecidableEq α] {m : List (α × β)} (k : α) (v : β)
    (hnd : (m.map Prod.fst).Nodup) : ((alSet m k v).map Prod.fst).Nodup := by
  induction m with
  | nil => simp [alSet]
  | cons q t ih =>
    rw [List.map_cons, List.nodup_cons] at hnd
    rw [alSet]
    by_cases hq : q.1 = k
    · rw [if_pos hq, List.map_cons, List.nodup_cons]
      refine ⟨?_, hnd.2⟩
      show ¬ (k, v).1 ∈ t.map Prod.fst
      rw [show (k, v).1 = q.1 from hq.symm]
      exact hnd.1
    · rw [if_neg hq, List.map_cons, List.nodup_cons]
      refine ⟨?_, ih hnd.2⟩
      intro hc
      rcases keys_alSet_subset hc with h1 | h1
      · exact hnd.1 h1
      · exact hq h1

theorem keys_alDel_subset {α β : Type} [DecidableEq α] {m : List (α × β)} {k : α}
    {a : α} (h : a ∈ (alDel m k).map Prod.fst) : a ∈ m.map Prod.fst := by
  obtain ⟨p, hp, hpa⟩ := List.mem_map.mp h
  exact hpa ▸ List.mem_map_of_mem Prod.fst (mem_alDel hp).1

theorem nodup_alDel {α β : Type} [DecidableEq α] {m : List (α × β)} (k : α)
    (hnd : (m.map Prod.fst).Nodup) : ((alDel m k).map Prod.fst).Nodup := by
  induction m with
  | nil => simp [alDel]
  | cons q t ih =>
    rw [List.map_cons, List.nodup_cons] at hnd
    rw [alDel]
    by_cases hq : q.1 = k
    · rw [if_pos hq]; exact ih hnd.2
    · rw [if_neg hq, List.map_cons, List.nodup_cons]
      exact ⟨fun hc => hnd.1 (keys_alDel_subset hc), ih hnd.2⟩

theorem mem_dropLast_of_ne {α : Type} {l : List α} {a x : α}
    (hl : l.getLast? = some a) (hx : x ∈ l) (hne : x ≠ a) : x ∈ l.dropLast := by
  induction l with
  | nil => exact absurd hx (List.not_mem_nil _)
  | cons b t ih =>
    cases t with
    | nil =>
      rcases List.mem_cons.mp hx with h1 | h1
      · exact absurd (h1.trans (Option.some.inj hl)) hne
      · exact absurd h1 (List.not_mem_nil _)
    | cons c t2 =>
      rw [List.dropLast_cons₂, List.mem_cons]
      rcases List.mem_cons.mp hx with h1 | h1
      · exact Or.inl h1
      · exact Or.inr (ih (by rw [← hl]; rfl) h1)

theorem dualOptimizeLoop_empty_of_success :
    ∀ (fuel : Nat) (s : State), (dualOptimizeLoop fuel s).1 = none →
      (dualOptimizeLoop fuel s).2.infeasibleRows = [] := by
  intro fuel
  induction fuel with
  | zero => intro s h; exact absurd h (by simp [dualOptimizeLoop])
  | succ fuel ih =>
    intro s
    rw [dualOptimizeLoop]
    split
    next hlast =>
      intro _
      cases hl : s.infeasibleRows with
      | nil => rfl
      | cons a t => rw [hl] at hlast; simp at hlast
    next leaving hlast =>
      dsimp only
      split
      · exact fun h => ih _ h
      · split
        · split
          · intro h; exact absurd h (by simp)
          · exact fun h => ih _ h
        · exact fun h => ih _ h

/-- Claim C4 counterexample: a failed artificial-phase add leaves a
corrupted tableau (`stCorrupt`); a later `add_constraint` of `z == 0`
returns successfully, yet the infeasible worklist afterwards is non-empty
(it holds the stale slack symbol of the corrupted row). -/
theorem claim_C4_counterexample :
    addConstraint 50 initState cnXeq0Req = (none, stXeq0) ∧
    addConstraint 50 stXeq0 cnXge5Req =
      (some SolverError.unsatisfiableConstraint, stCorrupt) ∧
    addConstraint 50 stCorrupt cnZeq0Req = (none, stAfterZ) ∧
    ¬ stAfterZ.infeasibleRows = [] :=
  ⟨stXeq0_reached, stCorrupt_reached, stAfterZ_reached, by decide⟩

theorem eps_lt_one : eps < 1 := of_decide_eq_true (by with_unfolding_all rfl)

theorem eps_pos : 0 < eps := of_decide_eq_true (by with_unfolding_all rfl)

theorem nearZero_false_of_le_neg_one {c : ℚ} (h : c ≤ -1) : nearZero c = false := by
  unfold nearZero
  rw [if_pos (lt_of_le_of_lt h (by norm_num)), decide_eq_false_iff_not]
  intro hlt
  have h1 : (1 : ℚ) ≤ -c := by linarith
  exact absurd (lt_of_le_of_lt h1 hlt) (not_lt.mpr (le_of_lt eps_lt_one))

theorem solve_ratio_bound {const c c' : ℚ} (hconst : 0 ≤ const) (hc : c < 0)
    (hc' : c' ≤ c) :
    0 ≤ const * (-1 / c') ∧ const * (-1 / c') ≤ -const / c := by
  have hc'0 : c' < 0 := lt_of_le_of_lt hc' hc
  have h1 : (0 : ℚ) < -1 / c' := div_pos_of_neg_of_neg (by norm_num) hc'0
  refine ⟨mul_nonneg hconst (le_of_lt h1), ?_⟩
  have h2 : -1 / c' ≤ -1 / c := by
    rw [show (-1 : ℚ) / c' = (-c')⁻¹ by rw [inv_neg, neg_div, one_div],
      show (-1 : ℚ) / c = (-c)⁻¹ by rw [inv_neg, neg_div, one_div]]
    exact inv_le_inv_of_le (by linarith) (by linarith)
  calc const * (-1 / c') ≤ const * (-1 / c) := mul_le_mul_of_nonneg_left h2 hconst
    _ = -const / c := by ring

theorem pivot_protect {ci consti r1c : ℚ} (hci : ci < 0) (hr : r1c ≤ -consti / ci) :
    0 ≤ consti + ci * r1c := by
  have h1 : ci * (-consti / ci) ≤ ci * r1c := mul_le_mul_of_nonpos_left hr (le_of_lt hci)
  have h2 : ci * (-consti / ci) = -consti := by
    rw [mul_comm, div_mul_cancel₀ _ (ne_of_lt hci)]
  rw [h2] at h1
  linarith

/-- The constant of the pivoted row `solveForEx leaving entering` is
non-negative and bounded by the leaving row's ratio, for a negative
coefficient on the entering symbol — also when `leaving = entering`
(in that degenerate case the inserted −1 makes the divisor smaller). -/
theorem Row.solveForEx_const_bound {row : Row} {leaving entering : Symbol}
    (hc : row.coefficientFor entering < 0) (hconst : 0 ≤ row.constant) :
    0 ≤ (row.solveForEx leaving entering).constant ∧
    (row.solveForEx leaving entering).constant ≤
      -row.constant / row.coefficientFor entering := by
  by_cases he : entering = leaving
  · have hz : nearZero (-1 + row.coefficientFor leaving) = false :=
      nearZero_false_of_le_neg_one (by rw [← he]; linarith)
    have hc' : (row.insertSymbol leaving (-1)).coefficientFor entering
        = -1 + row.coefficientFor leaving := by
      rw [he, Row.insertSymbol_eq_set hz]
      show (alGet (alSet row.cells leaving (-1 + row.coefficientFor leaving))
        leaving).getD 0 = _
      rw [alGet_alSet_self]
      rfl
    unfold Row.solveForEx
    rw [Row.solveFor_constant, hc', Row.insertSymbol_constant]
    exact solve_ratio_bound hconst hc (by rw [← he]; linarith)
  · have hc' : (row.insertSymbol leaving (-1)).coefficientFor entering
        = row.coefficientFor entering :=
      Row.coefficientFor_insertSymbol_ne _ _ he
    unfold Row.solveForEx
    rw [Row.solveFor_constant, hc', Row.insertSymbol_constant]
    exact solve_ratio_bound hconst hc (le_refl _)

theorem getLeavingSymbol_eq (s : State) (entering : Symbol) :
    getLeavingSymbol s entering =
      match firstStrictMin (leavingCandidates s.rowMap entering) with
      | some best => best.2
      | none => INVALID_SYMBOL := by
  unfold getLeavingSymbol firstStrictMin leavingCandidates
  rw [foldl_eq_firstStrictMinFrom _
    (fun kr : Symbol × Row =>
      if kr.1.type ≠ SymbolType.External ∧ kr.2.coefficientFor entering < 0 then
        some (-kr.2.constant / kr.2.coefficientFor entering, kr.1)
      else none) ?_]
  intro acc kr
  dsimp only
  by_cases h1 : kr.1.type ≠ SymbolType.External
  · rw [if_pos h1]
    by_cases h2 : kr.2.coefficientFor entering < 0
    · rw [if_pos h2, if_pos ⟨h1, h2⟩]
      cases acc <;> rfl
    · rw [if_neg h2, if_neg (fun hand => h2 hand.2)]
  · rw [if_neg h1, if_neg (fun hand => h1 hand.1)]

/-- What a non-Invalid result of `getLeavingSymbol` guarantees: the symbol
keys a restricted basic row with a negative coefficient on the entering
symbol, whose ratio is minimal among all such rows. -/
theorem getLeavingSymbol_props {s : State} {entering : Symbol}
    (hnd : (s.rowMap.map Prod.fst).Nodup)
    (h : ¬ (getLeavingSymbol s entering).type = SymbolType.Invalid) :
    ∃ row, alGet s.rowMap (getLeavingSymbol s entering) = some row ∧
      ¬ (getLeavingSymbol s entering).type = SymbolType.External ∧
      row.coefficientFor entering < 0 ∧
      ∀ kr ∈ s.rowMap, kr.1.type ≠ SymbolType.External →
        kr.2.coefficientFor entering < 0 →
        -row.constant / row.coefficientFor entering ≤
          -kr.2.constant / kr.2.coefficientFor entering := by
  rw [getLeavingSymbol_eq] at h ⊢
  cases hmin : firstStrictMin (leavingCandidates s.rowMap entering) with
  | none => rw [hmin] at h; exact absurd rfl h
  | some best =>
    dsimp only
    have hmem := firstStrictMin_mem hmin
    obtain ⟨kr, hkr, hf⟩ := List.mem_filterMap.mp hmem
    by_cases hcond : kr.1.type ≠ SymbolType.External ∧ kr.2.coefficientFor entering < 0
    · rw [if_pos hcond] at hf
      have hb1 : best.1 = -kr.2.constant / kr.2.coefficientFor entering :=
        (congrArg Prod.fst (Option.some.inj hf)).symm
      have hb2 : best.2 = kr.1 :=
        (congrArg Prod.snd (Option.some.inj hf)).symm
      refine ⟨kr.2, ?_, ?_, hcond.2, ?_⟩
      · rw [hb2]
        exact alGet_of_mem_nodup hnd (by rw [show (kr.1, kr.2) = kr from rfl]; exact hkr)
      · rw [hb2]; exact hcond.1
      · intro kr2 hkr2 hext2 hc2
        have hcand : (-kr2.2.constant / kr2.2.coefficientFor entering, kr2.1) ∈
            leavingCandidates s.rowMap entering :=
          List.mem_filterMap.mpr ⟨kr2, hkr2, by rw [if_pos ⟨hext2, hc2⟩]⟩
        have hle := firstStrictMin_le hmin _ hcand
        rw [hb1] at hle
        exact hle
    · rw [if_neg hcond] at hf
      exact absurd hf (by simp)

/-- A substitution step with a protected replacement row: every restricted
row's new constant stays non-negative, so nothing is pushed onto the
worklist, and the basis keys are unchanged. -/
theorem substituteTableau_props (s : State) (symbol : Symbol) (row1 : Row)
    (hfeas : ∀ kr ∈ s.rowMap, kr.1.type ≠ SymbolType.External →
      0 ≤ kr.2.constant + kr.2.coefficientFor symbol * row1.constant) :
    rowsFeasible (substituteTableau s symbol row1) ∧
    (substituteTableau s symbol row1).infeasibleRows = s.infeasibleRows ∧
    (substituteTableau s symbol row1).rowMap.map Prod.fst = s.rowMap.map Prod.fst := by
  unfold substituteTableau
  dsimp only
  have hconst : ∀ kr ∈ s.rowMap, kr.1.type ≠ SymbolType.External →
      0 ≤ (kr.2.substitute symbol row1).constant := by
    intro kr hkr hext
    rw [Row.substitute_constant]
    exact hfeas kr hkr hext
  refine ⟨?_, ?_, ?_⟩
  · intro kr hkr hext
    obtain ⟨q, hq, hqe⟩ := List.mem_map.mp hkr
    rw [← hqe] at hext ⊢
    exact hconst q hq hext
  · show s.infeasibleRows ++ _ = s.infeasibleRows
    rw [show (s.rowMap.map (fun kr => (kr.1, kr.2.substitute symbol row1))).filter
        (fun kr => decide (kr.2.constant < 0 ∧ kr.1.type ≠ SymbolType.External)) = []
      from ?_]
    · rw [List.map_nil, List.append_nil]
    · rw [List.filter_eq_nil_iff]
      intro kr hkr
      obtain ⟨q, hq, hqe⟩ := List.mem_map.mp hkr
      rw [decide_eq_true_eq]
      intro hand
      rw [← hqe] at hand
      have hge := hconst q hq hand.2
      exact absurd hand.1 (not_lt.mpr hge)
  · rw [List.map_map]
    rfl

/-- One primal pivot (detach the leaving row, solve it for the entering
symbol, substitute through the tableau, reinstall the row keyed by the
entering symbol) preserves exact feasibility of the restricted rows, the
worklist, and key uniqueness. -/
theorem pivot_step_props (s : State) (entering : Symbol) (row : Row)
    (hf : rowsFeasible s) (hnd : (s.rowMap.map Prod.fst).Nodup)
    (hleav : ¬ (getLeavingSymbol s entering).type = SymbolType.Invalid)
    (heq : alGet s.rowMap (getLeavingSymbol s entering) = some row) :
    rowsFeasible
      { substituteTableau
          { s with rowMap := alDel s.rowMap (getLeavingSymbol s entering) } entering
          (row.solveForEx (getLeavingSymbol s entering) entering) with
        rowMap := alSet
          (substituteTableau
            { s with rowMap := alDel s.rowMap (getLeavingSymbol s entering) } entering
            (row.solveForEx (getLeavingSymbol s entering) entering)).rowMap entering
          (row.solveForEx (getLeavingSymbol s entering) entering) } ∧
    (substituteTableau
        { s with rowMap := alDel s.rowMap (getLeavingSymbol s entering) } entering
        (row.solveForEx (getLeavingSymbol s entering) entering)).infeasibleRows
      = s.infeasibleRows ∧
    ((alSet
        (substituteTableau
          { s with rowMap := alDel s.rowMap (getLeavingSymbol s entering) } entering
          (row.solveForEx (getLeavingSymbol s entering) entering)).rowMap entering
        (row.solveForEx (getLeavingSymbol s entering) entering)).map Prod.fst).Nodup := by
  obtain ⟨rowc, hget, hextl, hcl, hmin⟩ := getLeavingSymbol_props hnd hleav
  have hcc : rowc = row := by
    rw [heq] at hget
    exact (Option.some.inj hget).symm
  rw [hcc] at hcl hmin
  have hin : (getLeavingSymbol s entering, row) ∈ s.rowMap := alGet_mem heq
  have hrowc : 0 ≤ row.constant := hf _ hin hextl
  obtain ⟨hb0, hble⟩ := Row.solveForEx_const_bound hcl hrowc
  have hprot : ∀ kr ∈ alDel s.rowMap (getLeavingSymbol s entering),
      kr.1.type ≠ SymbolType.External →
      0 ≤ kr.2.constant + kr.2.coefficientFor entering *
        (row.solveForEx (getLeavingSymbol s entering) entering).constant := by
    intro kr hkr hext
    have hkr2 := (mem_alDel hkr).1
    by_cases hc : kr.2.coefficientFor entering < 0
    · exact pivot_protect hc (hble.trans (hmin kr hkr2 hext hc))
    · have h1 : 0 ≤ kr.2.coefficientFor entering := not_lt.mp hc
      have h2 := hf kr hkr2 hext
      nlinarith
  obtain ⟨g1, g2, g3⟩ := substituteTableau_props
    { s with rowMap := alDel s.rowMap (getLeavingSymbol s entering) } entering
    (row.solveForEx (getLeavingSymbol s entering) entering) hprot
  refine ⟨?_, g2, ?_⟩
  · intro kr hkr hext
    rcases mem_alSet hkr with h1 | h1
    · rw [h1]
      exact hb0
    · exact g1 kr h1 hext
  · exact nodup_alSet _ _ (by rw [g3]; exact nodup_alDel _ hnd)

/-- The optimize loop preserves exact feasibility of the restricted rows,
the infeasible worklist, and key uniqueness of the basis, whatever its
outcome: the min-ratio choice of the leaving row protects every restricted
row from going negative, so no pivot ever pushes onto the worklist. -/
theorem optimizeLoop_feasible (t : ObjTarget) :
    ∀ (fuel : Nat) (s : State),
      rowsFeasible s → (s.rowMap.map Prod.fst).Nodup →
      rowsFeasible (optimizeLoop t fuel s).2 ∧
      (optimizeLoop t fuel s).2.infeasibleRows = s.infeasibleRows ∧
      ((optimizeLoop t fuel s).2.rowMap.map Prod.fst).Nodup := by
  intro fuel
  induction fuel with
  | zero => intro s hf hnd; exact ⟨hf, rfl, hnd⟩
  | succ fuel ih =>
    intro s hf hnd
    rw [optimizeLoop]
    dsimp only
    split
    · exact ⟨hf, rfl, hnd⟩
    · split
      · exact ⟨hf, rfl, hnd⟩
      next hleav =>
        split
        · exact ⟨hf, rfl, hnd⟩
        next row heq =>
          obtain ⟨p1, p2, p3⟩ := pivot_step_props s (getEnteringSymbol (getObj s t))
            row hf hnd hleav heq
          obtain ⟨f1, f2, f3⟩ := ih _ p1 p3
          exact ⟨f1, f2.trans p2, f3⟩


theorem markerLeaving_eq_spec (s : State) (marker : Symbol) :
    getMarkerLeavingSymbol s marker = markerLeavingSpec s marker := by
  rw [getMarkerLeavingSymbol, markerLeavingSpec, markerLeaving_fold]
  rfl

theorem removeMarkerEffects_frame (s : State) (marker : Symbol) (strength : ℚ) :
    (removeMarkerEffects s marker strength).rowMap = s.rowMap ∧
    (removeMarkerEffects s marker strength).infeasibleRows = s.infeasibleRows := by
  unfold removeMarkerEffects
  split <;> exact ⟨rfl, rfl⟩

theorem removeConstraintEffects_frame (s : State) (cn : Constraint) (tag : Tag) :
    (removeConstraintEffects s cn tag).rowMap = s.rowMap ∧
    (removeConstraintEffects s cn tag).infeasibleRows = s.infeasibleRows := by
  have hs1 : ∀ (s' : State) (m : Symbol),
      (if m.type = SymbolType.Error then removeMarkerEffects s' m cn.strength
        else s').rowMap = s'.rowMap ∧
      (if m.type = SymbolType.Error then removeMarkerEffects s' m cn.strength
        else s').infeasibleRows = s'.infeasibleRows := by
    intro s' m
    split
    · exact removeMarkerEffects_frame s' m cn.strength
    · exact ⟨rfl, rfl⟩
  unfold removeConstraintEffects
  dsimp only
  obtain ⟨a1, a2⟩ := hs1 (if tag.marker.type = SymbolType.Error then
    removeMarkerEffects s tag.marker cn.strength else s) tag.other
  obtain ⟨b1, b2⟩ := hs1 s tag.marker
  exact ⟨a1.trans b1, a2.trans b2⟩

theorem pivot_protect_pos {ci consti rlv : ℚ} (hci : 0 < ci)
    (hr : rlv ≤ consti / ci) : 0 ≤ consti + ci * (-rlv) := by
  have h1 : ci * rlv ≤ ci * (consti / ci) := mul_le_mul_of_nonneg_left hr (le_of_lt hci)
  have h2 : ci * (consti / ci) = consti := by
    rw [mul_comm, div_mul_cancel₀ _ (ne_of_gt hci)]
  rw [h2] at h1
  linarith

/-- Protection of every restricted row by the marker leaving choice of
`removeConstraint`: whichever of the three candidate classes provided the
leaving row, substituting the solved row for the marker keeps every
restricted row's constant non-negative. -/
theorem getMarkerLeavingSymbol_protect {s2 : State} {marker : Symbol}
    (hf : rowsFeasible s2) (hnd : (s2.rowMap.map Prod.fst).Nodup)
    (hnb : alGet s2.rowMap marker = none)
    (hleav : ¬ (getMarkerLeavingSymbol s2 marker).type = SymbolType.Invalid)
    {row : Row}
    (heq : alGet s2.rowMap (getMarkerLeavingSymbol s2 marker) = some row) :
    ∀ kr ∈ s2.rowMap, kr.1.type ≠ SymbolType.External →
      0 ≤ kr.2.constant + kr.2.coefficientFor marker *
        (row.solveForEx (getMarkerLeavingSymbol s2 marker) marker).constant := by
  rw [markerLeaving_eq_spec] at hleav heq ⊢
  unfold markerLeavingSpec at hleav heq ⊢
  cases hneg : firstStrictMin (markerNegCandidates s2.rowMap marker) with
  | some best =>
    rw [hneg] at hleav heq
    dsimp only at hleav heq ⊢
    obtain ⟨kr0, hkr0, hf0⟩ := List.mem_filterMap.mp (firstStrictMin_mem hneg)
    dsimp only at hf0
    by_cases hcond : kr0.1.type ≠ SymbolType.External ∧ kr0.2.coefficientFor marker < 0
    · rw [if_pos hcond] at hf0
      have hb1 : best.1 = -kr0.2.constant / kr0.2.coefficientFor marker :=
        (congrArg Prod.fst (Option.some.inj hf0)).symm
      have hb2 : best.2 = kr0.1 :=
        (congrArg Prod.snd (Option.some.inj hf0)).symm
      have hget0 : alGet s2.rowMap best.2 = some kr0.2 := by
        rw [hb2]
        exact alGet_of_mem_nodup hnd (by exact hkr0)
      have hrow : row = kr0.2 := by
        rw [heq] at hget0
        exact Option.some.inj hget0
      have hclv : row.coefficientFor marker < 0 := by rw [hrow]; exact hcond.2
      have hconst0 : 0 ≤ row.constant := by
        rw [hrow]
        exact hf kr0 hkr0 hcond.1
      have hmlb : marker ≠ best.2 := by
        intro hcon
        rw [← hcon, hnb] at heq
        exact absurd heq (by simp)
      have hr1 : (row.solveForEx best.2 marker).constant = best.1 := by
        rw [Row.solveForEx_constant row hmlb, hb1, hrow]
        ring
      have hr1nn : 0 ≤ (row.solveForEx best.2 marker).constant := by
        rw [hr1, hb1]
        exact div_nonneg_iff.mpr (Or.inr ⟨by linarith [hf kr0 hkr0 hcond.1],
          le_of_lt hcond.2⟩)
      intro kr hkr hext
      by_cases hci : kr.2.coefficientFor marker < 0
      · have hcand : (-kr.2.constant / kr.2.coefficientFor marker, kr.1) ∈
            markerNegCandidates s2.rowMap marker :=
          List.mem_filterMap.mpr ⟨kr, hkr, by dsimp only; rw [if_pos ⟨hext, hci⟩]⟩
        have hle := firstStrictMin_le hneg _ hcand
        refine pivot_protect hci ?_
        rw [hr1]
        exact hle
      · have h0 : 0 ≤ kr.2.coefficientFor marker := not_lt.mp hci
        have h1 := hf kr hkr hext
        nlinarith [mul_nonneg h0 hr1nn]
    · rw [if_neg hcond] at hf0
      exact absurd hf0 (by simp)
  | none =>
    rw [hneg] at hleav heq
    dsimp only at hleav heq ⊢
    have hnegnil : markerNegCandidates s2.rowMap marker = [] := firstStrictMin_none hneg
    have hnonegs : ∀ kr ∈ s2.rowMap, kr.1.type ≠ SymbolType.External →
        ¬ kr.2.coefficientFor marker < 0 := by
      intro kr hkr hext hci
      have hcand : (-kr.2.constant / kr.2.coefficientFor marker, kr.1) ∈
          markerNegCandidates s2.rowMap marker :=
        List.mem_filterMap.mpr ⟨kr, hkr, by dsimp only; rw [if_pos ⟨hext, hci⟩]⟩
      rw [hnegnil] at hcand
      exact absurd hcand (List.not_mem_nil _)
    cases hpos : firstStrictMin (markerPosCandidates s2.rowMap marker) with
    | some best =>
      rw [hpos] at hleav heq
      dsimp only at hleav heq ⊢
      obtain ⟨kr0, hkr0, hf0⟩ := List.mem_filterMap.mp (firstStrictMin_mem hpos)
      dsimp only at hf0
      by_cases hcond : kr0.1.type ≠ SymbolType.External ∧ 0 < kr0.2.coefficientFor marker
      · rw [if_pos hcond] at hf0
        have hb1 : best.1 = kr0.2.constant / kr0.2.coefficientFor marker :=
          (congrArg Prod.fst (Option.some.inj hf0)).symm
        have hb2 : best.2 = kr0.1 :=
          (congrArg Prod.snd (Option.some.inj hf0)).symm
        have hget0 : alGet s2.rowMap best.2 = some kr0.2 := by
          rw [hb2]
          exact alGet_of_mem_nodup hnd (by exact hkr0)
        have hrow : row = kr0.2 := by
          rw [heq] at hget0
          exact Option.some.inj hget0
        have hmlb : marker ≠ best.2 := by
          intro hcon
          rw [← hcon, hnb] at heq
          exact absurd heq (by simp)
        have hr1 : (row.solveForEx best.2 marker).constant = -best.1 := by
          rw [Row.solveForEx_constant row hmlb, hb1, hrow]
          ring
        intro kr hkr hext
        by_cases hci : 0 < kr.2.coefficientFor marker
        · have hcand : (kr.2.constant / kr.2.coefficientFor marker, kr.1) ∈
              markerPosCandidates s2.rowMap marker :=
            List.mem_filterMap.mpr ⟨kr, hkr, by dsimp only; rw [if_pos ⟨hext, hci⟩]⟩
          have hle := firstStrictMin_le hpos _ hcand
          rw [hr1]
          exact pivot_protect_pos hci hle
        · have hci2 : ¬ kr.2.coefficientFor marker < 0 := hnonegs kr hkr hext
          have hzero : kr.2.coefficientFor marker = 0 :=
            le_antisymm (not_lt.mp hci) (not_lt.mp hci2)
          rw [hzero]
          have h1 := hf kr hkr hext
          linarith
      · rw [if_neg hcond] at hf0
        exact absurd hf0 (by simp)
    | none =>
      rw [hpos] at hleav heq
      dsimp only at hleav heq ⊢
      have hposnil : markerPosCandidates s2.rowMap marker = [] := firstStrictMin_none hpos
      intro kr hkr hext
      have hci2 : ¬ kr.2.coefficientFor marker < 0 := hnonegs kr hkr hext
      have hci3 : ¬ 0 < kr.2.coefficientFor marker := by
        intro hci
        have hcand : (kr.2.constant / kr.2.coefficientFor marker, kr.1) ∈
            markerPosCandidates s2.rowMap marker :=
          List.mem_filterMap.mpr ⟨kr, hkr, by dsimp only; rw [if_pos ⟨hext, hci⟩]⟩
        rw [hposnil] at hcand
        exact absurd hcand (List.not_mem_nil _)
      have hzero : kr.2.coefficientFor marker = 0 :=
        le_antisymm (not_lt.mp hci3) (not_lt.mp hci2)
      rw [hzero]
      have h1 := hf kr hkr hext
      linarith

/-- A successful `removeConstraint` from a feasible, duplicate-free state
with an empty worklist leaves the restricted rows exactly feasible and the
worklist empty: both the marker pivot and the subsequent optimize run are
protected by their ratio tests. -/
theorem removeConstraint_post (fuel : Nat) (s : State) (cn : Constraint)
    (hf : rowsFeasible s) (hnd : (s.rowMap.map Prod.fst).Nodup)
    (hwl : s.infeasibleRows = [])
    (hok : (removeConstraint fuel s cn).1 = none) :
    rowsFeasible (removeConstraint fuel s cn).2 ∧
    (removeConstraint fuel s cn).2.infeasibleRows = [] := by
  revert hok
  unfold removeConstraint
  split
  · intro h; exact absurd h (by simp)
  next tag heq =>
    dsimp only
    obtain ⟨e1, e2⟩ := removeConstraintEffects_frame
      { s with cnMap := alDel s.cnMap cn } cn tag
    split
    · intro _
      have hf2 : rowsFeasible
          { (removeConstraintEffects { s with cnMap := alDel s.cnMap cn } cn tag) with
            rowMap := alDel (removeConstraintEffects
              { s with cnMap := alDel s.cnMap cn } cn tag).rowMap tag.marker } := by
        intro kr hkr hext
        have := (mem_alDel hkr).1
        rw [e1] at this
        exact hf kr this hext
      have hnd2 : (({ (removeConstraintEffects { s with cnMap := alDel s.cnMap cn } cn tag) with
          rowMap := alDel (removeConstraintEffects
            { s with cnMap := alDel s.cnMap cn } cn tag).rowMap
            tag.marker }).rowMap.map Prod.fst).Nodup := by
        show ((alDel _ _).map Prod.fst).Nodup
        refine nodup_alDel _ ?_
        rw [e1]
        exact hnd
      obtain ⟨f1, f2, _⟩ := optimizeLoop_feasible ObjTarget.main fuel _ hf2 hnd2
      refine ⟨f1, f2.trans ?_⟩
      show (removeConstraintEffects { s with cnMap := alDel s.cnMap cn }
        cn tag).infeasibleRows = []
      rw [e2]
      exact hwl
    next hnb =>
      split
      · intro h; exact absurd h (by simp)
      next hleav =>
        split
        · intro h; exact absurd h (by simp)
        next row heq2 =>
          intro _
          have hnb2 : alGet (removeConstraintEffects
              { s with cnMap := alDel s.cnMap cn } cn tag).rowMap tag.marker = none := by
            cases hx : alGet (removeConstraintEffects
                { s with cnMap := alDel s.cnMap cn } cn tag).rowMap tag.marker with
            | none => rfl
            | some r =>
              rw [hx] at hnb
              exact absurd rfl hnb
          have hfs2 : rowsFeasible (removeConstraintEffects
              { s with cnMap := alDel s.cnMap cn } cn tag) := by
            intro kr hkr hext
            rw [e1] at hkr
            exact hf kr hkr hext
          have hnds2 : ((removeConstraintEffects
              { s with cnMap := alDel s.cnMap cn } cn tag).rowMap.map Prod.fst).Nodup := by
            rw [e1]; exact hnd
          have hprot := getMarkerLeavingSymbol_protect hfs2 hnds2 hnb2 hleav heq2
          obtain ⟨g1, g2, g3⟩ := substituteTableau_props
            { (removeConstraintEffects { s with cnMap := alDel s.cnMap cn } cn tag) with
              rowMap := alDel (removeConstraintEffects
                { s with cnMap := alDel s.cnMap cn } cn tag).rowMap
                (getMarkerLeavingSymbol (removeConstraintEffects
                  { s with cnMap := alDel s.cnMap cn } cn tag) tag.marker) }
            tag.marker
            (row.solveForEx (getMarkerLeavingSymbol (removeConstraintEffects
              { s with cnMap := alDel s.cnMap cn } cn tag) tag.marker) tag.marker)
            (by
              intro kr hkr hext
              exact hprot kr (mem_alDel hkr).1 hext)
          have hnd3 : (((substituteTableau
              { (removeConstraintEffects { s with cnMap := alDel s.cnMap cn } cn tag) with
                rowMap := alDel (removeConstraintEffects
                  { s with cnMap := alDel s.cnMap cn } cn tag).rowMap
                  (getMarkerLeavingSymbol (removeConstraintEffects
                    { s with cnMap := alDel s.cnMap cn } cn tag) tag.marker) }
              tag.marker
              (row.solveForEx (getMarkerLeavingSymbol (removeConstraintEffects
                { s with cnMap := alDel s.cnMap cn } cn tag) tag.marker)
                tag.marker)).rowMap).map Prod.fst).Nodup := by
            rw [g3]
            show ((alDel _ _).map Prod.fst).Nodup
            refine nodup_alDel _ ?_
            rw [e1]
            exact hnd
          obtain ⟨f1, f2, _⟩ := optimizeLoop_feasible ObjTarget.main fuel _ g1 hnd3
          refine ⟨f1, (f2.trans g2).trans ?_⟩
          show (removeConstraintEffects { s with cnMap := alDel s.cnMap cn }
            cn tag).infeasibleRows = []
          rw [e2]
          exact hwl


theorem alGet_map_snd {α β : Type} [DecidableEq α] (l : List (α × β)) (f : β → β)
    (k : α) :
    alGet (l.map (fun p => (p.1, f p.2))) k = (alGet l k).map f := by
  induction l with
  | nil => rfl
  | cons q t ih =>
    rw [List.map_cons, alGet, alGet]
    by_cases hq : q.1 = k
    · rw [if_pos hq, if_pos hq]
      rfl
    · rw [if_neg hq, if_neg hq, ih]

theorem Row.coefficientFor_reverseSign (r : Row) (sym : Symbol) :
    r.reverseSign.coefficientFor sym = -(r.coefficientFor sym) := by
  unfold Row.reverseSign Row.coefficientFor
  show (alGet (r.cells.map (fun p => (p.1, -p.2))) sym).getD 0 = _
  rw [alGet_map_snd r.cells (fun x => -x) sym]
  cases alGet r.cells sym with
  | none => show (0 : ℚ) = -0; rw [neg_zero]
  | some a => rfl

theorem nearZero_bounds {v : ℚ} (h : nearZero v = true) : -eps < v ∧ v < eps := by
  unfold nearZero at h
  by_cases hv : v < 0
  · rw [if_pos hv, decide_eq_true_eq] at h
    constructor
    · linarith
    · exact lt_trans hv eps_pos
  · rw [if_neg hv, decide_eq_true_eq] at h
    constructor
    · have := not_lt.mp hv
      have := eps_pos
      linarith
    · exact h

theorem coefficientFor_zero_of_fresh {r : Row} {sym : Symbol} {n : Int}
    (hcells : ∀ c ∈ r.cells, c.1.id < n) (hsym : n ≤ sym.id) :
    r.coefficientFor sym = 0 :=
  Row.coefficientFor_eq_zero_of_forall
    (fun q hq => symbol_ne_of_id_lt (lt_of_lt_of_le (hcells q hq) hsym))

theorem createRow_const_nonneg (s : State) (cn : Constraint) :
    0 ≤ (createRow s cn).2.1.constant := by
  unfold createRow
  dsimp only
  split
  next hneg =>
    show (0 : ℚ) ≤ -(createRowAux _ cn _).2.1.constant
    linarith
  next hpos =>
    exact not_lt.mp hpos

theorem getEnteringSymbol_invalid {obj : Row}
    (hopt : ∀ c ∈ obj.cells, c.1.type ≠ SymbolType.Dummy → 0 ≤ c.2) :
    getEnteringSymbol obj = INVALID_SYMBOL := by
  unfold getEnteringSymbol
  have hgen : ∀ (l : List (Symbol × ℚ)),
      (∀ c ∈ l, c.1.type ≠ SymbolType.Dummy → 0 ≤ c.2) →
      l.foldl
        (fun found c =>
          if found = INVALID_SYMBOL ∧ c.2 < 0 ∧ c.1.type ≠ SymbolType.Dummy then c.1
          else found)
        INVALID_SYMBOL = INVALID_SYMBOL := by
    intro l
    induction l with
    | nil => intro _; rfl
    | cons c t ih =>
      intro hl
      rw [List.foldl_cons]
      rw [show (if INVALID_SYMBOL = INVALID_SYMBOL ∧ c.2 < 0 ∧
          c.1.type ≠ SymbolType.Dummy then c.1 else INVALID_SYMBOL) = INVALID_SYMBOL
        from ?_]
      · exact ih (fun q hq => hl q (List.mem_cons_of_mem _ hq))
      · rw [if_neg]
        intro hand
        by_cases hd : c.1.type = SymbolType.Dummy
        · exact hand.2.2 hd
        · exact absurd hand.2.1
            (not_lt.mpr (hl c (List.mem_cons_self _ _) hd))
  exact hgen obj.cells hopt

theorem firstExternal_external {cells : List (Symbol × ℚ)}
    (h : firstExternal cells ≠ INVALID_SYMBOL) :
    (firstExternal cells).type = SymbolType.External := by
  rw [firstExternal_eq_find] at h ⊢
  cases hf : cells.find? (fun c => decide (c.1.type = SymbolType.External)) with
  | none => rw [hf] at h; exact absurd rfl h
  | some c =>
    show c.1.type = SymbolType.External
    have hp := List.find?_some hf
    exact of_decide_eq_true hp

/-- Subject selection returns Invalid, a first External cell, or the
marker/other with negative row coefficient and Slack/Error type. -/
theorem chooseSubject_cases (row : Row) (tag : Tag) :
    chooseSubject row tag = INVALID_SYMBOL ∨
    (chooseSubject row tag).type = SymbolType.External ∨
    ((chooseSubject row tag = tag.marker ∨ chooseSubject row tag = tag.other) ∧
      row.coefficientFor (chooseSubject row tag) < 0 ∧
      ¬ (chooseSubject row tag).type = SymbolType.Invalid) := by
  unfold chooseSubject
  by_cases h1 : firstExternal row.cells ≠ INVALID_SYMBOL
  · rw [if_pos h1]
    exact Or.inr (Or.inl (firstExternal_external h1))
  · rw [if_neg h1]
    by_cases h2 : (tag.marker.type = SymbolType.Slack ∨
        tag.marker.type = SymbolType.Error) ∧ row.coefficientFor tag.marker < 0
    · rw [if_pos h2]
      refine Or.inr (Or.inr ⟨Or.inl rfl, h2.2, ?_⟩)
      rcases h2.1 with ht | ht <;> rw [ht] <;> exact fun hc => nomatch hc
    · rw [if_neg h2]
      by_cases h3 : (tag.other.type = SymbolType.Slack ∨
          tag.other.type = SymbolType.Error) ∧ row.coefficientFor tag.other < 0
      · rw [if_pos h3]
        refine Or.inr (Or.inr ⟨Or.inr rfl, h3.2, ?_⟩)
        rcases h3.1 with ht | ht <;> rw [ht] <;> exact fun hc => nomatch hc
      · rw [if_neg h3]
        exact Or.inl rfl

theorem getVarSymbol_idTick (s : State) (v : VarId) :
    s.idTick ≤ (getVarSymbol s v).1.idTick := by
  unfold getVarSymbol
  split
  · exact le_refl _
  · exact le_of_lt (lt_add_one _)

theorem createRowTerms_idTick (terms : List (ℚ × VarId)) :
    ∀ (s : State) (row : Row), s.idTick ≤ (createRowTerms s row terms).1.idTick := by
  induction terms with
  | nil => intro s row; exact le_refl _
  | cons t ts ih =>
    intro s row
    rw [createRowTerms_cons]
    by_cases hz : nearZero t.1
    · rw [if_pos hz]; exact ih s row
    · rw [if_neg hz]
      split
      · exact le_trans (getVarSymbol_idTick s t.2) (ih _ _)
      · exact le_trans (getVarSymbol_idTick s t.2) (ih _ _)

/-- The tag built by `createRowAux`: the marker is a minted (non-Invalid)
symbol at or above the starting counter; the other, when not the Invalid
sentinel, likewise. -/
theorem createRowAux_tag (s : State) (cn : Constraint) (row : Row) :
    ¬ (createRowAux s cn row).2.2.marker.type = SymbolType.Invalid ∧
    s.idTick ≤ (createRowAux s cn row).2.2.marker.id ∧
    (¬ (createRowAux s cn row).2.2.other.type = SymbolType.Invalid →
      s.idTick ≤ (createRowAux s cn row).2.2.other.id) := by
  rw [createRowAux]
  cases hop : cn.op with
  | Le =>
    dsimp only
    by_cases hstr : cn.strength < Strength.required
    · rw [if_pos hstr]
      refine ⟨?_, ?_, ?_⟩
      · exact fun hc => nomatch hc
      · exact le_refl _
      · exact fun _ => le_of_lt (lt_add_one _)
    · rw [if_neg hstr]
      refine ⟨?_, ?_, ?_⟩
      · exact fun hc => nomatch hc
      · exact le_refl _
      · exact fun hinv => absurd rfl hinv
  | Ge =>
    dsimp only
    by_cases hstr : cn.strength < Strength.required
    · rw [if_pos hstr]
      refine ⟨?_, ?_, ?_⟩
      · exact fun hc => nomatch hc
      · exact le_refl _
      · exact fun _ => le_of_lt (lt_add_one _)
    · rw [if_neg hstr]
      refine ⟨?_, ?_, ?_⟩
      · exact fun hc => nomatch hc
      · exact le_refl _
      · exact fun hinv => absurd rfl hinv
  | Eq =>
    dsimp only
    by_cases hstr : cn.strength < Strength.required
    · rw [if_pos hstr]
      refine ⟨?_, ?_, ?_⟩
      · exact fun hc => nomatch hc
      · exact le_refl _
      · exact fun _ => le_of_lt (lt_add_one _)
    · rw [if_neg hstr]
      refine ⟨?_, ?_, ?_⟩
      · exact fun hc => nomatch hc
      · exact le_refl _
      · exact fun hinv => absurd rfl hinv

/-- The tag built by `createRow`: marker non-Invalid and fresh relative to
the pre-call id counter, and likewise for a non-Invalid other symbol. -/
theorem createRow_tag (s : State) (cn : Constraint) :
    ¬ (createRow s cn).2.2.marker.type = SymbolType.Invalid ∧
    s.idTick ≤ (createRow s cn).2.2.marker.id ∧
    (¬ (createRow s cn).2.2.other.type = SymbolType.Invalid →
      s.idTick ≤ (createRow s cn).2.2.other.id) := by
  have h1 := createRowAux_tag
    (createRowTerms s ⟨cn.expression.constant, []⟩ cn.expression.terms).1 cn
    (createRowTerms s ⟨cn.expression.constant, []⟩ cn.expression.terms).2
  have h2 := createRowTerms_idTick cn.expression.terms s ⟨cn.expression.constant, []⟩
  exact ⟨h1.1, le_trans h2 h1.2.1, fun hinv => le_trans h2 (h1.2.2 hinv)⟩


theorem nearZero_one : nearZero 1 = false := of_decide_eq_true (by with_unfolding_all rfl)

theorem nearZero_neg_one : nearZero (-1) = false :=
  of_decide_eq_true (by with_unfolding_all rfl)

theorem feasibleTableau_of_rowsFeasible {s : State} (h : rowsFeasible s) :
    feasibleTableau s := by
  intro kr hkr hext
  have h1 := h kr hkr hext
  have h2 := eps_pos
  linarith

theorem Row.allDummies_false_insert_one (r : Row) (s1 : Symbol) (c1 : ℚ)
    (h1 : r.coefficientFor s1 = 0) (hnz : nearZero c1 = false) (hc0 : c1 ≠ 0)
    (hty : s1.type ≠ SymbolType.Dummy) :
    (r.insertSymbol s1 c1).allDummies = false := by
  have hc : (r.insertSymbol s1 c1).coefficientFor s1 = c1 :=
    Row.coefficientFor_insertSymbol_self _ _ _ h1 hnz
  refine Row.allDummies_false_of_mem (Row.coefficientFor_mem ?_) hty
  rw [hc]
  exact hc0

theorem Row.allDummies_false_insert_two (r : Row) (s1 s2 : Symbol) (c1 c2 : ℚ)
    (h1 : r.coefficientFor s1 = 0) (hnz : nearZero c1 = false) (hc0 : c1 ≠ 0)
    (hne : s1 ≠ s2) (hty : s1.type ≠ SymbolType.Dummy) :
    ((r.insertSymbol s1 c1).insertSymbol s2 c2).allDummies = false := by
  have hc : ((r.insertSymbol s1 c1).insertSymbol s2 c2).coefficientFor s1 = c1 := by
    rw [Row.coefficientFor_insertSymbol_ne _ _ hne,
      Row.coefficientFor_insertSymbol_self _ _ _ h1 hnz]
  refine Row.allDummies_false_of_mem (Row.coefficientFor_mem ?_) hty
  rw [hc]
  exact hc0

/-- In the only branch of `createRowAux` that can produce an all-Dummy row
(a required equality), the marker's coefficient in the built row is 1; every
other branch inserts a fresh Slack or Error cell, contradicting all-Dummy. -/
theorem createRowAux_allDum_coeff (s : State) (cn : Constraint) (row : Row)
    (hcells : ∀ c ∈ row.cells, c.1.id < s.idTick)
    (hdum : (createRowAux s cn row).2.1.allDummies = true) :
    (createRowAux s cn row).2.1.coefficientFor (createRowAux s cn row).2.2.marker
      = 1 := by
  unfold createRowAux at hdum ⊢
  cases hop : cn.op with
  | Le =>
    rw [hop] at hdum
    dsimp only at hdum ⊢
    by_cases hstr : cn.strength < Strength.required
    · rw [if_pos hstr] at hdum
      dsimp only at hdum
      have hfalse := Row.allDummies_false_insert_two row
        (makeSymbol s SymbolType.Slack).2
        (makeSymbol (makeSymbol s SymbolType.Slack).1 SymbolType.Error).2
        (if Operator.Le = Operator.Le then (1 : ℚ) else -1)
        (-(if Operator.Le = Operator.Le then (1 : ℚ) else -1))
        (Row.coefficientFor_fresh hcells rfl)
        (by rw [if_pos rfl]; exact nearZero_one)
        (by rw [if_pos rfl]; norm_num)
        (by exact symbol_ne_of_id_lt (lt_add_one s.idTick))
        (fun hcc => nomatch hcc)
      exact absurd (hfalse.symm.trans hdum) Bool.false_ne_true
    · rw [if_neg hstr] at hdum
      dsimp only at hdum
      have hfalse := Row.allDummies_false_insert_one row
        (makeSymbol s SymbolType.Slack).2
        (if Operator.Le = Operator.Le then (1 : ℚ) else -1)
        (Row.coefficientFor_fresh hcells rfl)
        (by rw [if_pos rfl]; exact nearZero_one)
        (by rw [if_pos rfl]; norm_num)
        (fun hcc => nomatch hcc)
      exact absurd (hfalse.symm.trans hdum) Bool.false_ne_true
  | Ge =>
    rw [hop] at hdum
    dsimp only at hdum ⊢
    by_cases hstr : cn.strength < Strength.required
    · rw [if_pos hstr] at hdum
      dsimp only at hdum
      have hfalse := Row.allDummies_false_insert_two row
        (makeSymbol s SymbolType.Slack).2
        (makeSymbol (makeSymbol s SymbolType.Slack).1 SymbolType.Error).2
        (if Operator.Ge = Operator.Le then (1 : ℚ) else -1)
        (-(if Operator.Ge = Operator.Le then (1 : ℚ) else -1))
        (Row.coefficientFor_fresh hcells rfl)
        (by rw [if_neg (by decide)]; exact nearZero_neg_one)
        (by rw [if_neg (by decide)]; norm_num)
        (by exact symbol_ne_of_id_lt (lt_add_one s.idTick))
        (fun hcc => nomatch hcc)
      exact absurd (hfalse.symm.trans hdum) Bool.false_ne_true
    · rw [if_neg hstr] at hdum
      dsimp only at hdum
      have hfalse := Row.allDummies_false_insert_one row
        (makeSymbol s SymbolType.Slack).2
        (if Operator.Ge = Operator.Le then (1 : ℚ) else -1)
        (Row.coefficientFor_fresh hcells rfl)
        (by rw [if_neg (by decide)]; exact nearZero_neg_one)
        (by rw [if_neg (by decide)]; norm_num)
        (fun hcc => nomatch hcc)
      exact absurd (hfalse.symm.trans hdum) Bool.false_ne_true
  | Eq =>
    rw [hop] at hdum
    dsimp only at hdum ⊢
    by_cases hstr : cn.strength < Strength.required
    · rw [if_pos hstr] at hdum
      dsimp only at hdum
      have hfalse := Row.allDummies_false_insert_two row
        (makeSymbol s SymbolType.Error).2
        (makeSymbol (makeSymbol s SymbolType.Error).1 SymbolType.Error).2
        (-1 : ℚ) (1 : ℚ)
        (Row.coefficientFor_fresh hcells rfl)
        nearZero_neg_one
        (by norm_num)
        (by exact symbol_ne_of_id_lt (lt_add_one s.idTick))
        (fun hcc => nomatch hcc)
      exact absurd (hfalse.symm.trans hdum) Bool.false_ne_true
    · rw [if_neg hstr]
      dsimp only
      exact Row.coefficientFor_insertSymbol_self _ _ _
        (Row.coefficientFor_fresh hcells rfl) nearZero_one

/-- For an all-Dummy constraint row, the marker's coefficient in the final
(sign-normalised) row is 1 or −1. -/
theorem createRow_allDum_coeff (s : State) (cn : Constraint) (hids : idsBounded s)
    (hdum : (createRow s cn).2.1.allDummies = true) :
    (createRow s cn).2.1.coefficientFor (createRow s cn).2.2.marker = 1 ∨
    (createRow s cn).2.1.coefficientFor (createRow s cn).2.2.marker = -1 := by
  obtain ⟨-, -, -, -, -, -, -, -, -, -, f11⟩ :=
    createRowTerms_props cn.expression.terms s ⟨cn.expression.constant, []⟩ hids
      (by intro c hc; exact absurd hc (List.not_mem_nil c))
  have hmain : createRow s cn =
      ((createRowAux (createRowTerms s ⟨cn.expression.constant, []⟩ cn.expression.terms).1
          cn (createRowTerms s ⟨cn.expression.constant, []⟩ cn.expression.terms).2).1,
        (if (createRowAux (createRowTerms s ⟨cn.expression.constant, []⟩
            cn.expression.terms).1 cn
            (createRowTerms s ⟨cn.expression.constant, []⟩ cn.expression.terms).2).2.1.constant
            < 0 then
          (createRowAux (createRowTerms s ⟨cn.expression.constant, []⟩
            cn.expression.terms).1 cn
            (createRowTerms s ⟨cn.expression.constant, []⟩
              cn.expression.terms).2).2.1.reverseSign
        else
          (createRowAux (createRowTerms s ⟨cn.expression.constant, []⟩
            cn.expression.terms).1 cn
            (createRowTerms s ⟨cn.expression.constant, []⟩ cn.expression.terms).2).2.1),
        (createRowAux (createRowTerms s ⟨cn.expression.constant, []⟩ cn.expression.terms).1
          cn (createRowTerms s ⟨cn.expression.constant, []⟩
            cn.expression.terms).2).2.2) := rfl
  rw [hmain] at hdum ⊢
  dsimp only at hdum ⊢
  by_cases hneg : (createRowAux (createRowTerms s ⟨cn.expression.constant, []⟩
      cn.expression.terms).1 cn
      (createRowTerms s ⟨cn.expression.constant, []⟩
        cn.expression.terms).2).2.1.constant < 0
  · rw [if_pos hneg] at hdum ⊢
    rw [Row.reverseSign_allDummies] at hdum
    rw [Row.coefficientFor_reverseSign, createRowAux_allDum_coeff _ cn _ f11 hdum]
    exact Or.inr (by norm_num)
  · rw [if_neg hneg] at hdum ⊢
    rw [createRowAux_allDum_coeff _ cn _ f11 hdum]
    exact Or.inl rfl

/-- A successful `optimize` whose first entering scan already returns the
Invalid sentinel leaves the state unchanged. -/
theorem optimizeLoop_noop_of_ok (t : ObjTarget) (fuel : Nat) (s : State)
    (hok : (optimizeLoop t fuel s).1 = none)
    (hinv : (getEnteringSymbol (getObj s t)).type = SymbolType.Invalid) :
    (optimizeLoop t fuel s).2 = s := by
  cases fuel with
  | zero => exact absurd hok (by simp [optimizeLoop])
  | succ m =>
    rw [optimizeLoop]
    dsimp only
    rw [if_pos hinv]

/-- Pivoting a subject that no restricted row mentions, then optimizing,
keeps the restricted rows exactly feasible and the worklist empty. -/
theorem subject_pivot_post (fuel : Nat) (S : State) (subject : Symbol) (row1 : Row)
    (cnM : List (Constraint × Tag))
    (hwl : S.infeasibleRows = []) (hf : rowsFeasible S)
    (hnd : (S.rowMap.map Prod.fst).Nodup)
    (hzero : ∀ kr ∈ S.rowMap, kr.1.type ≠ SymbolType.External →
      kr.2.coefficientFor subject = 0)
    (hrow1 : subject.type ≠ SymbolType.External → 0 ≤ row1.constant) :
    rowsFeasible (optimizeLoop ObjTarget.main fuel
      { substituteTableau S subject row1 with
        rowMap := alSet (substituteTableau S subject row1).rowMap subject row1,
        cnMap := cnM }).2 ∧
    (optimizeLoop ObjTarget.main fuel
      { substituteTableau S subject row1 with
        rowMap := alSet (substituteTableau S subject row1).rowMap subject row1,
        cnMap := cnM }).2.infeasibleRows = [] := by
  obtain ⟨g1, g2, g3⟩ := substituteTableau_props S subject row1 (by
    intro kr hkr hext
    rw [hzero kr hkr hext, zero_mul, add_zero]
    exact hf kr hkr hext)
  have hfs : rowsFeasible { substituteTableau S subject row1 with
      rowMap := alSet (substituteTableau S subject row1).rowMap subject row1,
      cnMap := cnM } := by
    intro kr hkr hext
    rcases mem_alSet hkr with h1 | h1
    · rw [h1] at hext ⊢
      exact hrow1 hext
    · exact g1 kr h1 hext
  have hnd2 : (({ substituteTableau S subject row1 with
      rowMap := alSet (substituteTableau S subject row1).rowMap subject row1,
      cnMap := cnM } : State).rowMap.map Prod.fst).Nodup :=
    nodup_alSet _ _ (by rw [g3]; exact hnd)
  obtain ⟨ff1, ff2, ff3⟩ := optimizeLoop_feasible ObjTarget.main fuel _ hfs hnd2
  refine ⟨ff1, ff2.trans ?_⟩
  show (substituteTableau S subject row1).infeasibleRows = []
  exact g2.trans hwl

/-- After pivoting an all-dummy marker row into the basis the entering scan
returns Invalid (the objective is untouched), so a successful optimize is the
identity and the lone new row's near-zero constant stays within ε. -/
theorem allDum_pivot_post (fuel : Nat) (S : State) (marker : Symbol) (row1 : Row)
    (cnM : List (Constraint × Tag))
    (hwl : S.infeasibleRows = []) (hf : rowsFeasible S)
    (hzero : ∀ kr ∈ S.rowMap, kr.1.type ≠ SymbolType.External →
      kr.2.coefficientFor marker = 0)
    (hrow1 : -eps ≤ row1.constant)
    (hobj : (getEnteringSymbol (S.objective.substitute marker row1)).type =
      SymbolType.Invalid)
    (hok : (optimizeLoop ObjTarget.main fuel
      { substituteTableau S marker row1 with
        rowMap := alSet (substituteTableau S marker row1).rowMap marker row1,
        cnMap := cnM }).1 = none) :
    feasibleTableau (optimizeLoop ObjTarget.main fuel
      { substituteTableau S marker row1 with
        rowMap := alSet (substituteTableau S marker row1).rowMap marker row1,
        cnMap := cnM }).2 ∧
    (optimizeLoop ObjTarget.main fuel
      { substituteTableau S marker row1 with
        rowMap := alSet (substituteTableau S marker row1).rowMap marker row1,
        cnMap := cnM }).2.infeasibleRows = [] := by
  have hnoop := optimizeLoop_noop_of_ok ObjTarget.main fuel _ hok hobj
  rw [hnoop]
  obtain ⟨g1, g2, g3⟩ := substituteTableau_props S marker row1 (by
    intro kr hkr hext
    rw [hzero kr hkr hext, zero_mul, add_zero]
    exact hf kr hkr hext)
  constructor
  · intro kr hkr hext
    rcases mem_alSet hkr with h1 | h1
    · rw [h1]
      exact hrow1
    · have h2 := g1 kr h1 hext
      have h3 := eps_pos
      linarith
  · show (substituteTableau S marker row1).infeasibleRows = []
    exact g2.trans hwl

/-- A successful non-artificial `addConstraint` from an invariant state keeps
the tableau feasible within ε and the infeasible worklist empty: the chosen
subject is External, a fresh marker or error symbol with negative row
coefficient, or the all-dummy marker of a near-zero row, and in every case
the pivot cannot push a restricted row below −ε. -/
theorem addConstraint_post (fuel : Nat) (s : State) (cn : Constraint)
    (hInv : Inv s) (hart : ¬ addUsesArtificial s cn)
    (hok : (addConstraint fuel s cn).1 = none) :
    feasibleTableau (addConstraint fuel s cn).2 ∧
    (addConstraint fuel s cn).2.infeasibleRows = [] := by
  obtain ⟨hwl, hf, hxf, -, hids, hopt, -, -, hnd, -⟩ := hInv
  have hids1 : ∀ kr ∈ s.rowMap, kr.1.id < s.idTick ∧
      ∀ c ∈ kr.2.cells, c.1.id < s.idTick := hids.1
  have hids2 : ∀ c ∈ s.objective.cells, c.1.id < s.idTick := hids.2.1
  have hprops := createRow_props s cn hids
  have hwl1 : (createRow s cn).1.infeasibleRows = [] := hprops.2.2.2.1.trans hwl
  have hf1 : rowsFeasible (createRow s cn).1 := by
    intro kr hkr hext
    rw [hprops.2.1] at hkr
    exact hf kr hkr hext
  have hnd1 : ((createRow s cn).1.rowMap.map Prod.fst).Nodup := by
    rw [hprops.2.1]; exact hnd
  revert hok
  unfold addConstraint
  split
  · intro h; exact absurd h (by simp)
  · dsimp only
    split
    · intro h; exact absurd h (by simp)
    next hnotunsat =>
      split
      next hallDum =>
        split
        next hminv => exact absurd hminv (createRow_tag s cn).1
        next hmok =>
          intro hok2
          have hdumP : (createRow s cn).2.1.allDummies = true := hallDum.2
          have hnz : nearZero (createRow s cn).2.1.constant = true := by
            by_cases h : nearZero (createRow s cn).2.1.constant = true
            · exact h
            · exact absurd ⟨hallDum, h⟩ hnotunsat
          have hzero : ∀ kr ∈ (createRow s cn).1.rowMap,
              kr.1.type ≠ SymbolType.External →
              kr.2.coefficientFor (createRow s cn).2.2.marker = 0 := by
            intro kr hkr _
            rw [hprops.2.1] at hkr
            exact coefficientFor_zero_of_fresh (hids1 kr hkr).2 (createRow_tag s cn).2.1
          have hbounds := nearZero_bounds hnz
          have hrow1b : -eps ≤
              ((createRow s cn).2.1.solveFor (createRow s cn).2.2.marker).constant := by
            rw [Row.solveFor_constant]
            rcases createRow_allDum_coeff s cn hids hdumP with hcf | hcf
            · rw [hcf]
              have he1 : (createRow s cn).2.1.constant * (-1 / 1) =
                  -(createRow s cn).2.1.constant := by ring
              rw [he1]
              linarith [hbounds.2]
            · rw [hcf]
              have he1 : (createRow s cn).2.1.constant * (-1 / (-1)) =
                  (createRow s cn).2.1.constant := by ring
              rw [he1]
              linarith [hbounds.1, eps_pos]
          have hfr : ∀ q ∈ (createRow s cn).1.objective.cells,
              q.1 ≠ (createRow s cn).2.2.marker := by
            intro q hq
            rw [hprops.2.2.2.2.2.2.2 hdumP] at hq
            exact symbol_ne_of_id_lt
              (lt_of_lt_of_le (hids2 q hq) (createRow_tag s cn).2.1)
          have hobjInv : (getEnteringSymbol ((createRow s cn).1.objective.substitute
              (createRow s cn).2.2.marker
              ((createRow s cn).2.1.solveFor (createRow s cn).2.2.marker))).type =
              SymbolType.Invalid := by
            have h1 : (createRow s cn).1.objective.substitute
                (createRow s cn).2.2.marker
                ((createRow s cn).2.1.solveFor (createRow s cn).2.2.marker) =
                s.objective :=
              (Row.substitute_of_not_mem _ hfr).trans (hprops.2.2.2.2.2.2.2 hdumP)
            rw [h1, getEnteringSymbol_invalid hopt]
            rfl
          exact allDum_pivot_post fuel (createRow s cn).1 (createRow s cn).2.2.marker
            ((createRow s cn).2.1.solveFor (createRow s cn).2.2.marker) _
            hwl1 hf1 hzero hrow1b hobjInv hok2
      next hnotallDum =>
        split
        next hsinv =>
          have hbf : (createRow s cn).2.1.allDummies = false := by
            cases hb : (createRow s cn).2.1.allDummies with
            | false => rfl
            | true => exact absurd ⟨hsinv, hb⟩ hnotallDum
          exact absurd ⟨hsinv, hbf⟩ hart
        next hsok =>
          intro hok2
          rcases chooseSubject_cases (createRow s cn).2.1 (createRow s cn).2.2
            with hc | hc | hc
          · exact absurd (by rw [hc]; rfl) hsok
          · have hzero : ∀ kr ∈ (createRow s cn).1.rowMap,
                kr.1.type ≠ SymbolType.External →
                kr.2.coefficientFor
                  (chooseSubject (createRow s cn).2.1 (createRow s cn).2.2) = 0 := by
              intro kr hkr hext
              rw [hprops.2.1] at hkr
              refine Row.coefficientFor_eq_zero_of_forall ?_
              intro q hq hqe
              exact (hxf kr hkr hext q hq) (by rw [hqe]; exact hc)
            obtain ⟨h1, h2⟩ := subject_pivot_post fuel (createRow s cn).1
              (chooseSubject (createRow s cn).2.1 (createRow s cn).2.2)
              ((createRow s cn).2.1.solveFor
                (chooseSubject (createRow s cn).2.1 (createRow s cn).2.2)) _
              hwl1 hf1 hnd1 hzero (fun hext => absurd hc hext)
            exact ⟨feasibleTableau_of_rowsFeasible h1, h2⟩
          · have hfreshS : s.idTick ≤
                (chooseSubject (createRow s cn).2.1 (createRow s cn).2.2).id := by
              rcases hc.1 with h | h
              · rw [h]; exact (createRow_tag s cn).2.1
              · have h2 := hc.2.2
                rw [h] at h2 ⊢
                exact (createRow_tag s cn).2.2 h2
            have hzero : ∀ kr ∈ (createRow s cn).1.rowMap,
                kr.1.type ≠ SymbolType.External →
                kr.2.coefficientFor
                  (chooseSubject (createRow s cn).2.1 (createRow s cn).2.2) = 0 := by
              intro kr hkr _
              rw [hprops.2.1] at hkr
              exact coefficientFor_zero_of_fresh (hids1 kr hkr).2 hfreshS
            have hrowM : (chooseSubject (createRow s cn).2.1
                  (createRow s cn).2.2).type ≠ SymbolType.External →
                0 ≤ ((createRow s cn).2.1.solveFor
                  (chooseSubject (createRow s cn).2.1 (createRow s cn).2.2)).constant := by
              intro hext2
              rw [Row.solveFor_constant]
              refine mul_nonneg (createRow_const_nonneg s cn) ?_
              rw [div_nonneg_iff]
              exact Or.inr ⟨by norm_num, le_of_lt hc.2.1⟩
            obtain ⟨h1, h2⟩ := subject_pivot_post fuel (createRow s cn).1
              (chooseSubject (createRow s cn).2.1 (createRow s cn).2.2)
              ((createRow s cn).2.1.solveFor
                (chooseSubject (createRow s cn).2.1 (createRow s cn).2.2)) _
              hwl1 hf1 hnd1 hzero hrowM
            exact ⟨feasibleTableau_of_rowsFeasible h1, h2⟩


theorem Row.nodup_cells_insertSymbol {r : Row} (sym : Symbol) (c : ℚ)
    (h : (r.cells.map Prod.fst).Nodup) :
    ((r.insertSymbol sym c).cells.map Prod.fst).Nodup := by
  unfold Row.insertSymbol
  dsimp only
  split
  · exact nodup_alDel sym h
  · exact nodup_alSet sym _ h

theorem Row.nodup_cells_foldl_insert (k : ℚ) (l : List (Symbol × ℚ)) :
    ∀ (acc : Row), (acc.cells.map Prod.fst).Nodup →
      ((l.foldl (fun acc cell => acc.insertSymbol cell.1 (cell.2 * k)) acc).cells.map
        Prod.fst).Nodup := by
  induction l with
  | nil => intro acc h; exact h
  | cons p t ih =>
    intro acc h
    rw [List.foldl_cons]
    exact ih _ (Row.nodup_cells_insertSymbol p.1 (p.2 * k) h)

theorem Row.nodup_cells_insertRow {r : Row} (other : Row) (c : ℚ)
    (h : (r.cells.map Prod.fst).Nodup) :
    ((r.insertRow other c).cells.map Prod.fst).Nodup :=
  Row.nodup_cells_foldl_insert c other.cells _ h

theorem Row.nodup_cells_solveFor {r : Row} (sym : Symbol)
    (h : (r.cells.map Prod.fst).Nodup) :
    ((r.solveFor sym).cells.map Prod.fst).Nodup := by
  show (((alDel r.cells sym).map _).map Prod.fst).Nodup
  rw [List.map_map]
  show ((alDel r.cells sym).map Prod.fst).Nodup
  exact nodup_alDel sym h

theorem Row.nodup_cells_solveForEx {r : Row} (lhs rhs : Symbol)
    (h : (r.cells.map Prod.fst).Nodup) :
    ((r.solveForEx lhs rhs).cells.map Prod.fst).Nodup :=
  Row.nodup_cells_solveFor rhs (Row.nodup_cells_insertSymbol lhs (-1) h)

theorem Row.nodup_cells_substitute {r : Row} (sym : Symbol) (other : Row)
    (h : (r.cells.map Prod.fst).Nodup) :
    ((r.substitute sym other).cells.map Prod.fst).Nodup := by
  unfold Row.substitute
  cases ha : alGet r.cells sym with
  | none => exact h
  | some a => exact Row.nodup_cells_insertRow other a (nodup_alDel sym h)

/-- Cells of a pivoted row never mention the entering symbol, and otherwise
come from the detached row or are the inserted leaving symbol. -/
theorem Row.mem_solveForEx_strong {r : Row} {lhs rhs : Symbol} {p : Symbol × ℚ}
    (h : p ∈ (r.solveForEx lhs rhs).cells) :
    p.1 ≠ rhs ∧ (p.1 = lhs ∨ ∃ q ∈ r.cells, p.1 = q.1) := by
  unfold Row.solveForEx at h
  obtain ⟨q, hq, hpq, hqs, hp2⟩ := Row.mem_solveFor h
  refine ⟨by rw [hpq]; exact hqs, ?_⟩
  rcases Row.mem_insertSymbol hq with h1 | h1
  · exact Or.inl (hpq.trans h1)
  · exact Or.inr ⟨q, h1, hpq⟩

/-- Cells of a substituted row never mention the substituted symbol (the
replacement row does not, and JS `Map.delete` removes its binding), and
otherwise come from the original row or the replacement row. -/
theorem Row.mem_substitute_strong {r other : Row} {sym : Symbol} {p : Symbol × ℚ}
    (hother : ∀ q ∈ other.cells, q.1 ≠ sym)
    (h : p ∈ (r.substitute sym other).cells) :
    p.1 ≠ sym ∧ (p ∈ r.cells ∨ ∃ q ∈ other.cells, p.1 = q.1) := by
  unfold Row.substitute at h
  cases ha : alGet r.cells sym with
  | none =>
    rw [ha] at h
    exact ⟨alGet_eq_none_iff.mp ha p h, Or.inl h⟩
  | some a =>
    rw [ha] at h
    rcases Row.mem_insertRow h with h1 | h1
    · obtain ⟨hm, hne⟩ := mem_alDel h1
      exact ⟨hne, Or.inl hm⟩
    · obtain ⟨q, hq, hpq⟩ := h1
      exact ⟨by rw [hpq]; exact hother q hq, Or.inr ⟨q, hq, hpq⟩⟩

theorem keys_map_of_fst_eq {α β : Type} (f : α × β → α × β)
    (hf : ∀ p, (f p).1 = p.1) :
    ∀ (l : List (α × β)), (l.map f).map Prod.fst = l.map Prod.fst := by
  intro l
  induction l with
  | nil => rfl
  | cons p t ih => rw [List.map_cons, List.map_cons, List.map_cons, ih, hf p]

/-- Every substituted restricted row that went negative is pushed onto the
infeasible worklist by `_substitute`. -/
theorem substituteTableau_pushes_mem (s : State) (symbol : Symbol) (row1 : Row) :
    ∀ kr ∈ (substituteTableau s symbol row1).rowMap, kr.2.constant < 0 →
      kr.1.type ≠ SymbolType.External →
      kr.1 ∈ (substituteTableau s symbol row1).infeasibleRows := by
  intro kr hkr hneg hext
  show kr.1 ∈ s.infeasibleRows ++ _
  refine List.mem_append_right _ ?_
  refine List.mem_map_of_mem Prod.fst ?_
  refine List.mem_filter.mpr ⟨hkr, ?_⟩
  exact decide_eq_true ⟨hneg, hext⟩

theorem getDualEnteringSymbol_eq (s : State) (row : Row) :
    getDualEnteringSymbol s row =
      match firstStrictMin (dualEnteringCandidates s.objective row) with
      | some best => best.2
      | none => INVALID_SYMBOL := by
  unfold getDualEnteringSymbol firstStrictMin dualEnteringCandidates
  rw [foldl_eq_firstStrictMinFrom _
    (fun c : Symbol × ℚ =>
      if (0 : ℚ) < c.2 ∧ c.1.type ≠ SymbolType.Dummy then
        some (s.objective.coefficientFor c.1 / c.2, c.1)
      else none) ?_]
  intro acc c
  dsimp only
  by_cases h1 : (0 : ℚ) < c.2 ∧ c.1.type ≠ SymbolType.Dummy
  · rw [if_pos h1, if_pos h1]
    cases acc <;> rfl
  · rw [if_neg h1, if_neg h1]

/-- What a non-Invalid result of `getDualEnteringSymbol` guarantees: it is
the symbol of a non-Dummy cell of the row with positive coefficient. -/
theorem getDualEnteringSymbol_props {s : State} {row : Row}
    (h : ¬ (getDualEnteringSymbol s row).type = SymbolType.Invalid) :
    ∃ c ∈ row.cells, c.1 = getDualEnteringSymbol s row ∧ 0 < c.2 ∧
      c.1.type ≠ SymbolType.Dummy := by
  rw [getDualEnteringSymbol_eq] at h ⊢
  cases hmin : firstStrictMin (dualEnteringCandidates s.objective row) with
  | none => rw [hmin] at h; exact absurd rfl h
  | some best =>
    dsimp only
    have hmem := firstStrictMin_mem hmin
    obtain ⟨c, hc, hf⟩ := List.mem_filterMap.mp hmem
    by_cases hcond : (0 : ℚ) < c.2 ∧ c.1.type ≠ SymbolType.Dummy
    · rw [if_pos hcond] at hf
      have hb2 : best.2 = c.1 := (congrArg Prod.snd (Option.some.inj hf)).symm
      exact ⟨c, hc, hb2.symm, hcond.1, hcond.2⟩
    · rw [if_neg hcond] at hf
      exact absurd hf (by simp)

/-- One dual pivot (detach the infeasible leaving row, solve it for the dual
entering symbol, substitute through the tableau, reinstall the row keyed by
the entering symbol) restores the worklist discipline: the pivoted row's
constant turns positive and any substituted restricted row that went
negative is pushed; key uniqueness, per-row cell uniqueness and the
basic-symbols-not-in-rows discipline are preserved. -/
theorem dual_pivot_props (s0 : State) (leaving entering : Symbol) (row : Row)
    (hget : alGet s0.rowMap leaving = some row)
    (hnd : (s0.rowMap.map Prod.fst).Nodup)
    (hcells : ∀ kr ∈ s0.rowMap, (kr.2.cells.map Prod.fst).Nodup)
    (hbnr : ∀ kr ∈ s0.rowMap, ∀ kr2 ∈ s0.rowMap, ∀ c ∈ kr2.2.cells, c.1 ≠ kr.1)
    (hcpos : 0 < row.coefficientFor entering)
    (hneg : row.constant < 0) :
    (∀ kr ∈ alSet (substituteTableau { s0 with rowMap := alDel s0.rowMap leaving }
        entering (row.solveForEx leaving entering)).rowMap entering
        (row.solveForEx leaving entering),
      kr.1.type ≠ SymbolType.External → kr.2.constant < 0 →
      kr.1 ∈ (substituteTableau { s0 with rowMap := alDel s0.rowMap leaving }
        entering (row.solveForEx leaving entering)).infeasibleRows) ∧
    ((alSet (substituteTableau { s0 with rowMap := alDel s0.rowMap leaving }
        entering (row.solveForEx leaving entering)).rowMap entering
        (row.solveForEx leaving entering)).map Prod.fst).Nodup ∧
    (∀ kr ∈ alSet (substituteTableau { s0 with rowMap := alDel s0.rowMap leaving }
        entering (row.solveForEx leaving entering)).rowMap entering
        (row.solveForEx leaving entering), (kr.2.cells.map Prod.fst).Nodup) ∧
    (∀ kr ∈ alSet (substituteTableau { s0 with rowMap := alDel s0.rowMap leaving }
        entering (row.solveForEx leaving entering)).rowMap entering
        (row.solveForEx leaving entering),
      ∀ kr2 ∈ alSet (substituteTableau { s0 with rowMap := alDel s0.rowMap leaving }
        entering (row.solveForEx leaving entering)).rowMap entering
        (row.solveForEx leaving entering),
      ∀ c ∈ kr2.2.cells, c.1 ≠ kr.1) := by
  have hrowmem : (leaving, row) ∈ s0.rowMap := alGet_mem hget
  have hrowcells : (row.cells.map Prod.fst).Nodup := hcells _ hrowmem
  have hne_el : entering ≠ leaving := by
    have hcell := Row.coefficientFor_mem (ne_of_gt hcpos)
    exact hbnr (leaving, row) hrowmem (leaving, row) hrowmem _ hcell
  have hother : ∀ q ∈ (row.solveForEx leaving entering).cells, q.1 ≠ entering :=
    fun q hq => (Row.mem_solveForEx_strong hq).1
  have hkeys : ((substituteTableau { s0 with rowMap := alDel s0.rowMap leaving }
      entering (row.solveForEx leaving entering)).rowMap).map Prod.fst =
      (alDel s0.rowMap leaving).map Prod.fst := by
    show ((alDel s0.rowMap leaving).map _).map Prod.fst = _
    rw [List.map_map]
    rfl
  have hchar : ∀ kr2 ∈ alSet (substituteTableau
        { s0 with rowMap := alDel s0.rowMap leaving } entering
        (row.solveForEx leaving entering)).rowMap entering
        (row.solveForEx leaving entering),
      ∀ c ∈ kr2.2.cells, c.1 ≠ entering ∧
        (c.1 = leaving ∨ ∃ kr0 ∈ s0.rowMap, ∃ q ∈ kr0.2.cells, c.1 = q.1) := by
    intro kr2 hkr2 c hc
    rcases mem_alSet hkr2 with h1 | h1
    · rw [h1] at hc
      obtain ⟨hne, hca⟩ := Row.mem_solveForEx_strong hc
      refine ⟨hne, ?_⟩
      rcases hca with h2 | h2
      · exact Or.inl h2
      · obtain ⟨q, hq, hcq⟩ := h2
        exact Or.inr ⟨(leaving, row), hrowmem, q, hq, hcq⟩
    · obtain ⟨kr0, hkr0, hkr0e⟩ := List.mem_map.mp h1
      rw [← hkr0e] at hc
      obtain ⟨hne, hca⟩ := Row.mem_substitute_strong hother hc
      refine ⟨hne, ?_⟩
      rcases hca with h2 | h2
      · exact Or.inr ⟨kr0, (mem_alDel hkr0).1, c, h2, rfl⟩
      · obtain ⟨q, hq, hcq⟩ := h2
        obtain ⟨hne2, hca2⟩ := Row.mem_solveForEx_strong hq
        rcases hca2 with h3 | h3
        · exact Or.inl (hcq.trans h3)
        · obtain ⟨q2, hq2, hq2e⟩ := h3
          exact Or.inr ⟨(leaving, row), hrowmem, q2, hq2, hcq.trans hq2e⟩
  have hkey : ∀ kr ∈ alSet (substituteTableau
        { s0 with rowMap := alDel s0.rowMap leaving } entering
        (row.solveForEx leaving entering)).rowMap entering
        (row.solveForEx leaving entering),
      kr.1 = entering ∨ (kr.1 ≠ leaving ∧ ∃ kr0 ∈ s0.rowMap, kr.1 = kr0.1) := by
    intro kr hkr
    rcases mem_alSet hkr with h1 | h1
    · rw [h1]; exact Or.inl rfl
    · obtain ⟨kr0, hkr0, hkr0e⟩ := List.mem_map.mp h1
      obtain ⟨hm0, hne0⟩ := mem_alDel hkr0
      refine Or.inr ⟨fun hcc => hne0 ((congrArg Prod.fst hkr0e).trans hcc),
        kr0, hm0, (congrArg Prod.fst hkr0e).symm⟩
  refine ⟨?_, ?_, ?_, ?_⟩
  · intro kr hkr hext hlt
    rcases mem_alSet hkr with h1 | h1
    · rw [h1] at hlt
      have hpos : 0 < (row.solveForEx leaving entering).constant := by
        rw [Row.solveForEx_constant row hne_el]
        exact mul_pos_of_neg_of_neg hneg (div_neg_of_neg_of_pos (by norm_num) hcpos)
      exact absurd hlt (not_lt.mpr (le_of_lt hpos))
    · exact substituteTableau_pushes_mem _ _ _ kr h1 hlt hext
  · refine nodup_alSet _ _ ?_
    rw [hkeys]
    exact nodup_alDel leaving hnd
  · intro kr hkr
    rcases mem_alSet hkr with h1 | h1
    · rw [h1]
      exact Row.nodup_cells_solveForEx leaving entering hrowcells
    · obtain ⟨kr0, hkr0, hkr0e⟩ := List.mem_map.mp h1
      rw [← hkr0e]
      exact Row.nodup_cells_substitute entering _ (hcells _ (mem_alDel hkr0).1)
  · intro kr hkr kr2 hkr2 c hc
    obtain ⟨hcne, hcor⟩ := hchar kr2 hkr2 c hc
    rcases hkey kr hkr with h1 | h1
    · rw [h1]; exact hcne
    · obtain ⟨hkl, kr0, hkr0, hke⟩ := h1
      rcases hcor with h2 | h2
      · rw [h2]; exact fun hcc => hkl hcc.symm
      · obtain ⟨kr0b, hkr0b, q, hq, hcq⟩ := h2
        rw [hcq, hke]
        exact hbnr kr0 hkr0 kr0b hkr0b q hq


/-- The dual optimize loop, run from a state where every negative restricted
row is on the worklist (with basis-key uniqueness, per-row cell uniqueness
and no basic symbol inside any row), ends exactly feasible whenever it
succeeds: each pivot turns the popped negative row positive, and any
substituted row that goes negative is re-enqueued. -/
theorem dualOptimizeLoop_inv :
    ∀ (fuel : Nat) (s : State),
      negativesEnqueued s →
      (s.rowMap.map Prod.fst).Nodup →
      (∀ kr ∈ s.rowMap, (kr.2.cells.map Prod.fst).Nodup) →
      (∀ kr ∈ s.rowMap, ∀ kr2 ∈ s.rowMap, ∀ c ∈ kr2.2.cells, c.1 ≠ kr.1) →
      (dualOptimizeLoop fuel s).1 = none →
      rowsFeasible (dualOptimizeLoop fuel s).2 := by
  intro fuel
  induction fuel with
  | zero =>
    intro s _ _ _ _ h
    exact absurd h (by simp [dualOptimizeLoop])
  | succ fuel ih =>
    intro s hneg hnd hcells hbnr
    rw [dualOptimizeLoop]
    split
    next hlast =>
      intro _
      cases hl : s.infeasibleRows with
      | cons a t => rw [hl] at hlast; simp at hlast
      | nil =>
        intro kr hkr hext
        by_contra hlt
        have hmem := hneg kr hkr hext (not_le.mp hlt)
        rw [hl] at hmem
        exact absurd hmem (List.not_mem_nil _)
    next leaving hlast =>
      dsimp only
      split
      next hb =>
        apply ih
        · intro kr hkr hext hlt
          refine mem_dropLast_of_ne hlast (hneg kr hkr hext hlt) ?_
          intro hkl
          have hsome : alGet s.rowMap leaving = some kr.2 := by
            rw [← hkl]
            exact alGet_of_mem_nodup hnd hkr
          exact Option.noConfusion (hsome.symm.trans hb)
        · exact hnd
        · exact hcells
        · exact hbnr
      next row hb =>
        split
        next hrneg =>
          split
          next => intro h; exact absurd h (by simp)
          next hentinv =>
            have hcoefpos : 0 < row.coefficientFor (getDualEnteringSymbol
                { s with infeasibleRows := s.infeasibleRows.dropLast } row) := by
              obtain ⟨c, hc, hce, hcp, -⟩ := getDualEnteringSymbol_props hentinv
              have hg := alGet_of_mem_nodup (hcells _ (alGet_mem hb))
                (show (c.1, c.2) ∈ row.cells from hc)
              show 0 < (alGet row.cells _).getD 0
              rw [← hce, hg]
              exact hcp
            obtain ⟨p1, p2, p3, p4⟩ := dual_pivot_props
              { s with infeasibleRows := s.infeasibleRows.dropLast } leaving
              (getDualEnteringSymbol
                { s with infeasibleRows := s.infeasibleRows.dropLast } row)
              row hb hnd hcells hbnr hcoefpos hrneg
            apply ih
            · exact p1
            · exact p2
            · exact p3
            · exact p4
        next hrpos =>
          apply ih
          · intro kr hkr hext hlt
            refine mem_dropLast_of_ne hlast (hneg kr hkr hext hlt) ?_
            intro hkl
            have hsome : alGet s.rowMap leaving = some kr.2 := by
              rw [← hkl]
              exact alGet_of_mem_nodup hnd hkr
            have hkr2 : kr.2 = row := Option.some.inj (hsome.symm.trans hb)
            rw [hkr2] at hlt
            exact absurd hlt hrpos
          · exact hnd
          · exact hcells
          · exact hbnr

/-- A suggested-value delta applied to a single basic row (the marker's or
the error symbol's), with the row enqueued if its constant went negative,
then dual-optimised: on success the tableau is exactly feasible. -/
theorem suggest_delta_basic_post (fuel : Nat) (sb : State) (sym : Symbol)
    (row0 : Row) (d : ℚ)
    (hget : alGet sb.rowMap sym = some row0)
    (hf : rowsFeasible sb)
    (hnd : (sb.rowMap.map Prod.fst).Nodup)
    (hcells : ∀ kr ∈ sb.rowMap, (kr.2.cells.map Prod.fst).Nodup)
    (hbnr : ∀ kr ∈ sb.rowMap, ∀ kr2 ∈ sb.rowMap, ∀ c ∈ kr2.2.cells, c.1 ≠ kr.1)
    (hok : (dualOptimizeLoop fuel
      { sb with
        rowMap := alSet sb.rowMap sym (row0.add d),
        infeasibleRows := if (row0.add d).constant < 0
          then sb.infeasibleRows ++ [sym] else sb.infeasibleRows }).1 = none) :
    rowsFeasible (dualOptimizeLoop fuel
      { sb with
        rowMap := alSet sb.rowMap sym (row0.add d),
        infeasibleRows := if (row0.add d).constant < 0
          then sb.infeasibleRows ++ [sym] else sb.infeasibleRows }).2 := by
  refine dualOptimizeLoop_inv fuel _ ?_ ?_ ?_ ?_ hok
  · intro kr hkr hext hlt
    rcases mem_alSet hkr with h1 | h1
    · have hc : (row0.add d).constant < 0 := by rw [h1] at hlt; exact hlt
      rw [h1]
      show (sym, row0.add d).1 ∈ if (row0.add d).constant < 0
        then sb.infeasibleRows ++ [sym] else sb.infeasibleRows
      rw [if_pos hc]
      exact List.mem_append_right _ (List.mem_singleton.mpr rfl)
    · exact absurd hlt (not_lt.mpr (hf kr h1 hext))
  · exact nodup_alSet _ _ hnd
  · intro kr hkr
    rcases mem_alSet hkr with h1 | h1
    · rw [h1]
      exact hcells (sym, row0) (alGet_mem hget)
    · exact hcells kr h1
  · have hkey : ∀ kr ∈ alSet sb.rowMap sym (row0.add d),
        ∃ kr0 ∈ sb.rowMap, kr.1 = kr0.1 := by
      intro kr hkr
      rcases mem_alSet hkr with h1 | h1
      · exact ⟨(sym, row0), alGet_mem hget, by rw [h1]⟩
      · exact ⟨kr, h1, rfl⟩
    have hcellchar : ∀ kr2 ∈ alSet sb.rowMap sym (row0.add d), ∀ c ∈ kr2.2.cells,
        ∃ kr0 ∈ sb.rowMap, c ∈ kr0.2.cells := by
      intro kr2 hkr2 c hc
      rcases mem_alSet hkr2 with h1 | h1
      · rw [h1] at hc
        exact ⟨(sym, row0), alGet_mem hget, hc⟩
      · exact ⟨kr2, h1, hc⟩
    intro kr hkr kr2 hkr2 c hc
    obtain ⟨kr0, hkr0, hke⟩ := hkey kr hkr
    obtain ⟨kr0b, hkr0b, hcb⟩ := hcellchar kr2 hkr2 c hc
    rw [hke]
    exact hbnr kr0 hkr0 kr0b hkr0b c hcb

/-- A suggested-value delta applied through the marker's column of every
row (the marker is not basic), pushing each restricted row that went
negative, then dual-optimised: on success the tableau is exactly
feasible. -/
theorem suggest_delta_all_post (fuel : Nat) (sb : State) (sym : Symbol) (d : ℚ)
    (hf : rowsFeasible sb)
    (hnd : (sb.rowMap.map Prod.fst).Nodup)
    (hcells : ∀ kr ∈ sb.rowMap, (kr.2.cells.map Prod.fst).Nodup)
    (hbnr : ∀ kr ∈ sb.rowMap, ∀ kr2 ∈ sb.rowMap, ∀ c ∈ kr2.2.cells, c.1 ≠ kr.1)
    (hok : (dualOptimizeLoop fuel
      { sb with
        rowMap := sb.rowMap.map (fun kr =>
          if kr.2.coefficientFor sym ≠ 0 then
            (kr.1, kr.2.add (d * kr.2.coefficientFor sym))
          else kr),
        infeasibleRows := sb.infeasibleRows ++ sb.rowMap.filterMap (fun kr =>
          if kr.2.coefficientFor sym ≠ 0 ∧
              (kr.2.add (d * kr.2.coefficientFor sym)).constant < 0 ∧
              kr.1.type ≠ SymbolType.External then some kr.1
          else none) }).1 = none) :
    rowsFeasible (dualOptimizeLoop fuel
      { sb with
        rowMap := sb.rowMap.map (fun kr =>
          if kr.2.coefficientFor sym ≠ 0 then
            (kr.1, kr.2.add (d * kr.2.coefficientFor sym))
          else kr),
        infeasibleRows := sb.infeasibleRows ++ sb.rowMap.filterMap (fun kr =>
          if kr.2.coefficientFor sym ≠ 0 ∧
              (kr.2.add (d * kr.2.coefficientFor sym)).constant < 0 ∧
              kr.1.type ≠ SymbolType.External then some kr.1
          else none) }).2 := by
  have hf1 : ∀ p : Symbol × Row,
      ((fun kr : Symbol × Row =>
        if kr.2.coefficientFor sym ≠ 0 then
          (kr.1, kr.2.add (d * kr.2.coefficientFor sym))
        else kr) p).1 = p.1 := by
    intro p
    dsimp only
    split
    · rfl
    · rfl
  refine dualOptimizeLoop_inv fuel _ ?_ ?_ ?_ ?_ hok
  · intro kr hkr hext hlt
    obtain ⟨kr0, hkr0, hkr0e⟩ := List.mem_map.mp hkr
    by_cases hc0 : kr0.2.coefficientFor sym ≠ 0
    · rw [if_pos hc0] at hkr0e
      have hneg2 : (kr0.2.add (d * kr0.2.coefficientFor sym)).constant < 0 := by
        rw [← hkr0e] at hlt
        exact hlt
      have hext2 : kr0.1.type ≠ SymbolType.External := by
        rw [← hkr0e] at hext
        exact hext
      show kr.1 ∈ sb.infeasibleRows ++ sb.rowMap.filterMap (fun kr =>
        if kr.2.coefficientFor sym ≠ 0 ∧
            (kr.2.add (d * kr.2.coefficientFor sym)).constant < 0 ∧
            kr.1.type ≠ SymbolType.External then some kr.1
        else none)
      refine List.mem_append_right _ ?_
      refine List.mem_filterMap.mpr ⟨kr0, hkr0, ?_⟩
      show (if kr0.2.coefficientFor sym ≠ 0 ∧
          (kr0.2.add (d * kr0.2.coefficientFor sym)).constant < 0 ∧
          kr0.1.type ≠ SymbolType.External then some kr0.1 else none) = some kr.1
      rw [if_pos ⟨hc0, hneg2, hext2⟩]
      have hfst2 : (kr0.1, kr0.2.add (d * kr0.2.coefficientFor sym)).1 = kr.1 :=
        congrArg Prod.fst hkr0e
      exact congrArg some hfst2
    · rw [if_neg hc0] at hkr0e
      rw [← hkr0e] at hlt hext
      exact absurd hlt (not_lt.mpr (hf kr0 hkr0 hext))
  · show ((sb.rowMap.map (fun kr : Symbol × Row =>
        if kr.2.coefficientFor sym ≠ 0 then
          (kr.1, kr.2.add (d * kr.2.coefficientFor sym))
        else kr)).map Prod.fst).Nodup
    rw [keys_map_of_fst_eq _ hf1 sb.rowMap]
    exact hnd
  · intro kr hkr
    obtain ⟨kr0, hkr0, hkr0e⟩ := List.mem_map.mp hkr
    by_cases hc0 : kr0.2.coefficientFor sym ≠ 0
    · rw [if_pos hc0] at hkr0e
      rw [← hkr0e]
      exact hcells kr0 hkr0
    · rw [if_neg hc0] at hkr0e
      rw [← hkr0e]
      exact hcells kr0 hkr0
  · have hkey : ∀ kr2 ∈ sb.rowMap.map (fun kr : Symbol × Row =>
        if kr.2.coefficientFor sym ≠ 0 then
          (kr.1, kr.2.add (d * kr.2.coefficientFor sym))
        else kr),
        ∃ kr0 ∈ sb.rowMap, kr2.1 = kr0.1 := by
      intro kr2 hkr2
      obtain ⟨kr0, hkr0, hkr0e⟩ := List.mem_map.mp hkr2
      exact ⟨kr0, hkr0, (congrArg Prod.fst hkr0e).symm.trans (hf1 kr0)⟩
    have hcellchar : ∀ kr2 ∈ sb.rowMap.map (fun kr : Symbol × Row =>
        if kr.2.coefficientFor sym ≠ 0 then
          (kr.1, kr.2.add (d * kr.2.coefficientFor sym))
        else kr),
        ∀ c ∈ kr2.2.cells, ∃ kr0 ∈ sb.rowMap, c ∈ kr0.2.cells := by
      intro kr2 hkr2 c hc
      obtain ⟨kr0, hkr0, hkr0e⟩ := List.mem_map.mp hkr2
      by_cases hc0 : kr0.2.coefficientFor sym ≠ 0
      · rw [if_pos hc0] at hkr0e
        rw [← hkr0e] at hc
        exact ⟨kr0, hkr0, hc⟩
      · rw [if_neg hc0] at hkr0e
        rw [← hkr0e] at hc
        exact ⟨kr0, hkr0, hc⟩
    intro kr hkr kr2 hkr2 c hc
    obtain ⟨kr0, hkr0, hke⟩ := hkey kr hkr
    obtain ⟨kr0b, hkr0b, hcb⟩ := hcellchar kr2 hkr2 c hc
    rw [hke]
    exact hbnr kr0 hkr0 kr0b hkr0b c hcb

/-- A successful `suggestValue` from an invariant state leaves the tableau
exactly feasible and the infeasible worklist empty: each delta path
enqueues every row it turns negative, and the dual loop drains the
worklist, its min-ratio pivots re-enqueueing anything they break. -/
theorem suggestValue_post (fuel : Nat) (s : State) (v : VarId) (value : ℚ)
    (hInv : Inv s)
    (hok : (suggestValue fuel s v value).1 = none) :
    rowsFeasible (suggestValue fuel s v value).2 ∧
    (suggestValue fuel s v value).2.infeasibleRows = [] := by
  obtain ⟨-, hf, -, hbnr, -, -, -, -, hnd, hcells⟩ := hInv
  revert hok
  unfold suggestValue
  split
  · intro h; exact absurd h (by simp)
  next info hinfo =>
    dsimp only
    split
    next row hbm =>
      intro hok2
      exact ⟨suggest_delta_basic_post fuel
          { s with editMap := alSet s.editMap v { info with constant := value } }
          info.tag.marker row (-(value - info.constant)) hbm hf hnd hcells hbnr hok2,
        dualOptimizeLoop_empty_of_success fuel _ hok2⟩
    next hbm =>
      split
      next row hbo =>
        intro hok2
        exact ⟨suggest_delta_basic_post fuel
            { s with editMap := alSet s.editMap v { info with constant := value } }
            info.tag.other row (value - info.constant) hbo hf hnd hcells hbnr hok2,
          dualOptimizeLoop_empty_of_success fuel _ hok2⟩
      next hbo =>
        intro hok2
        exact ⟨suggest_delta_all_post fuel
            { s with editMap := alSet s.editMap v { info with constant := value } }
            info.tag.marker (value - info.constant) hf hnd hcells hbnr hok2,
          dualOptimizeLoop_empty_of_success fuel _ hok2⟩


/-- The state reached by adding `x + 5 ≤ 0` to the empty solver: the
External row for `x` carries constant −5. -/
def stC1 : State :=
  { cnMap := [(cnXplus5Le0,
      { marker := { id := 1, type := SymbolType.Slack },
        other := { id := -1, type := SymbolType.Invalid } })],
    rowMap := [({ id := 0, type := SymbolType.External },
      { constant := -5, cells := [({ id := 1, type := SymbolType.Slack }, -1)] })],
    varMap := [(0, { id := 0, type := SymbolType.External })],
    editMap := [],
    infeasibleRows := [],
    objective := { constant := 0, cells := [] },
    artificial := none,
    idTick := 2,
    cnTick := 0,
    varValues := [] }

theorem stC1_reached : addConstraint 50 initState cnXplus5Le0 = (none, stC1) := by
  with_unfolding_all rfl

/-- A successful `suggestValue` always drains the infeasible worklist: all
three delta paths end in the dual loop, which only returns success once the
worklist is exhausted. -/
theorem suggestValue_worklist (fuel : Nat) (s : State) (v : VarId) (value : ℚ)
    (hok : (suggestValue fuel s v value).1 = none) :
    (suggestValue fuel s v value).2.infeasibleRows = [] := by
  revert hok
  unfold suggestValue
  split
  · intro h; exact absurd h (by simp)
  next info hinfo =>
    dsimp only
    split
    next row hbm => exact fun h => dualOptimizeLoop_empty_of_success fuel _ h
    next hbm =>
      split
      next row hbo => exact fun h => dualOptimizeLoop_empty_of_success fuel _ h
      next hbo => exact fun h => dualOptimizeLoop_empty_of_success fuel _ h

/-- A successful `addEditVariable` from an invariant state (whose synthesised
edit constraint does not go through the artificial phase) leaves the
worklist empty: it is an `addConstraint` of the edit constraint plus an
edit-map write. -/
theorem addEditVariable_worklist (fuel : Nat) (s : State) (v : VarId) (strength : ℚ)
    (hInv : Inv s)
    (hart : ¬ addUsesArtificial { s with cnTick := s.cnTick + 1 }
      ⟨s.cnTick, ⟨0, [(1, v)]⟩, Operator.Eq, Strength.clip strength⟩)
    (hok : (addEditVariable fuel s v strength).1 = none) :
    (addEditVariable fuel s v strength).2.infeasibleRows = [] := by
  revert hok
  unfold addEditVariable
  split
  · intro h; exact absurd h (by simp)
  · dsimp only
    split
    · intro h; exact absurd h (by simp)
    · split
      next e s1 heq => intro h; exact absurd h (by simp)
      next s1 heq =>
        split
        · intro h; exact absurd h (by simp)
        next tag htag =>
          intro _
          show s1.infeasibleRows = []
          have hpost := (addConstraint_post fuel { s with cnTick := s.cnTick + 1 }
            ⟨s.cnTick, ⟨0, [(1, v)]⟩, Operator.Eq, Strength.clip strength⟩
            hInv hart (by rw [heq])).2
          have hs1 : (addConstraint fuel { s with cnTick := s.cnTick + 1 }
              ⟨s.cnTick, ⟨0, [(1, v)]⟩, Operator.Eq, Strength.clip strength⟩).2 = s1 :=
            congrArg Prod.snd heq
          rw [hs1] at hpost
          exact hpost

/-- A successful `removeEditVariable` from an invariant state leaves the
worklist empty: it is a `removeConstraint` of the stored edit constraint
after an edit-map delete. -/
theorem removeEditVariable_worklist (fuel : Nat) (s : State) (v : VarId)
    (hInv : Inv s) (hok : (removeEditVariable fuel s v).1 = none) :
    (removeEditVariable fuel s v).2.infeasibleRows = [] := by
  obtain ⟨hwl, hf, -, -, -, -, -, -, hnd, -⟩ := hInv
  revert hok
  unfold removeEditVariable
  split
  · intro h; exact absurd h (by simp)
  next info hinfo =>
    intro hok2
    exact (removeConstraint_post fuel { s with editMap := alDel s.editMap v }
      info.constraint hf hnd hwl hok2).2

/-- Claim C1: a successful `addConstraint` can leave an External-keyed
basic row with constant −5, far below −ε: adding `x + 5 ≤ 0` to the empty
solver parks `x = −5` in the External row for `x`, so the claim's inclusion
of rows keyed by External symbols is wrong. -/
theorem claim_C1_counterexample :
    addConstraint 50 initState cnXplus5Le0 = (none, stC1) ∧
    (alGet stC1.rowMap ⟨0, SymbolType.External⟩).map Row.constant = some (-5) ∧
    ¬ (-eps ≤ (-5 : ℚ)) :=
  ⟨stC1_reached, by rfl, of_decide_eq_true (by with_unfolding_all rfl)⟩

/-- Claim C1 (amended): after a successful `addConstraint` that does not go
through the artificial-variable phase, a successful `removeConstraint`, or
a successful `suggestValue`, each called on a state satisfying the solver's
internal invariant, every restricted basic row (keyed by a non-External
symbol) has constant ≥ −ε; External-keyed rows are exempt. -/
theorem claim_C1_amended (fuel : Nat) (s : State) (cn : Constraint) (v : VarId)
    (value : ℚ) :
    (Inv s → ¬ addUsesArtificial s cn → (addConstraint fuel s cn).1 = none →
      feasibleTableau (addConstraint fuel s cn).2) ∧
    (Inv s → (removeConstraint fuel s cn).1 = none →
      feasibleTableau (removeConstraint fuel s cn).2) ∧
    (Inv s → (suggestValue fuel s v value).1 = none →
      feasibleTableau (suggestValue fuel s v value).2) := by
  refine ⟨?_, ?_, ?_⟩
  · intro hInv hart hok
    exact (addConstraint_post fuel s cn hInv hart hok).1
  · intro hInv hok
    obtain ⟨hwl, hf, -, -, -, -, -, -, hnd, -⟩ := hInv
    exact feasibleTableau_of_rowsFeasible
      (removeConstraint_post fuel s cn hf hnd hwl hok).1
  · intro hInv hok
    exact feasibleTableau_of_rowsFeasible (suggestValue_post fuel s v value hInv hok).1

theorem claim_C1_witness :
    feasibleTableau (addConstraint 50 initState cnXeq0Req).2 ∧
    feasibleTableau (removeConstraint 50 stDegenAdded cnXeq10Req).2 :=
  ⟨(claim_C1_amended 50 initState cnXeq0Req 0 0).1
      (of_decide_eq_true (by with_unfolding_all rfl))
      (of_decide_eq_true (by with_unfolding_all rfl))
      (by rw [stXeq0_reached]),
    (claim_C1_amended 50 stDegenAdded cnXeq10Req 0 0).2.1
      (of_decide_eq_true (by with_unfolding_all rfl))
      (by rw [stDegenRemoved_reached])⟩

/-- Claim C4 (amended): the infeasible worklist is empty after every
successful `suggestValue` (unconditionally), and after every successful
`addConstraint`, `removeConstraint`, `addEditVariable` or
`removeEditVariable` called on a state satisfying the solver's internal
invariant, provided the added (or synthesised edit) constraint is not
installed through the artificial-variable phase. -/
theorem claim_C4_amended (fuel : Nat) (s : State) (cn : Constraint) (v : VarId)
    (strength value : ℚ) :
    ((suggestValue fuel s v value).1 = none →
      (suggestValue fuel s v value).2.infeasibleRows = []) ∧
    (Inv s → ¬ addUsesArtificial s cn → (addConstraint fuel s cn).1 = none →
      (addConstraint fuel s cn).2.infeasibleRows = []) ∧
    (Inv s → (removeConstraint fuel s cn).1 = none →
      (removeConstraint fuel s cn).2.infeasibleRows = []) ∧
    (Inv s → ¬ addUsesArtificial { s with cnTick := s.cnTick + 1 }
        ⟨s.cnTick, ⟨0, [(1, v)]⟩, Operator.Eq, Strength.clip strength⟩ →
      (addEditVariable fuel s v strength).1 = none →
      (addEditVariable fuel s v strength).2.infeasibleRows = []) ∧
    (Inv s → (removeEditVariable fuel s v).1 = none →
      (removeEditVariable fuel s v).2.infeasibleRows = []) := by
  refine ⟨suggestValue_worklist fuel s v value, ?_, ?_, ?_, ?_⟩
  · intro hInv hart hok
    exact (addConstraint_post fuel s cn hInv hart hok).2
  · intro hInv hok
    obtain ⟨hwl, hf, -, -, -, -, -, -, hnd, -⟩ := hInv
    exact (removeConstraint_post fuel s cn hf hnd hwl hok).2
  · exact addEditVariable_worklist fuel s v strength
  · exact removeEditVariable_worklist fuel s v

theorem claim_C4_witness :
    (addConstraint 50 initState cnXeq0Req).2.infeasibleRows = [] ∧
    (removeConstraint 50 stDegenAdded cnXeq10Req).2.infeasibleRows = [] :=
  ⟨(claim_C4_amended 50 initState cnXeq0Req 0 0 0).2.1
      (of_decide_eq_true (by with_unfolding_all rfl))
      (of_decide_eq_true (by with_unfolding_all rfl))
      (by rw [stXeq0_reached]),
    (claim_C4_amended 50 stDegenAdded cnXeq10Req 0 0 0).2.2.1
      (of_decide_eq_true (by with_unfolding_all rfl))
      (by rw [stDegenRemoved_reached])⟩

end Kiwi
